import Mathlib

/-!
# Minesweeper engine (`minesweeper.h`, `minesweeper.cpp`)

Shallow embedding of the class `Minesweeper` and proofs about it.

Modelling conventions.

* `size_t` values are natural numbers.  The only arithmetic of the source that
  can leave the `size_t` range on a board that fits in memory is the
  subtraction `height * width - cells_with_mines.size()` (a mine list may be
  longer than the board); it is embedded with explicit wrap-around modulo
  `2 ^ 64`.  The counters `opened_cells_qty_` and `mines_qty_nearby` are
  incremented one by one and stay far below `2 ^ 64`.
* `std::vector<std::vector<CellInfo>>` is a list of rows; `field_[y][x]` is
  `cellAt field_ (y, x)`.  A `CellInfo*` is the index pair `(row, column)` of
  the cell it points to.  Indexing outside the vector is undefined behaviour
  in the source; the embedding reads a default cell and writes nothing there,
  and the theorems speak about in-range coordinates.  `OpenCellResult` and
  `MarkCellResult` mark the calls that index outside the vector as undefined.
* `std::time` is an input: every operation receives the clock values it reads.
  `lround (difftime ..)` is embedded with the rounding to `double` and to `long`.
* `std::shuffle` is an input: the shuffled `cell_id_list` is a parameter.
-/

namespace Mines

/-- Wrap-around modulus of `size_t`. -/
def SIZE_MOD : Nat := 2 ^ 64

/-- Subtraction of two `size_t` values, as the machine performs it. -/
def size_sub (a b : Nat) : Nat := (a % SIZE_MOD + SIZE_MOD - b % SIZE_MOD) % SIZE_MOD

/-- Multiplication of two `size_t` values, as the machine performs it. -/
def size_mul (a b : Nat) : Nat := (a * b) % SIZE_MOD

/-- The struct `Minesweeper::Cell`. -/
structure Cell where
  x : Nat := 0
  y : Nat := 0
deriving DecidableEq, Repr

/-- The struct `Minesweeper::CellInfo : Cell`. -/
structure CellInfo extends Cell where
  flag : Bool := false
  is_mine : Bool := false
  is_opened : Bool := false
  mines_qty_nearby : Nat := 0
deriving DecidableEq, Repr

instance : Inhabited CellInfo := ⟨{}⟩

/-- The enum `Minesweeper::GameStatus`. -/
inductive GameStatus where
  | NOT_STARTED
  | IN_PROGRESS
  | VICTORY
  | DEFEAT
deriving DecidableEq, Repr

/-- The type `Minesweeper::Field`: rows of cells, indexed `[y][x]`. -/
abbrev Field := List (List CellInfo)

/-- A `CellInfo*` into the field: `(row, column)` of the pointed cell. -/
abbrev CellPtr := Nat × Nat

/-- The private state of the class `Minesweeper`. -/
structure Minesweeper where
  field_width_ : Nat
  field_height_ : Nat
  game_status_ : GameStatus := GameStatus.NOT_STARTED
  game_start_time_ : Int := 0
  game_end_time_ : Int := 0
  field_ : Field
  opened_cells_qty_ : Nat := 0
  non_mines_qty_ : Nat
deriving DecidableEq, Repr

/-- Read of `field_[p.1][p.2]` (or of `*p` for a pointer `p`). -/
def cellAt (f : Field) (p : CellPtr) : CellInfo := (f.getD p.1 []).getD p.2 default

/-- Write through a reference to `field_[p.1][p.2]`: the cell is replaced by `upd cell`. -/
def modifyAt (f : Field) (p : CellPtr) (upd : CellInfo → CellInfo) : Field :=
  f.set p.1 ((f.getD p.1 []).set p.2 (upd (cellAt f p)))

/-- The statement `c.is_mine = true`. -/
def setMine (c : CellInfo) : CellInfo := { c with is_mine := true }

/-- The statement `c.is_opened = true`. -/
def setOpened (c : CellInfo) : CellInfo := { c with is_opened := true }

/-- The statement `++c.mines_qty_nearby`. -/
def incNearby (c : CellInfo) : CellInfo := { c with mines_qty_nearby := c.mines_qty_nearby + 1 }

/-- The statement `c.flag = !c.flag`. -/
def toggleFlag (c : CellInfo) : CellInfo := { c with flag := !c.flag }

/-- `Minesweeper::GetNeighbours`: pointers to the in-grid neighbours of the cell whose
stored coordinates are `cell.x`, `cell.y`, in the order the source pushes them. -/
def GetNeighbours (g : Minesweeper) (cell : Cell) : List CellPtr :=
  let i := cell.y
  let j := cell.x
  (if i > 0 ∧ j > 0 then [(i - 1, j - 1)] else []) ++
  (if i > 0 then [(i - 1, j)] else []) ++
  (if i > 0 ∧ j + 1 < g.field_width_ then [(i - 1, j + 1)] else []) ++
  (if j + 1 < g.field_width_ then [(i, j + 1)] else []) ++
  (if i + 1 < g.field_height_ ∧ j + 1 < g.field_width_ then [(i + 1, j + 1)] else []) ++
  (if i + 1 < g.field_height_ then [(i + 1, j)] else []) ++
  (if i + 1 < g.field_height_ ∧ j > 0 then [(i + 1, j - 1)] else []) ++
  (if j > 0 then [(i, j - 1)] else [])

/-- `Minesweeper::UpdateMinesQtyNearbyForNeighbours`: `++neighbour->mines_qty_nearby`
for every pointer returned by `GetNeighbours(cell)`. -/
def UpdateMinesQtyNearbyForNeighbours (g : Minesweeper) (cell : CellInfo) : Minesweeper :=
  (GetNeighbours g cell.toCell).foldl
    (fun g neighbour => { g with field_ := modifyAt g.field_ neighbour incNearby }) g

/-- `Minesweeper::SetMinesByList`. -/
def SetMinesByList (g : Minesweeper) (_width _height : Nat) (cells_with_mines : List Cell) :
    Minesweeper :=
  cells_with_mines.foldl
    (fun g mine =>
      let g1 := { g with field_ := modifyAt g.field_ (mine.y, mine.x) setMine }
      UpdateMinesQtyNearbyForNeighbours g1 (cellAt g1.field_ (mine.y, mine.x))) g

/-- `Minesweeper::SetMinesRandomly`.  The parameter `cell_id_list` is the vector after
`std::shuffle`.  The row `floor(static_cast<double>(id / width))` is the integer quotient:
the conversion to `double` is exact for every row index of a board that fits in memory. -/
def SetMinesRandomly (g : Minesweeper) (width _height mines_count : Nat)
    (cell_id_list : List Nat) : Minesweeper :=
  (List.range mines_count).foldl
    (fun g i =>
      let x := cell_id_list.getD i 0 % width
      let y := cell_id_list.getD i 0 / width
      let g1 := { g with field_ := modifyAt g.field_ (y, x) setMine }
      UpdateMinesQtyNearbyForNeighbours g1 (cellAt g1.field_ (y, x))) g

/-- The constructor `Minesweeper(width, height)`: `height` rows of `width` default cells,
then `field_[i][j].x = j` and `field_[i][j].y = i`.  The member `non_mines_qty_` has no
initialiser; its indeterminate value is the parameter `non_mines_init`. -/
def Minesweeper.ctor (width height : Nat) (non_mines_init : Nat) : Minesweeper :=
  { field_width_ := width
    field_height_ := height
    field_ := (List.range height).map fun i =>
      (List.range width).map fun j => ({ x := j, y := i } : CellInfo)
    non_mines_qty_ := non_mines_init }

/-- The constructor `Minesweeper(width, height, mines_count)`. -/
def Minesweeper.ctorCount (width height mines_count : Nat) (cell_id_list : List Nat) :
    Minesweeper :=
  let g := Minesweeper.ctor width height 0
  let g := { g with non_mines_qty_ := size_sub (size_mul height width) mines_count }
  SetMinesRandomly g width height mines_count cell_id_list

/-- The constructor `Minesweeper(width, height, cells_with_mines)`. -/
def Minesweeper.ctorList (width height : Nat) (cells_with_mines : List Cell) : Minesweeper :=
  let g := Minesweeper.ctor width height 0
  let g := { g with
    non_mines_qty_ := size_sub (size_mul height width) cells_with_mines.length }
  SetMinesByList g width height cells_with_mines

/-- `Minesweeper::ResetField`: the new cells are default-constructed (`x = 0`, `y = 0`);
`non_mines_qty_` is not touched. -/
def ResetField (g : Minesweeper) (width height : Nat) : Minesweeper :=
  { g with
    field_width_ := width
    field_height_ := height
    field_ := List.replicate height (List.replicate width default)
    game_status_ := GameStatus.NOT_STARTED
    game_start_time_ := 0
    game_end_time_ := 0
    opened_cells_qty_ := 0 }

/-- `Minesweeper::NewGame(width, height, mines_count)`. -/
def NewGameCount (g : Minesweeper) (width height mines_count : Nat) (cell_id_list : List Nat) :
    Minesweeper :=
  let g := ResetField g width height
  let g := { g with non_mines_qty_ := size_sub (size_mul height width) mines_count }
  SetMinesRandomly g width height mines_count cell_id_list

/-- `Minesweeper::NewGame(width, height, cells_with_mines)`. -/
def NewGameList (g : Minesweeper) (width height : Nat) (cells_with_mines : List Cell) :
    Minesweeper :=
  let g := ResetField g width height
  let g := { g with
    non_mines_qty_ := size_sub (size_mul height width) cells_with_mines.length }
  SetMinesByList g width height cells_with_mines

/-- `Minesweeper::StartGame`; `now` is the value `std::time` stores. -/
def StartGame (g : Minesweeper) (now : Int) : Minesweeper :=
  { g with game_start_time_ := now, game_status_ := GameStatus.IN_PROGRESS }

/-- One iteration of the `while` loop of `Minesweeper::Bfs`, with `current` the front of
the queue and `rest` the elements behind it.  Returns the engine and the queue after the
iteration (the front is popped last, so pushed neighbours go behind `rest`). -/
def BfsStep (g : Minesweeper) (current : CellPtr) (rest : List CellPtr) :
    Minesweeper × List CellPtr :=
  if (cellAt g.field_ current).is_opened then
    (g, rest)
  else
    let g1 := { g with
      field_ := modifyAt g.field_ current setOpened
      opened_cells_qty_ := g.opened_cells_qty_ + 1 }
    if (cellAt g1.field_ current).mines_qty_nearby > 0 then
      (g1, rest)
    else
      let neighbours := GetNeighbours g1 (cellAt g1.field_ current).toCell
      (g1, rest ++ neighbours.filter fun neighbour =>
        !((cellAt g1.field_ neighbour).is_opened || (cellAt g1.field_ neighbour).flag))

/-- The `while (!queue.empty())` loop of `Minesweeper::Bfs`, run for at most `fuel`
iterations.  The second component is the queue that is left: `[]` when the loop has
finished by itself. -/
def BfsLoop : Nat → Minesweeper → List CellPtr → Minesweeper × List CellPtr
  | _, g, [] => (g, [])
  | 0, g, current :: rest => (g, current :: rest)
  | fuel + 1, g, current :: rest =>
    BfsLoop fuel (BfsStep g current rest).1 (BfsStep g current rest).2

/-- Number of cells of the field that are not opened. -/
def unopenedQty (f : Field) : Nat := (f.map fun row => row.countP fun c => !c.is_opened).sum

/-- Iterations granted to the loop of `Bfs`: every iteration pops one pointer, and at most
eight pointers are pushed for each cell that gets opened, so the queue is empty within
this bound (proved below for every engine with a well-shaped field). -/
def bfsFuel (g : Minesweeper) : Nat := 8 * unopenedQty g.field_ + 1

/-- `Minesweeper::Bfs`: the queue starts with `&field_[cell.y][cell.x]`, addressed by the
coordinates stored in the argument. -/
def Bfs (g : Minesweeper) (cell : CellInfo) : Minesweeper :=
  (BfsLoop (bfsFuel g) g [(cell.y, cell.x)]).1

/-- The reveal loop of the defeat branch of `OpenCell`: every element of every row gets
`is_opened = true` and `opened_cells_qty_` is incremented once per element. -/
def revealAll (g : Minesweeper) : Minesweeper :=
  { g with
    field_ := g.field_.map fun row => row.map setOpened
    opened_cells_qty_ := g.opened_cells_qty_ + (g.field_.map List.length).sum }

/-- `Minesweeper::OpenCell`.  `clock_start` is the clock value read by `StartGame` (when it
is called), `clock_end` the value read when the game ends (when it does). -/
def OpenCell (g : Minesweeper) (clock_start clock_end : Int) (cell : Cell) : Minesweeper :=
  let g := if g.game_status_ = GameStatus.NOT_STARTED then StartGame g clock_start else g
  if g.game_status_ = GameStatus.IN_PROGRESS then
    let cell_info := cellAt g.field_ (cell.y, cell.x)
    if cell_info.is_mine then
      revealAll { g with game_end_time_ := clock_end, game_status_ := GameStatus.DEFEAT }
    else if !cell_info.is_opened && !cell_info.flag then
      let g := Bfs g cell_info
      if g.opened_cells_qty_ = g.non_mines_qty_ then
        { g with game_end_time_ := clock_end, game_status_ := GameStatus.VICTORY }
      else g
    else g
  else g

/-- `Minesweeper::MarkCell`; `clock_start` is the clock value read by `StartGame`. -/
def MarkCell (g : Minesweeper) (clock_start : Int) (cell : Cell) : Minesweeper :=
  let g := if g.game_status_ = GameStatus.NOT_STARTED then StartGame g clock_start else g
  if g.game_status_ = GameStatus.IN_PROGRESS then
    { g with field_ := modifyAt g.field_ (cell.y, cell.x) toggleFlag }
  else g

/-- `Minesweeper::GetGameStatus`. -/
def GetGameStatus (g : Minesweeper) : GameStatus := g.game_status_

/-- How a call of `OpenCell` or `MarkCell` ends: it returns and leaves an engine; or it
fails with the error `IndexOutOfRange` of the specification; or it indexes `field_` outside
the vector, which is undefined behaviour in the source. -/
inductive CallResult where
  | returns (g : Minesweeper)
  | index_out_of_range
  | undefined
deriving DecidableEq

/-- `Minesweeper::OpenCell` with the outcome of the call made explicit: the statement
`CellInfo& cell_info = field_[cell.y][cell.x]` is reached when the status (after
`StartGame`) is `IN_PROGRESS`, and it is undefined when the index is outside the vector.
The source has no statement that reports an error.  When the index is inside the vector the
call goes on as `OpenCell` does (its later accesses use the coordinates stored in the cells
and the guarded ones of `GetNeighbours`). -/
def OpenCellResult (g : Minesweeper) (clock_start clock_end : Int) (cell : Cell) :
    CallResult :=
  let g1 := if g.game_status_ = GameStatus.NOT_STARTED then StartGame g clock_start else g
  if g1.game_status_ = GameStatus.IN_PROGRESS then
    if cell.y < g1.field_.length ∧ cell.x < (g1.field_.getD cell.y []).length then
      CallResult.returns (OpenCell g clock_start clock_end cell)
    else CallResult.undefined
  else CallResult.returns g1

/-- `Minesweeper::MarkCell` with the outcome of the call made explicit, as for
`OpenCellResult`: `field_[cell.y][cell.x].flag` is reached when the status (after
`StartGame`) is `IN_PROGRESS`. -/
def MarkCellResult (g : Minesweeper) (clock_start : Int) (cell : Cell) : CallResult :=
  let g1 := if g.game_status_ = GameStatus.NOT_STARTED then StartGame g clock_start else g
  if g1.game_status_ = GameStatus.IN_PROGRESS then
    if cell.y < g1.field_.length ∧ cell.x < (g1.field_.getD cell.y []).length then
      CallResult.returns (MarkCell g clock_start cell)
    else CallResult.undefined
  else CallResult.returns g1

/-- `std::to_string` of a `size_t`: its decimal digits. -/
def to_string (n : Nat) : String := String.mk (Nat.toDigits 10 n)

/-- The text appended to the row for one cell in `Minesweeper::RenderField`. -/
def renderCell (cell : CellInfo) : String :=
  if cell.is_opened then
    if cell.is_mine then "*"
    else if cell.mines_qty_nearby > 0 then to_string cell.mines_qty_nearby
    else "."
  else if cell.flag then "?"
  else "-"

/-- `Minesweeper::RenderField`: one string per row of `field_`. -/
def RenderField (g : Minesweeper) : List String :=
  g.field_.map fun i => i.foldl (fun row cell => row ++ renderCell cell) ""

/-! ## Vocabulary of the statements -/

/-- The pointer `p` designates a cell of a grid with `w` columns and `h` rows. -/
def InGrid (w h : Nat) (p : CellPtr) : Prop := p.1 < h ∧ p.2 < w

instance (w h : Nat) (p : CellPtr) : Decidable (InGrid w h p) := by
  unfold InGrid; infer_instance

/-- Two grid positions are neighbours: they differ, and their rows and their columns are at
most one apart. -/
def Adjacent (p q : CellPtr) : Prop :=
  p ≠ q ∧ p.1 ≤ q.1 + 1 ∧ q.1 ≤ p.1 + 1 ∧ p.2 ≤ q.2 + 1 ∧ q.2 ≤ p.2 + 1

instance (p q : CellPtr) : Decidable (Adjacent p q) := by
  unfold Adjacent; infer_instance

/-- The field has `h` rows of `w` cells each. -/
def Shaped (f : Field) (w h : Nat) : Prop := f.length = h ∧ ∀ row ∈ f, row.length = w

instance (f : Field) (w h : Nat) : Decidable (Shaped f w h) := by
  unfold Shaped; infer_instance

/-- Every cell of the grid stores its own coordinates (what the constructor establishes). -/
def Coherent (f : Field) (w h : Nat) : Prop :=
  ∀ p, InGrid w h p → (cellAt f p).x = p.2 ∧ (cellAt f p).y = p.1

/-- The cell at column `x`, row `y`, in the coordinates of the public interface. -/
def Minesweeper.cell (g : Minesweeper) (x y : Nat) : CellInfo := cellAt g.field_ (y, x)

/-- The in-grid neighbours of `p` that are mines. -/
def mineNeighbours (g : Minesweeper) (p : CellPtr) : Finset CellPtr :=
  ((Finset.range g.field_height_) ×ˢ (Finset.range g.field_width_)).filter
    fun q => Adjacent q p ∧ (cellAt g.field_ q).is_mine = true

/-- Every cell of `f2` is the cell of `f` at the same place, possibly with `is_opened`
set. -/
def OnlyOpens (f f2 : Field) : Prop :=
  ∀ p, cellAt f2 p = cellAt f p ∨ cellAt f2 p = setOpened (cellAt f p)

/-- The engine `g` with the cell behind `current` opened and counted (the state named `g1`
in `BfsStep`). -/
def openedAt (g : Minesweeper) (current : CellPtr) : Minesweeper :=
  { g with
    field_ := modifyAt g.field_ current setOpened
    opened_cells_qty_ := g.opened_cells_qty_ + 1 }

/-- The field has the declared shape and every cell stores coordinates of the grid: this
holds in every state the public interface produces. -/
def Valid (g : Minesweeper) : Prop :=
  Shaped g.field_ g.field_width_ g.field_height_ ∧
    ∀ p, InGrid g.field_width_ g.field_height_ p →
      InGrid g.field_width_ g.field_height_ ((cellAt g.field_ p).y, (cellAt g.field_ p).x)

/-- The set `R` of the flood fill started at `s` on the board of `g`: the least set that
contains `s` and, with every cell `c` of it whose `mines_qty_nearby` is 0, every neighbour
of `c` that is unopened and unflagged in `g`. -/
inductive FloodSet (g : Minesweeper) (s : CellPtr) : CellPtr → Prop
  | start : FloodSet g s s
  | step {c n : CellPtr} : FloodSet g s c → (cellAt g.field_ c).mines_qty_nearby = 0 →
      InGrid g.field_width_ g.field_height_ n → Adjacent n c →
      (cellAt g.field_ n).is_opened = false → (cellAt g.field_ n).flag = false →
      FloodSet g s n

/-- The members of the engine that the flood fill and the flag toggle never write. -/
def SameFrame (g g2 : Minesweeper) : Prop :=
  g2.field_width_ = g.field_width_ ∧ g2.field_height_ = g.field_height_ ∧
    g2.game_status_ = g.game_status_ ∧ g2.game_start_time_ = g.game_start_time_ ∧
    g2.game_end_time_ = g.game_end_time_ ∧ g2.non_mines_qty_ = g.non_mines_qty_

/-- Loop invariant of `Bfs`: `g0` is the engine at entry, `s` the start pointer, `g` the
current engine, `q` the queue and `D` the cells opened so far. -/
structure BfsInv (g0 : Minesweeper) (s : CellPtr) (g : Minesweeper) (q D : List CellPtr) :
    Prop where
  frame : SameFrame g0 g
  qty : g.opened_cells_qty_ = g0.opened_cells_qty_ + D.length
  shaped : Shaped g.field_ g0.field_width_ g0.field_height_
  cells : ∀ p, cellAt g.field_ p =
    if p ∈ D then setOpened (cellAt g0.field_ p) else cellAt g0.field_ p
  nodup : D.Nodup
  sound : ∀ p ∈ D, FloodSet g0 s p
  queue : ∀ p ∈ q, FloodSet g0 s p
  start : s ∈ D ∨ s ∈ q
  closed : ∀ c ∈ D, (cellAt g0.field_ c).mines_qty_nearby = 0 →
    ∀ n, InGrid g0.field_width_ g0.field_height_ n → Adjacent n c →
      (cellAt g0.field_ n).is_opened = false → (cellAt g0.field_ n).flag = false →
      n ∈ D ∨ n ∈ q

/-- The engine after the first statement of `OpenCell` and `MarkCell`. -/
def ensureStarted (g : Minesweeper) (clock_start : Int) : Minesweeper :=
  if g.game_status_ = GameStatus.NOT_STARTED then StartGame g clock_start else g

/-- The states a game started as `g0` can reach by `OpenCell` and `MarkCell` calls on
in-bounds coordinates, with arbitrary clock readings. -/
inductive Reachable (g0 : Minesweeper) : Minesweeper → Prop
  | init : Reachable g0 g0
  | open_cell {g : Minesweeper} (clock_start clock_end : Int) (cell : Cell) :
      Reachable g0 g → cell.x < g.field_width_ → cell.y < g.field_height_ →
      Reachable g0 (OpenCell g clock_start clock_end cell)
  | mark_cell {g : Minesweeper} (clock_start : Int) (cell : Cell) :
      Reachable g0 g → cell.x < g.field_width_ → cell.y < g.field_height_ →
      Reachable g0 (MarkCell g clock_start cell)

/-- A board as the list constructor leaves it: right shape, cells that store their own
coordinates, no cell opened, and a cell with `mines_qty_nearby = 0` has no mine around. -/
structure FreshBoard (g0 : Minesweeper) : Prop where
  shaped : Shaped g0.field_ g0.field_width_ g0.field_height_
  coherent : Coherent g0.field_ g0.field_width_ g0.field_height_
  counts_sound : ∀ c n, InGrid g0.field_width_ g0.field_height_ c →
    InGrid g0.field_width_ g0.field_height_ n → Adjacent n c →
    (cellAt g0.field_ c).mines_qty_nearby = 0 → (cellAt g0.field_ n).is_mine = false
  status : g0.game_status_ = GameStatus.NOT_STARTED
  opened_qty : g0.opened_cells_qty_ = 0
  unopened : ∀ p, (cellAt g0.field_ p).is_opened = false

/-- Invariant of the states reachable from a fresh board `g0`. -/
structure GameInv (g0 g : Minesweeper) : Prop where
  width : g.field_width_ = g0.field_width_
  height : g.field_height_ = g0.field_height_
  non_mines : g.non_mines_qty_ = g0.non_mines_qty_
  shaped : Shaped g.field_ g0.field_width_ g0.field_height_
  static : ∀ p, (cellAt g.field_ p).toCell = (cellAt g0.field_ p).toCell ∧
    (cellAt g.field_ p).is_mine = (cellAt g0.field_ p).is_mine ∧
    (cellAt g.field_ p).mines_qty_nearby = (cellAt g0.field_ p).mines_qty_nearby
  fresh : g.game_status_ = GameStatus.NOT_STARTED →
    g.opened_cells_qty_ = 0 ∧ ∀ p, (cellAt g.field_ p).is_opened = false
  progress : g.game_status_ = GameStatus.IN_PROGRESS →
    g.opened_cells_qty_ = 0 ∨ g.opened_cells_qty_ ≠ g.non_mines_qty_
  safe : g.game_status_ ≠ GameStatus.DEFEAT →
    ∀ p, (cellAt g.field_ p).is_mine = true → (cellAt g.field_ p).is_opened = false
  victory : g.game_status_ = GameStatus.VICTORY →
    g.opened_cells_qty_ = g.non_mines_qty_ ∧ 0 < g.opened_cells_qty_
  defeat : g.game_status_ = GameStatus.DEFEAT →
    ∃ p, InGrid g0.field_width_ g0.field_height_ p ∧ (cellAt g.field_ p).is_mine = true ∧
      (cellAt g.field_ p).is_opened = true

/-- The cells of the grid that are mines. -/
def mineCells (g : Minesweeper) : Finset CellPtr :=
  ((Finset.range g.field_height_) ×ˢ (Finset.range g.field_width_)).filter
    fun q => (cellAt g.field_ q).is_mine = true

/-- The cells of the grid that are not mines. -/
def safeCells (g : Minesweeper) : Finset CellPtr :=
  ((Finset.range g.field_height_) ×ˢ (Finset.range g.field_width_)).filter
    fun q => ¬ (cellAt g.field_ q).is_mine = true

/-- The character the specification assigns to a cell: `*` if opened and mine; the decimal
digit of `mines_qty_nearby` if opened, not mine and `mines_qty_nearby > 0`; `.` if opened,
not mine and `mines_qty_nearby == 0`; `?` if unopened and flagged; `-` if unopened and
unflagged. -/
def specChar (cell : CellInfo) : Char :=
  if cell.is_opened = true ∧ cell.is_mine = true then '*'
  else if cell.is_opened = true ∧ cell.is_mine = false ∧ cell.mines_qty_nearby > 0 then
    Nat.digitChar cell.mines_qty_nearby
  else if cell.is_opened = true ∧ cell.is_mine = false ∧ cell.mines_qty_nearby = 0 then '.'
  else if cell.is_opened = false ∧ cell.flag = true then '?'
  else '-'

/-- Stage of a status in the order NotStarted < InProgress < {Victory, Defeat}. -/
def GameStatus.stage : GameStatus → Nat
  | GameStatus.NOT_STARTED => 0
  | GameStatus.IN_PROGRESS => 1
  | GameStatus.VICTORY => 2
  | GameStatus.DEFEAT => 2

/-- The cells of the grid that are opened. -/
def openedCells (g : Minesweeper) : Finset CellPtr :=
  ((Finset.range g.field_height_) ×ˢ (Finset.range g.field_width_)).filter
    fun q => (cellAt g.field_ q).is_opened = true

/-- The engines the three constructors and the two `NewGame` overloads produce. -/
inductive IsSetup : Minesweeper → Prop
  | ctor (width height junk : Nat) : IsSetup (Minesweeper.ctor width height junk)
  | ctorCount (width height mines_count : Nat) (cell_id_list : List Nat) :
      IsSetup (Minesweeper.ctorCount width height mines_count cell_id_list)
  | ctorList (width height : Nat) (cells_with_mines : List Cell) :
      IsSetup (Minesweeper.ctorList width height cells_with_mines)
  | newGameCount (g : Minesweeper) (width height mines_count : Nat) (cell_id_list : List Nat) :
      IsSetup (NewGameCount g width height mines_count cell_id_list)
  | newGameList (g : Minesweeper) (width height : Nat) (cells_with_mines : List Cell) :
      IsSetup (NewGameList g width height cells_with_mines)

/-! ## Reading and writing the field -/

theorem getD_set_eq {α : Type} (l : List α) (i j : Nat) (a d : α) :
    (l.set i a).getD j d = if i = j ∧ i < l.length then a else l.getD j d := by
  simp only [List.getD_eq_getElem?_getD, List.getElem?_set]
  by_cases h : i = j
  · subst h
    by_cases h2 : i < l.length
    · simp [h2]
    · simp [h2]
      rw [List.getElem?_eq_none (by omega)]
      simp
  · simp [h]

theorem getD_mem_or {α : Type} (l : List α) (i : Nat) (d : α) :
    l.getD i d ∈ l ∨ (l.length ≤ i ∧ l.getD i d = d) := by
  by_cases h : i < l.length
  · left
    rw [List.getD_eq_getElem l d h]
    exact List.getElem_mem h
  · right
    exact ⟨by omega, List.getD_eq_default l d (by omega)⟩

theorem Shaped.row_length {f : Field} {w h : Nat} (hs : Shaped f w h) {i : Nat} (hi : i < h) :
    (f.getD i []).length = w := by
  rcases getD_mem_or f i [] with hm | ⟨hle, _⟩
  · exact hs.2 _ hm
  · have := hs.1
    omega

theorem cellAt_modifyAt (f : Field) (p q : CellPtr) (u : CellInfo → CellInfo) :
    cellAt (modifyAt f p u) q =
      if q = p ∧ p.1 < f.length ∧ p.2 < (f.getD p.1 []).length then u (cellAt f p)
      else cellAt f q := by
  obtain ⟨a, b⟩ := p
  obtain ⟨c, d⟩ := q
  simp only [cellAt, modifyAt, getD_set_eq, Prod.mk.injEq]
  by_cases h1 : a = c ∧ a < f.length
  · rw [if_pos h1]
    obtain ⟨rfl, h2⟩ := h1
    rw [getD_set_eq]
    by_cases h3 : b = d ∧ b < (f.getD a []).length
    · rw [if_pos h3, if_pos ⟨⟨rfl, h3.1.symm⟩, h2, h3.2⟩]
    · rw [if_neg h3, if_neg (fun h => h3 ⟨h.1.2.symm, h.2.2⟩)]
  · rw [if_neg h1, if_neg (fun h => h1 ⟨h.1.1.symm, h.2.1⟩)]

theorem cellAt_modifyAt_shaped {f : Field} {w h : Nat} (hs : Shaped f w h) {p : CellPtr}
    (hp : InGrid w h p) (q : CellPtr) (u : CellInfo → CellInfo) :
    cellAt (modifyAt f p u) q = if q = p then u (cellAt f p) else cellAt f q := by
  rw [cellAt_modifyAt]
  have h1 : p.1 < f.length := by rw [hs.1]; exact hp.1
  have h2 : p.2 < (f.getD p.1 []).length := by rw [hs.row_length hp.1]; exact hp.2
  by_cases hq : q = p
  · rw [if_pos ⟨hq, h1, h2⟩, if_pos hq]
  · rw [if_neg (fun h => hq h.1), if_neg hq]

theorem shaped_modifyAt {f : Field} {w h : Nat} (hs : Shaped f w h) (p : CellPtr)
    (u : CellInfo → CellInfo) : Shaped (modifyAt f p u) w h := by
  by_cases hp : p.1 < f.length
  · refine ⟨by simp [Mines.modifyAt, hs.1], ?_⟩
    intro row hrow
    simp only [Mines.modifyAt] at hrow
    rcases List.mem_or_eq_of_mem_set hrow with hm | he
    · exact hs.2 _ hm
    · subst he
      rw [List.length_set]
      exact hs.row_length (by rw [← hs.1]; exact hp)
  · have : Mines.modifyAt f p u = f := by
      unfold Mines.modifyAt
      exact List.set_eq_of_length_le (by omega)
    rw [this]
    exact hs

theorem cellAt_default_of_not_inGrid {f : Field} {w h : Nat} (hs : Shaped f w h) {p : CellPtr}
    (hp : ¬ InGrid w h p) : cellAt f p = default := by
  unfold cellAt
  by_cases h1 : p.1 < h
  · have h2 : ¬ p.2 < w := fun h2 => hp ⟨h1, h2⟩
    apply List.getD_eq_default
    rw [hs.row_length h1]
    omega
  · rw [List.getD_eq_default f [] (by rw [hs.1]; omega)]
    rfl

/-! ## Neighbours -/

theorem GetNeighbours_congr {g g2 : Minesweeper} (hw : g2.field_width_ = g.field_width_)
    (hh : g2.field_height_ = g.field_height_) (c : Cell) :
    GetNeighbours g2 c = GetNeighbours g c := by
  simp only [GetNeighbours, hw, hh]

theorem mem_GetNeighbours (g : Minesweeper) (c : Cell)
    (hc : InGrid g.field_width_ g.field_height_ (c.y, c.x)) (q : CellPtr) :
    q ∈ GetNeighbours g c ↔
      InGrid g.field_width_ g.field_height_ q ∧ Adjacent q (c.y, c.x) := by
  obtain ⟨a, b⟩ := q
  obtain ⟨hc1, hc2⟩ := hc
  simp only [] at hc1 hc2
  simp only [GetNeighbours, InGrid, Adjacent, List.mem_append, ne_eq, Prod.mk.injEq,
    List.mem_ite_nil_right, List.mem_singleton]
  constructor
  · rintro (((((((h | h) | h) | h) | h) | h) | h) | h) <;> omega
  · rintro ⟨⟨h1, h2⟩, hne, h3, h4, h5, h6⟩
    have ha : a + 1 = c.y ∨ a = c.y ∨ a = c.y + 1 := by omega
    have hb : b + 1 = c.x ∨ b = c.x ∨ b = c.x + 1 := by omega
    rcases ha with ha | ha | ha <;> rcases hb with hb | hb | hb <;>
      first
      | exact Or.inr (by omega)
      | exact Or.inl (Or.inr (by omega))
      | exact Or.inl (Or.inl (Or.inr (by omega)))
      | exact Or.inl (Or.inl (Or.inl (Or.inr (by omega))))
      | exact Or.inl (Or.inl (Or.inl (Or.inl (Or.inr (by omega)))))
      | exact Or.inl (Or.inl (Or.inl (Or.inl (Or.inl (Or.inr (by omega))))))
      | exact Or.inl (Or.inl (Or.inl (Or.inl (Or.inl (Or.inl (Or.inr (by omega)))))))
      | exact Or.inl (Or.inl (Or.inl (Or.inl (Or.inl (Or.inl (Or.inl (by omega)))))))

theorem GetNeighbours_length_le (g : Minesweeper) (c : Cell) :
    (GetNeighbours g c).length ≤ 8 := by
  simp only [GetNeighbours, List.length_append]
  split_ifs <;> simp

theorem GetNeighbours_nodup (g : Minesweeper) (c : Cell) : (GetNeighbours g c).Nodup := by
  simp only [GetNeighbours]
  by_cases h1 : c.y > 0 <;> by_cases h2 : c.x > 0 <;>
    by_cases h3 : c.x + 1 < g.field_width_ <;> by_cases h4 : c.y + 1 < g.field_height_ <;>
    simp only [h1, h2, h3, h4, and_self, and_true, true_and, and_false, false_and, if_true,
      if_false, List.nil_append, List.append_nil, List.singleton_append, List.cons_append,
      List.nodup_cons, List.nodup_nil, List.mem_cons, List.mem_singleton, Prod.mk.injEq,
      List.not_mem_nil, not_false_eq_true, or_false] <;> omega

theorem Adjacent.symm {p q : CellPtr} (h : Adjacent p q) : Adjacent q p :=
  ⟨fun e => h.1 e.symm, h.2.2.1, h.2.1, h.2.2.2.2, h.2.2.2.1⟩

theorem GetNeighbours_inGrid {g : Minesweeper} {c : Cell}
    (hc : InGrid g.field_width_ g.field_height_ (c.y, c.x)) {q : CellPtr}
    (hq : q ∈ GetNeighbours g c) : InGrid g.field_width_ g.field_height_ q :=
  ((mem_GetNeighbours g c hc q).1 hq).1

/-! ## Placing mines -/

theorem UpdateMinesQty_frame (g : Minesweeper) (cell : CellInfo) :
    UpdateMinesQtyNearbyForNeighbours g cell =
      { g with field_ := ((GetNeighbours g cell.toCell).foldl
          (fun f n => modifyAt f n incNearby) g.field_) } := by
  unfold UpdateMinesQtyNearbyForNeighbours
  generalize GetNeighbours g cell.toCell = ps
  induction ps generalizing g with
  | nil => rfl
  | cons p ps ih => simp only [List.foldl_cons]; rw [ih]

theorem shaped_incAll {w h : Nat} (ps : List CellPtr) {f : Field} (hs : Shaped f w h) :
    Shaped (ps.foldl (fun f n => modifyAt f n incNearby) f) w h := by
  induction ps generalizing f with
  | nil => exact hs
  | cons p ps ih => exact ih (shaped_modifyAt hs p _)

theorem cellAt_incAll {w h : Nat} (ps : List CellPtr) {f : Field} (hs : Shaped f w h)
    (hin : ∀ p ∈ ps, InGrid w h p) (hnd : ps.Nodup) (q : CellPtr) :
    cellAt (ps.foldl (fun f n => modifyAt f n incNearby) f) q =
      { cellAt f q with
        mines_qty_nearby := (cellAt f q).mines_qty_nearby + if q ∈ ps then 1 else 0 } := by
  induction ps generalizing f with
  | nil => rfl
  | cons p ps ih =>
    simp only [List.foldl_cons]
    rw [ih (shaped_modifyAt hs p _) (fun r hr => hin r (List.mem_cons_of_mem _ hr))
      (List.nodup_cons.1 hnd).2,
      cellAt_modifyAt_shaped hs (hin p (List.mem_cons_self _ _))]
    by_cases hq : q = p
    · subst hq
      have hq2 : q ∉ ps := (List.nodup_cons.1 hnd).1
      simp only [if_true, incNearby, List.mem_cons, true_or, hq2, if_false, add_zero]
    · simp only [hq, if_false, List.mem_cons, false_or]

theorem cell_eta (c : CellInfo) : (⟨⟨c.x, c.y⟩, c.flag, c.is_mine, c.is_opened,
    c.mines_qty_nearby⟩ : CellInfo) = c := rfl

theorem SetMinesByList_spec (w h a b : Nat) (mines : List Cell) (g : Minesweeper)
    (hw : g.field_width_ = w) (hh : g.field_height_ = h) (hs : Shaped g.field_ w h)
    (hc : Coherent g.field_ w h) (hin : ∀ m ∈ mines, InGrid w h (m.y, m.x)) :
    ∃ f, SetMinesByList g a b mines = { g with field_ := f } ∧ Shaped f w h ∧
      ∀ q, cellAt f q =
        { cellAt g.field_ q with
          is_mine := (cellAt g.field_ q).is_mine || decide (Cell.mk q.2 q.1 ∈ mines)
          mines_qty_nearby := (cellAt g.field_ q).mines_qty_nearby +
            mines.countP (fun m => decide (q ∈ GetNeighbours g m)) } := by
  induction mines generalizing g with
  | nil =>
    refine ⟨g.field_, rfl, hs, fun q => ?_⟩
    simp
  | cons m mines ih =>
    have hm : InGrid w h (m.y, m.x) := hin m (List.mem_cons_self _ _)
    have hm2 : InGrid g.field_width_ g.field_height_ (m.y, m.x) := by rw [hw, hh]; exact hm
    have hcell : (cellAt (modifyAt g.field_ (m.y, m.x) setMine) (m.y, m.x)).toCell = m := by
      rw [cellAt_modifyAt_shaped hs hm, if_pos rfl]
      have := hc _ hm
      cases m
      simp only [setMine] at this ⊢
      rw [Cell.mk.injEq]
      exact this
    have hnb : ∀ p ∈ GetNeighbours g m, InGrid w h p := by
      intro p hp
      have := GetNeighbours_inGrid hm2 hp
      rwa [hw, hh] at this
    have hs1 : Shaped (modifyAt g.field_ (m.y, m.x) setMine) w h := shaped_modifyAt hs _ _
    have hstep : UpdateMinesQtyNearbyForNeighbours
        { g with field_ := modifyAt g.field_ (m.y, m.x) setMine }
        (cellAt (modifyAt g.field_ (m.y, m.x) setMine) (m.y, m.x)) =
        { g with field_ := ((GetNeighbours g m).foldl (fun f n => modifyAt f n incNearby)
          (modifyAt g.field_ (m.y, m.x) setMine)) } := by
      rw [UpdateMinesQty_frame, hcell]
      rfl
    have hq2 : ∀ q, cellAt ((GetNeighbours g m).foldl (fun f n => modifyAt f n incNearby)
          (modifyAt g.field_ (m.y, m.x) setMine)) q =
        { cellAt g.field_ q with
          is_mine := (cellAt g.field_ q).is_mine || decide (q = (m.y, m.x))
          mines_qty_nearby := (cellAt g.field_ q).mines_qty_nearby +
            if q ∈ GetNeighbours g m then 1 else 0 } := by
      intro q
      rw [cellAt_incAll _ hs1 hnb (GetNeighbours_nodup g m), cellAt_modifyAt_shaped hs hm]
      by_cases hq : q = (m.y, m.x)
      · simp [hq, setMine]
      · simp [hq]
    have hc2 : Coherent ((GetNeighbours g m).foldl (fun f n => modifyAt f n incNearby)
          (modifyAt g.field_ (m.y, m.x) setMine)) w h := by
      intro p hp
      rw [hq2]
      exact hc p hp
    obtain ⟨f, hf, hsf, hcf⟩ := ih
      { g with field_ := ((GetNeighbours g m).foldl (fun f n => modifyAt f n incNearby)
          (modifyAt g.field_ (m.y, m.x) setMine)) } hw hh (shaped_incAll _ hs1) hc2
      (fun r hr => hin r (List.mem_cons_of_mem _ hr))
    refine ⟨f, ?_, hsf, fun q => ?_⟩
    · simp only [SetMinesByList, List.foldl_cons] at hf ⊢
      rw [hstep, hf]
    · rw [hcf q]
      simp only [hq2]
      have e1 : ∀ r : Cell, GetNeighbours { g with field_ := ((GetNeighbours g m).foldl
          (fun f n => modifyAt f n incNearby) (modifyAt g.field_ (m.y, m.x) setMine)) } r =
          GetNeighbours g r := fun r => GetNeighbours_congr rfl rfl r
      simp only [e1, List.countP_cons, List.mem_cons]
      have e2 : (q = (m.y, m.x)) ↔ (Cell.mk q.2 q.1 = m) := by
        obtain ⟨q1, q2⟩ := q
        cases m
        simp only [Prod.mk.injEq, Cell.mk.injEq]
        exact and_comm
      by_cases hq : q = (m.y, m.x)
      · have hq3 := e2.1 hq
        simp only [hq3, true_or, decide_True, Bool.or_true, hq]
        congr 1
        simp only [decide_eq_true_eq]
        omega
      · have hq3 : ¬ Cell.mk q.2 q.1 = m := fun e => hq (e2.2 e)
        simp only [hq3, false_or, hq, decide_False, Bool.or_false]
        congr 1
        simp only [decide_eq_true_eq]
        omega

/-! ## The constructors -/

theorem cellAt_ctor (width height junk : Nat) (p : CellPtr) :
    cellAt (Minesweeper.ctor width height junk).field_ p =
      if InGrid width height p then ({ x := p.2, y := p.1 } : CellInfo) else default := by
  obtain ⟨a, b⟩ := p
  simp only [cellAt, Minesweeper.ctor, InGrid, List.getD_eq_getElem?_getD, List.getElem?_map,
    List.getElem?_range]
  by_cases h1 : a < height
  · by_cases h2 : b < width
    · simp [h1, h2, List.getElem?_range]
    · have e : (List.range width)[b]? = none := List.getElem?_eq_none (by simp; omega)
      simp [h1, h2, e]
  · have e : (List.range height)[a]? = none := List.getElem?_eq_none (by simp; omega)
    simp [h1, e]

theorem shaped_ctor (width height junk : Nat) :
    Shaped (Minesweeper.ctor width height junk).field_ width height := by
  constructor
  · simp [Minesweeper.ctor]
  · intro row hrow
    simp only [Minesweeper.ctor, List.mem_map] at hrow
    obtain ⟨i, _, rfl⟩ := hrow
    simp

theorem coherent_ctor (width height junk : Nat) :
    Coherent (Minesweeper.ctor width height junk).field_ width height := by
  intro p hp
  rw [cellAt_ctor, if_pos hp]
  exact ⟨rfl, rfl⟩

/-- The board built from a mine list: frame, shape, and every cell in closed form. -/
theorem ctorList_spec (width height : Nat) (mines : List Cell)
    (hin : ∀ m ∈ mines, m.x < width ∧ m.y < height) :
    ∃ f, Minesweeper.ctorList width height mines =
        { field_width_ := width, field_height_ := height, field_ := f,
          non_mines_qty_ := size_sub (size_mul height width) mines.length } ∧
      Shaped f width height ∧
      ∀ q, InGrid width height q → cellAt f q =
        { x := q.2, y := q.1, is_mine := decide (Cell.mk q.2 q.1 ∈ mines),
          mines_qty_nearby := mines.countP fun m =>
            decide (Adjacent q (m.y, m.x)) } := by
  obtain ⟨f, hf, hs, hq⟩ := SetMinesByList_spec width height width height mines
    { Minesweeper.ctor width height 0 with
      non_mines_qty_ := size_sub (size_mul height width) mines.length }
    rfl rfl (shaped_ctor _ _ _) (coherent_ctor _ _ _) (fun m hm => ⟨(hin m hm).2, (hin m hm).1⟩)
  refine ⟨f, ?_, hs, fun q hqin => ?_⟩
  · unfold Minesweeper.ctorList
    rw [hf]
    rfl
  · rw [hq q]
    have e : (cellAt (Minesweeper.ctor width height 0).field_ q) =
        ({ x := q.2, y := q.1 } : CellInfo) := by rw [cellAt_ctor, if_pos hqin]
    simp only [e, Bool.false_or, zero_add]
    congr 1
    apply List.countP_congr
    intro m hm
    have hm2 : InGrid width height (m.y, m.x) := ⟨(hin m hm).2, (hin m hm).1⟩
    simp only [decide_eq_true_eq]
    rw [mem_GetNeighbours _ _ hm2]
    exact ⟨fun hx => hx.2, fun hx => ⟨hqin, hx⟩⟩

theorem card_mineNeighbours (g : Minesweeper) (mines : List Cell)
    (hin : ∀ m ∈ mines, m.x < g.field_width_ ∧ m.y < g.field_height_) (hnd : mines.Nodup)
    (hmine : ∀ p, InGrid g.field_width_ g.field_height_ p →
      ((cellAt g.field_ p).is_mine = true ↔ Cell.mk p.2 p.1 ∈ mines)) (q : CellPtr) :
    (mineNeighbours g q).card =
      mines.countP fun m => decide (Adjacent q (m.y, m.x)) := by
  have hinj : Function.Injective (fun m : Cell => ((m.y, m.x) : CellPtr)) := by
    intro m1 m2 he
    cases m1; cases m2
    simp only [Prod.mk.injEq] at he
    rw [Cell.mk.injEq]
    exact ⟨he.2, he.1⟩
  have hnd2 : ((mines.filter fun m => decide (Adjacent q (m.y, m.x))).map
      fun m : Cell => ((m.y, m.x) : CellPtr)).Nodup :=
    (hnd.filter _).map hinj
  have key : mineNeighbours g q =
      ((mines.filter fun m => decide (Adjacent q (m.y, m.x))).map
        fun m : Cell => ((m.y, m.x) : CellPtr)).toFinset := by
    ext p
    simp only [mineNeighbours, Finset.mem_filter, Finset.mem_product, Finset.mem_range,
      List.mem_toFinset, List.mem_map, List.mem_filter, decide_eq_true_eq]
    constructor
    · rintro ⟨hp, hadj, hm⟩
      exact ⟨Cell.mk p.2 p.1, ⟨(hmine p hp).1 hm, hadj.symm⟩, rfl⟩
    · rintro ⟨m, ⟨hm, hadj⟩, rfl⟩
      have hp : InGrid g.field_width_ g.field_height_ (m.y, m.x) :=
        ⟨(hin m hm).2, (hin m hm).1⟩
      exact ⟨hp, hadj.symm, (hmine _ hp).2 hm⟩
  rw [key, List.toFinset_card_of_nodup hnd2, List.length_map, List.countP_eq_length_filter]

theorem card_mineNeighbours_le (g : Minesweeper) (q : CellPtr)
    (hq : InGrid g.field_width_ g.field_height_ q) : (mineNeighbours g q).card ≤ 8 := by
  have hsub : mineNeighbours g q ⊆ (GetNeighbours g ⟨q.2, q.1⟩).toFinset := by
    intro p hp
    simp only [mineNeighbours, Finset.mem_filter, Finset.mem_product, Finset.mem_range] at hp
    rw [List.mem_toFinset, mem_GetNeighbours g ⟨q.2, q.1⟩ hq]
    exact ⟨hp.1, hp.2.1⟩
  calc (mineNeighbours g q).card ≤ (GetNeighbours g ⟨q.2, q.1⟩).toFinset.card :=
        Finset.card_le_card hsub
    _ ≤ (GetNeighbours g ⟨q.2, q.1⟩).length := List.toFinset_card_le _
    _ ≤ 8 := GetNeighbours_length_le _ _

/-- C1. For in-bounds, pairwise-distinct mine coordinates, the board built by the
constructor `Minesweeper(width, height, cells_with_mines)` has `is_mine` exactly at the
listed coordinates, and `mines_qty_nearby` of every cell (mine or not) is the number of its
in-grid neighbours that are mines, hence at most 8. -/
theorem ctorList_mines_and_counts (width height : Nat) (cells_with_mines : List Cell)
    (hin : ∀ m ∈ cells_with_mines, m.x < width ∧ m.y < height)
    (hnd : cells_with_mines.Nodup) (x y : Nat) (hx : x < width) (hy : y < height) :
    (((Minesweeper.ctorList width height cells_with_mines).cell x y).is_mine = true ↔
        Cell.mk x y ∈ cells_with_mines) ∧
      ((Minesweeper.ctorList width height cells_with_mines).cell x y).mines_qty_nearby =
        (mineNeighbours (Minesweeper.ctorList width height cells_with_mines) (y, x)).card ∧
      ((Minesweeper.ctorList width height cells_with_mines).cell x y).mines_qty_nearby ≤ 8 := by
  obtain ⟨f, hf, hs, hcell⟩ := ctorList_spec width height cells_with_mines hin
  have hmine : ∀ p, InGrid width height p →
      ((cellAt f p).is_mine = true ↔ Cell.mk p.2 p.1 ∈ cells_with_mines) := by
    intro p hp
    rw [hcell p hp]
    simp
  have hcount := card_mineNeighbours (Minesweeper.ctorList width height cells_with_mines)
    cells_with_mines (by rw [hf]; exact hin) hnd (by rw [hf]; exact hmine) (y, x)
  have hle := card_mineNeighbours_le (Minesweeper.ctorList width height cells_with_mines)
    (y, x) (by rw [hf]; exact ⟨hy, hx⟩)
  have hqty : ((Minesweeper.ctorList width height cells_with_mines).cell x y).mines_qty_nearby
      = cells_with_mines.countP fun m => decide (Adjacent (y, x) (m.y, m.x)) := by
    rw [Minesweeper.cell, hf]
    simp only []
    rw [hcell (y, x) ⟨hy, hx⟩]
  refine ⟨?_, ?_, ?_⟩
  · rw [Minesweeper.cell, hf]
    exact hmine (y, x) ⟨hy, hx⟩
  · rw [hqty, hcount]
  · rw [hqty, ← hcount]
    exact hle

/-- Witness for C1: the 3 x 3 board with one mine at `(x = 2, y = 0)`; the counts are 1 at
`(1,0)`, `(1,1)`, `(2,1)` and 0 at every other cell. -/
theorem ctorList_mines_and_counts_witness :
    ((((Minesweeper.ctorList 3 3 [⟨2, 0⟩]).cell 1 1).is_mine = true ↔
        Cell.mk 1 1 ∈ [(⟨2, 0⟩ : Cell)]) ∧
      ((Minesweeper.ctorList 3 3 [⟨2, 0⟩]).cell 1 1).mines_qty_nearby =
        (mineNeighbours (Minesweeper.ctorList 3 3 [⟨2, 0⟩]) (1, 1)).card ∧
      ((Minesweeper.ctorList 3 3 [⟨2, 0⟩]).cell 1 1).mines_qty_nearby ≤ 8) ∧
    (List.range 3).map (fun y => (List.range 3).map fun x =>
        ((Minesweeper.ctorList 3 3 [⟨2, 0⟩]).cell x y).mines_qty_nearby) =
      [[0, 1, 0], [0, 1, 1], [0, 0, 0]] :=
  ⟨ctorList_mines_and_counts 3 3 [⟨2, 0⟩] (by decide) (by decide) 1 1 (by decide) (by decide),
    by decide⟩

/-! ## The flood fill: frame and termination -/

theorem OnlyOpens.refl (f : Field) : OnlyOpens f f := fun _ => Or.inl rfl

theorem OnlyOpens.trans {f1 f2 f3 : Field} (h12 : OnlyOpens f1 f2) (h23 : OnlyOpens f2 f3) :
    OnlyOpens f1 f3 := by
  intro p
  rcases h23 p with h | h <;> rcases h12 p with h2 | h2
  · left; rw [h, h2]
  · right; rw [h, h2]
  · right; rw [h, h2]
  · right; rw [h, h2]; rfl

theorem onlyOpens_modifyAt (f : Field) (p : CellPtr) : OnlyOpens f (modifyAt f p setOpened) := by
  intro q
  rw [cellAt_modifyAt]
  split_ifs with h
  · right; rw [h.1]
  · left; rfl

theorem OnlyOpens.x_eq {f f2 : Field} (h : OnlyOpens f f2) (p : CellPtr) :
    (cellAt f2 p).x = (cellAt f p).x := by
  rcases h p with e | e
  · rw [e]
  · rw [e]; rfl

theorem OnlyOpens.y_eq {f f2 : Field} (h : OnlyOpens f f2) (p : CellPtr) :
    (cellAt f2 p).y = (cellAt f p).y := by
  rcases h p with e | e
  · rw [e]
  · rw [e]; rfl

theorem OnlyOpens.flag_eq {f f2 : Field} (h : OnlyOpens f f2) (p : CellPtr) :
    (cellAt f2 p).flag = (cellAt f p).flag := by
  rcases h p with e | e
  · rw [e]
  · rw [e]; rfl

theorem OnlyOpens.is_mine_eq {f f2 : Field} (h : OnlyOpens f f2) (p : CellPtr) :
    (cellAt f2 p).is_mine = (cellAt f p).is_mine := by
  rcases h p with e | e
  · rw [e]
  · rw [e]; rfl

theorem OnlyOpens.qty_eq {f f2 : Field} (h : OnlyOpens f f2) (p : CellPtr) :
    (cellAt f2 p).mines_qty_nearby = (cellAt f p).mines_qty_nearby := by
  rcases h p with e | e
  · rw [e]
  · rw [e]; rfl

theorem OnlyOpens.toCell_eq {f f2 : Field} (h : OnlyOpens f f2) (p : CellPtr) :
    (cellAt f2 p).toCell = (cellAt f p).toCell := by
  rcases h p with e | e
  · rw [e]
  · rw [e]; rfl

theorem OnlyOpens.opened_mono {f f2 : Field} (h : OnlyOpens f f2) (p : CellPtr)
    (hp : (cellAt f p).is_opened = true) : (cellAt f2 p).is_opened = true := by
  rcases h p with e | e
  · rw [e]; exact hp
  · rw [e]; rfl

theorem BfsStep_opened {g : Minesweeper} {current : CellPtr} (rest : List CellPtr)
    (h : (cellAt g.field_ current).is_opened = true) : BfsStep g current rest = (g, rest) := by
  simp [BfsStep, h]

theorem BfsStep_leaf {g : Minesweeper} {current : CellPtr} (rest : List CellPtr)
    (h : (cellAt g.field_ current).is_opened = false)
    (hq : 0 < (cellAt g.field_ current).mines_qty_nearby) :
    BfsStep g current rest = (openedAt g current, rest) := by
  have e := (onlyOpens_modifyAt g.field_ current).qty_eq current
  simp only [BfsStep, h, e, gt_iff_lt, hq, if_true, openedAt]
  simp

theorem BfsStep_expand {g : Minesweeper} {current : CellPtr} (rest : List CellPtr)
    (h : (cellAt g.field_ current).is_opened = false)
    (hq : (cellAt g.field_ current).mines_qty_nearby = 0) :
    BfsStep g current rest = (openedAt g current,
      rest ++ (GetNeighbours g (cellAt g.field_ current).toCell).filter fun n =>
        !((cellAt (openedAt g current).field_ n).is_opened || (cellAt g.field_ n).flag)) := by
  have e := (onlyOpens_modifyAt g.field_ current).qty_eq current
  have e2 := (onlyOpens_modifyAt g.field_ current).toCell_eq current
  have e3 := (onlyOpens_modifyAt g.field_ current).flag_eq
  simp only [BfsStep, h, e, e2, e3, hq, gt_iff_lt, lt_irrefl, if_false, openedAt]
  simp only [Bool.false_eq_true, if_false, Prod.mk.injEq, true_and]
  congr 1

theorem BfsStep_cases (g : Minesweeper) (current : CellPtr) (rest : List CellPtr) :
    BfsStep g current rest = (g, rest) ∨
    ((cellAt g.field_ current).is_opened = false ∧
      (BfsStep g current rest).1 = openedAt g current ∧
      ∃ ns, (BfsStep g current rest).2 = rest ++ ns ∧ ns.length ≤ 8 ∧
        ∀ n ∈ ns, n ∈ GetNeighbours g (cellAt g.field_ current).toCell) := by
  by_cases h : (cellAt g.field_ current).is_opened = true
  · left; exact BfsStep_opened rest h
  · right
    have h2 : (cellAt g.field_ current).is_opened = false := by simpa using h
    refine ⟨h2, ?_⟩
    by_cases hq : (cellAt g.field_ current).mines_qty_nearby = 0
    · rw [BfsStep_expand rest h2 hq]
      refine ⟨rfl, _, rfl, ?_, fun n hn => (List.mem_filter.1 hn).1⟩
      exact le_trans (List.length_filter_le _ _) (GetNeighbours_length_le _ _)
    · rw [BfsStep_leaf rest h2 (Nat.pos_of_ne_zero hq)]
      exact ⟨rfl, [], by simp, by simp, by simp⟩

theorem sum_set_add (l : List Nat) (i : Nat) (hi : i < l.length) (v : Nat) :
    (l.set i v).sum + l[i] = l.sum + v := by
  induction l generalizing i with
  | nil => simp at hi
  | cons a l ih =>
    cases i with
    | zero => simp; omega
    | succ i =>
      simp only [List.set_cons_succ, List.sum_cons, List.getElem_cons_succ]
      have := ih i (by simpa using hi)
      omega

theorem unopenedQty_modifyAt {f : Field} {w h : Nat} (hs : Shaped f w h) {p : CellPtr}
    (hp : InGrid w h p) (hno : (cellAt f p).is_opened = false) :
    unopenedQty (modifyAt f p setOpened) + 1 = unopenedQty f := by
  have h1 : p.1 < f.length := by rw [hs.1]; exact hp.1
  have h2 : p.2 < (f.getD p.1 []).length := by rw [hs.row_length hp.1]; exact hp.2
  have hrow : f.getD p.1 [] = f[p.1] := List.getD_eq_getElem f [] h1
  have hcell : cellAt f p = (f.getD p.1 [])[p.2] := by
    unfold cellAt
    exact List.getD_eq_getElem _ default h2
  unfold unopenedQty modifyAt
  rw [List.map_set]
  have key := sum_set_add (f.map fun row => row.countP fun c => !c.is_opened) p.1
    (by simpa using h1)
    (((f.getD p.1 []).set p.2 (setOpened (cellAt f p))).countP fun c => !c.is_opened)
  rw [List.getElem_map, ← hrow] at key
  rw [List.countP_set _ _ _ _ h2] at key ⊢
  have hP : (!((f.getD p.1 [])[p.2]).is_opened) = true := by
    rw [← hcell, hno]; rfl
  have hpos : 0 < (f.getD p.1 []).countP fun c => !c.is_opened :=
    List.countP_pos_iff.2 ⟨_, List.getElem_mem h2, hP⟩
  simp only [hP, if_true, setOpened, Bool.not_true, Bool.false_eq_true, if_false,
    add_zero] at key ⊢
  omega

theorem valid_openedAt {g : Minesweeper} (hv : Valid g) (p : CellPtr) :
    Valid (openedAt g p) := by
  refine ⟨shaped_modifyAt hv.1 _ _, fun q hq => ?_⟩
  have e1 := (onlyOpens_modifyAt g.field_ p).x_eq q
  have e2 := (onlyOpens_modifyAt g.field_ p).y_eq q
  simp only [openedAt] at hq ⊢
  rw [e1, e2]
  exact hv.2 q hq

theorem BfsStep_valid {g : Minesweeper} (hv : Valid g) {current : CellPtr}
    (rest : List CellPtr) (hc : InGrid g.field_width_ g.field_height_ current)
    (hr : ∀ p ∈ rest, InGrid g.field_width_ g.field_height_ p) :
    Valid (BfsStep g current rest).1 ∧
      (BfsStep g current rest).1.field_width_ = g.field_width_ ∧
      (BfsStep g current rest).1.field_height_ = g.field_height_ ∧
      (∀ p ∈ (BfsStep g current rest).2, InGrid g.field_width_ g.field_height_ p) ∧
      (BfsStep g current rest).2.length + 8 * unopenedQty (BfsStep g current rest).1.field_
        < (current :: rest).length + 8 * unopenedQty g.field_ := by
  rcases BfsStep_cases g current rest with h | ⟨hno, h1, ns, h2, hlen, hns⟩
  · rw [h]
    exact ⟨hv, rfl, rfl, hr, by simp⟩
  · rw [h1, h2]
    refine ⟨valid_openedAt hv _, rfl, rfl, ?_, ?_⟩
    · intro p hp
      rcases List.mem_append.1 hp with hp | hp
      · exact hr p hp
      · exact GetNeighbours_inGrid (hv.2 current hc) (hns p hp)
    · have := unopenedQty_modifyAt hv.1 hc hno
      simp only [openedAt, List.length_append, List.length_cons]
      omega

/-- The loop of `Bfs` finishes: within `queue.length + 8 * unopened` iterations the queue is
empty. -/
theorem BfsLoop_finishes (fuel : Nat) (g : Minesweeper) (queue : List CellPtr)
    (hv : Valid g) (hq : ∀ p ∈ queue, InGrid g.field_width_ g.field_height_ p)
    (hfuel : queue.length + 8 * unopenedQty g.field_ ≤ fuel) :
    (BfsLoop fuel g queue).2 = [] := by
  induction fuel generalizing g queue with
  | zero =>
    cases queue with
    | nil => rfl
    | cons c r => simp at hfuel
  | succ fuel ih =>
    cases queue with
    | nil => rfl
    | cons c r =>
      obtain ⟨hv2, hw, hh, hq2, hlt⟩ := BfsStep_valid hv r (hq c (List.mem_cons_self _ _))
        (fun p hp => hq p (List.mem_cons_of_mem _ hp))
      simp only [BfsLoop]
      apply ih _ _ hv2
      · rw [hw, hh]; exact hq2
      · omega

/-! ## The flood fill: what it opens -/

theorem FloodSet.inGrid {g : Minesweeper} {s p : CellPtr} (h : FloodSet g s p)
    (hs : InGrid g.field_width_ g.field_height_ s) :
    InGrid g.field_width_ g.field_height_ p := by
  cases h with
  | start => exact hs
  | step _ _ hn _ _ _ => exact hn

theorem FloodSet.unopened {g : Minesweeper} {s p : CellPtr} (h : FloodSet g s p)
    (hs : (cellAt g.field_ s).is_opened = false) : (cellAt g.field_ p).is_opened = false := by
  cases h with
  | start => exact hs
  | step _ _ _ _ hn _ => exact hn

theorem FloodSet.unflagged {g : Minesweeper} {s p : CellPtr} (h : FloodSet g s p)
    (hs : (cellAt g.field_ s).flag = false) : (cellAt g.field_ p).flag = false := by
  cases h with
  | start => exact hs
  | step _ _ _ _ _ hn => exact hn

theorem BfsStep_inv {g0 : Minesweeper} {s : CellPtr}
    (hc0 : Coherent g0.field_ g0.field_width_ g0.field_height_)
    (hs : InGrid g0.field_width_ g0.field_height_ s)
    (hso : (cellAt g0.field_ s).is_opened = false)
    {g : Minesweeper} {cur : CellPtr} {rest D : List CellPtr}
    (inv : BfsInv g0 s g (cur :: rest) D) :
    ∃ D2, BfsInv g0 s (BfsStep g cur rest).1 (BfsStep g cur rest).2 D2 := by
  have hcurF : FloodSet g0 s cur := inv.queue cur (List.mem_cons_self _ _)
  have hcur : InGrid g0.field_width_ g0.field_height_ cur := hcurF.inGrid hs
  have hcuro : (cellAt g0.field_ cur).is_opened = false := hcurF.unopened hso
  by_cases hop : (cellAt g.field_ cur).is_opened = true
  · -- already opened: the pointer is dropped
    have hD : cur ∈ D := by
      by_contra hn
      rw [inv.cells cur, if_neg hn, hcuro] at hop
      exact Bool.false_ne_true hop
    rw [BfsStep_opened rest hop]
    refine ⟨D, inv.frame, inv.qty, inv.shaped, inv.cells, inv.nodup, inv.sound,
      fun p hp => inv.queue p (List.mem_cons_of_mem _ hp), ?_, ?_⟩
    · rcases inv.start with h | h
      · exact Or.inl h
      · rcases List.mem_cons.1 h with h | h
        · exact Or.inl (h ▸ hD)
        · exact Or.inr h
    · intro c hcD hq n hn hadj hno hnf
      rcases inv.closed c hcD hq n hn hadj hno hnf with h | h
      · exact Or.inl h
      · rcases List.mem_cons.1 h with h | h
        · exact Or.inl (h ▸ hD)
        · exact Or.inr h
  · have hop2 : (cellAt g.field_ cur).is_opened = false := by simpa using hop
    have hD : cur ∉ D := by
      intro hD
      rw [inv.cells cur, if_pos hD] at hop2
      exact Bool.false_ne_true hop2.symm
    have hgcur : cellAt g.field_ cur = cellAt g0.field_ cur := by
      rw [inv.cells cur, if_neg hD]
    have hframe : SameFrame g0 (openedAt g cur) := inv.frame
    have hqty : (openedAt g cur).opened_cells_qty_ =
        g0.opened_cells_qty_ + (cur :: D).length := by
      simp only [openedAt, inv.qty, List.length_cons]
      omega
    have hshaped : Shaped (openedAt g cur).field_ g0.field_width_ g0.field_height_ :=
      shaped_modifyAt inv.shaped _ _
    have hcells : ∀ p, cellAt (openedAt g cur).field_ p =
        if p ∈ cur :: D then setOpened (cellAt g0.field_ p) else cellAt g0.field_ p := by
      intro p
      simp only [openedAt]
      rw [cellAt_modifyAt_shaped inv.shaped hcur, hgcur, inv.cells p]
      by_cases hp : p = cur
      · subst hp
        simp
      · simp [hp]
    have hnodup : (cur :: D).Nodup := List.nodup_cons.2 ⟨hD, inv.nodup⟩
    have hsound : ∀ p ∈ cur :: D, FloodSet g0 s p := by
      intro p hp
      rcases List.mem_cons.1 hp with h | h
      · exact h ▸ hcurF
      · exact inv.sound p h
    by_cases hq : (cellAt g.field_ cur).mines_qty_nearby = 0
    · -- a cell without mines around: its unopened, unflagged neighbours are pushed
      have hq0 : (cellAt g0.field_ cur).mines_qty_nearby = 0 := by rw [← hgcur]; exact hq
      have hcell : (cellAt g.field_ cur).toCell = ⟨cur.2, cur.1⟩ := by
        rw [hgcur]
        have := hc0 cur hcur
        rcases hx : cellAt g0.field_ cur with ⟨⟨x, y⟩, _, _, _, _⟩
        rw [hx] at this
        simp only at this
        rw [Cell.mk.injEq]
        exact this
      have hnbr : ∀ n, n ∈ GetNeighbours g (cellAt g.field_ cur).toCell ↔
          InGrid g0.field_width_ g0.field_height_ n ∧ Adjacent n cur := by
        intro n
        rw [hcell, mem_GetNeighbours g ⟨cur.2, cur.1⟩
          (by rw [inv.frame.1, inv.frame.2.1]; exact hcur), inv.frame.1, inv.frame.2.1]
      rw [BfsStep_expand rest hop2 hq]
      refine ⟨cur :: D, hframe, hqty, hshaped, hcells, hnodup, hsound, ?_, ?_, ?_⟩
      · intro p hp
        rcases List.mem_append.1 hp with h | h
        · exact inv.queue p (List.mem_cons_of_mem _ h)
        · rw [List.mem_filter] at h
          obtain ⟨hpn, hpf⟩ := h
          rw [hnbr] at hpn
          simp only [Bool.not_eq_true', Bool.or_eq_false_iff] at hpf
          obtain ⟨hpo, hpfl⟩ := hpf
          have hpD : p ∉ cur :: D := by
            intro hpD
            rw [hcells p, if_pos hpD] at hpo
            exact Bool.false_ne_true hpo.symm
          rw [hcells p, if_neg hpD] at hpo
          have hpfl0 : (cellAt g0.field_ p).flag = false := by
            rw [inv.cells p] at hpfl
            split_ifs at hpfl
            · exact hpfl
            · exact hpfl
          exact FloodSet.step hcurF hq0 hpn.1 hpn.2 hpo hpfl0
      · rcases inv.start with h | h
        · exact Or.inl (List.mem_cons_of_mem _ h)
        · rcases List.mem_cons.1 h with h | h
          · exact Or.inl (h ▸ List.mem_cons_self _ _)
          · exact Or.inr (List.mem_append_left _ h)
      · intro c hcD hqc n hn hadj hno hnf
        rcases List.mem_cons.1 hcD with hc | hc
        · subst hc
          by_cases hnD : n ∈ c :: D
          · exact Or.inl hnD
          · right
            apply List.mem_append_right
            rw [List.mem_filter, hnbr]
            refine ⟨⟨hn, hadj⟩, ?_⟩
            have hnfl : (cellAt g.field_ n).flag = false := by
              rw [inv.cells n]
              split_ifs
              · exact hnf
              · exact hnf
            rw [hcells n, if_neg hnD, hno, hnfl]
            rfl
        · rcases inv.closed c hc hqc n hn hadj hno hnf with h | h
          · exact Or.inl (List.mem_cons_of_mem _ h)
          · rcases List.mem_cons.1 h with h | h
            · exact Or.inl (h ▸ List.mem_cons_self _ _)
            · exact Or.inr (List.mem_append_left _ h)
    · -- a numbered cell: opened, nothing pushed
      have hq0 : (cellAt g0.field_ cur).mines_qty_nearby ≠ 0 := by rw [← hgcur]; exact hq
      rw [BfsStep_leaf rest hop2 (Nat.pos_of_ne_zero hq)]
      refine ⟨cur :: D, hframe, hqty, hshaped, hcells, hnodup, hsound,
        fun p hp => inv.queue p (List.mem_cons_of_mem _ hp), ?_, ?_⟩
      · rcases inv.start with h | h
        · exact Or.inl (List.mem_cons_of_mem _ h)
        · rcases List.mem_cons.1 h with h | h
          · exact Or.inl (h ▸ List.mem_cons_self _ _)
          · exact Or.inr h
      · intro c hcD hqc n hn hadj hno hnf
        rcases List.mem_cons.1 hcD with hc | hc
        · subst hc
          exact absurd hqc hq0
        · rcases inv.closed c hc hqc n hn hadj hno hnf with h | h
          · exact Or.inl (List.mem_cons_of_mem _ h)
          · rcases List.mem_cons.1 h with h | h
            · exact Or.inl (h ▸ List.mem_cons_self _ _)
            · exact Or.inr h

theorem BfsLoop_inv {g0 : Minesweeper} {s : CellPtr}
    (hc0 : Coherent g0.field_ g0.field_width_ g0.field_height_)
    (hs : InGrid g0.field_width_ g0.field_height_ s)
    (hso : (cellAt g0.field_ s).is_opened = false)
    (fuel : Nat) (g : Minesweeper) (q D : List CellPtr) (inv : BfsInv g0 s g q D) :
    ∃ D2, BfsInv g0 s (BfsLoop fuel g q).1 (BfsLoop fuel g q).2 D2 := by
  induction fuel generalizing g q D with
  | zero =>
    cases q with
    | nil => exact ⟨D, inv⟩
    | cons c r => exact ⟨D, inv⟩
  | succ fuel ih =>
    cases q with
    | nil => exact ⟨D, inv⟩
    | cons c r =>
      obtain ⟨D2, inv2⟩ := BfsStep_inv hc0 hs hso inv
      exact ih _ _ D2 inv2

theorem FloodSet.congr {g g2 : Minesweeper} (hf : g2.field_ = g.field_)
    (hw : g2.field_width_ = g.field_width_) (hh : g2.field_height_ = g.field_height_)
    {s p : CellPtr} (h : FloodSet g s p) : FloodSet g2 s p := by
  induction h with
  | start => exact FloodSet.start
  | step _ hq hn hadj ho hfl ih =>
    exact FloodSet.step ih (by rw [hf]; exact hq) (by rw [hw, hh]; exact hn) hadj
      (by rw [hf]; exact ho) (by rw [hf]; exact hfl)

theorem valid_of_coherent {g : Minesweeper}
    (hs : Shaped g.field_ g.field_width_ g.field_height_)
    (hc : Coherent g.field_ g.field_width_ g.field_height_) : Valid g := by
  refine ⟨hs, fun p hp => ?_⟩
  rw [(hc p hp).1, (hc p hp).2]
  exact hp

/-- What `Bfs` does on a board whose cells store their own coordinates, started at an
unopened cell `s`: it opens exactly the cells of a duplicate-free list `D` that enumerates
`FloodSet g s`, counts each of them once, and writes nothing else. -/
theorem Bfs_spec {g : Minesweeper} (hs : Shaped g.field_ g.field_width_ g.field_height_)
    (hc : Coherent g.field_ g.field_width_ g.field_height_) {s : CellPtr}
    (hin : InGrid g.field_width_ g.field_height_ s)
    (hso : (cellAt g.field_ s).is_opened = false) :
    ∃ D : List CellPtr, D.Nodup ∧ (∀ p, p ∈ D ↔ FloodSet g s p) ∧
      SameFrame g (Bfs g (cellAt g.field_ s)) ∧
      (Bfs g (cellAt g.field_ s)).opened_cells_qty_ = g.opened_cells_qty_ + D.length ∧
      Shaped (Bfs g (cellAt g.field_ s)).field_ g.field_width_ g.field_height_ ∧
      ∀ p, cellAt (Bfs g (cellAt g.field_ s)).field_ p =
        if p ∈ D then setOpened (cellAt g.field_ p) else cellAt g.field_ p := by
  have hstart : ((cellAt g.field_ s).y, (cellAt g.field_ s).x) = s := by
    rw [(hc s hin).1, (hc s hin).2]
  have inv0 : BfsInv g s g [s] [] :=
    { frame := ⟨rfl, rfl, rfl, rfl, rfl, rfl⟩
      qty := rfl
      shaped := hs
      cells := fun p => by simp
      nodup := List.nodup_nil
      sound := fun p hp => absurd hp (List.not_mem_nil p)
      queue := fun p hp => by
        rw [List.mem_singleton] at hp
        exact hp ▸ FloodSet.start
      start := Or.inr (List.mem_singleton_self s)
      closed := fun c hcD => absurd hcD (List.not_mem_nil c) }
  obtain ⟨D, inv⟩ := BfsLoop_inv hc hin hso (bfsFuel g) g [s] [] inv0
  have hfin : (BfsLoop (bfsFuel g) g [s]).2 = [] := by
    apply BfsLoop_finishes _ _ _ (valid_of_coherent hs hc)
    · intro p hp
      rw [List.mem_singleton] at hp
      exact hp ▸ hin
    · simp only [bfsFuel, List.length_singleton]
      omega
  rw [hfin] at inv
  have hall : ∀ p, FloodSet g s p → p ∈ D := by
    intro p hp
    induction hp with
    | start =>
      rcases inv.start with h | h
      · exact h
      · exact absurd h (List.not_mem_nil _)
    | step _ hq hn hadj ho hfl ih =>
      rcases inv.closed _ ih hq _ hn hadj ho hfl with h | h
      · exact h
      · exact absurd h (List.not_mem_nil _)
  refine ⟨D, inv.nodup, fun p => ⟨inv.sound p, hall p⟩, ?_, ?_, ?_, ?_⟩
  · unfold Bfs; rw [hstart]; exact inv.frame
  · unfold Bfs; rw [hstart]; exact inv.qty
  · unfold Bfs; rw [hstart]; exact inv.shaped
  · unfold Bfs; rw [hstart]; exact inv.cells

/-! ## `OpenCell` and `MarkCell`, branch by branch -/

theorem ensureStarted_field (g : Minesweeper) (t : Int) :
    (ensureStarted g t).field_ = g.field_ := by
  unfold ensureStarted StartGame; split_ifs <;> rfl

theorem ensureStarted_width (g : Minesweeper) (t : Int) :
    (ensureStarted g t).field_width_ = g.field_width_ := by
  unfold ensureStarted StartGame; split_ifs <;> rfl

theorem ensureStarted_height (g : Minesweeper) (t : Int) :
    (ensureStarted g t).field_height_ = g.field_height_ := by
  unfold ensureStarted StartGame; split_ifs <;> rfl

theorem ensureStarted_opened (g : Minesweeper) (t : Int) :
    (ensureStarted g t).opened_cells_qty_ = g.opened_cells_qty_ := by
  unfold ensureStarted StartGame; split_ifs <;> rfl

theorem ensureStarted_non_mines (g : Minesweeper) (t : Int) :
    (ensureStarted g t).non_mines_qty_ = g.non_mines_qty_ := by
  unfold ensureStarted StartGame; split_ifs <;> rfl

theorem ensureStarted_status {g : Minesweeper} (t : Int)
    (h : g.game_status_ = GameStatus.NOT_STARTED ∨ g.game_status_ = GameStatus.IN_PROGRESS) :
    (ensureStarted g t).game_status_ = GameStatus.IN_PROGRESS := by
  unfold ensureStarted StartGame
  rcases h with h | h <;> simp [h]

theorem ensureStarted_terminal {g : Minesweeper} (t : Int)
    (h : g.game_status_ = GameStatus.VICTORY ∨ g.game_status_ = GameStatus.DEFEAT) :
    ensureStarted g t = g := by
  unfold ensureStarted
  rcases h with h | h <;> simp [h]

theorem OpenCell_unfold (g : Minesweeper) (t0 t1 : Int) (cell : Cell) :
    OpenCell g t0 t1 cell =
      if (ensureStarted g t0).game_status_ = GameStatus.IN_PROGRESS then
        if (cellAt g.field_ (cell.y, cell.x)).is_mine then
          revealAll { ensureStarted g t0 with
            game_end_time_ := t1, game_status_ := GameStatus.DEFEAT }
        else if !(cellAt g.field_ (cell.y, cell.x)).is_opened &&
            !(cellAt g.field_ (cell.y, cell.x)).flag then
          if (Bfs (ensureStarted g t0) (cellAt g.field_ (cell.y, cell.x))).opened_cells_qty_ =
              (Bfs (ensureStarted g t0) (cellAt g.field_ (cell.y, cell.x))).non_mines_qty_ then
            { Bfs (ensureStarted g t0) (cellAt g.field_ (cell.y, cell.x)) with
              game_end_time_ := t1, game_status_ := GameStatus.VICTORY }
          else Bfs (ensureStarted g t0) (cellAt g.field_ (cell.y, cell.x))
        else ensureStarted g t0
      else ensureStarted g t0 := by
  simp only [OpenCell, ← ensureStarted_field g t0]
  rfl

theorem MarkCell_unfold (g : Minesweeper) (t0 : Int) (cell : Cell) :
    MarkCell g t0 cell =
      if (ensureStarted g t0).game_status_ = GameStatus.IN_PROGRESS then
        { ensureStarted g t0 with field_ := modifyAt g.field_ (cell.y, cell.x) toggleFlag }
      else ensureStarted g t0 := by
  simp only [MarkCell, ← ensureStarted_field g t0]
  rfl

/-! ## Reachable states and what holds in all of them -/

theorem GameInv.coherent {g0 g : Minesweeper} (h0 : FreshBoard g0) (inv : GameInv g0 g) :
    Coherent g.field_ g.field_width_ g.field_height_ := by
  intro p hp
  rw [inv.width, inv.height] at hp
  have h1 := congrArg Cell.x (inv.static p).1
  have h2 := congrArg Cell.y (inv.static p).1
  exact ⟨h1.trans (h0.coherent p hp).1, h2.trans (h0.coherent p hp).2⟩

theorem GameInv.shaped2 {g0 g : Minesweeper} (inv : GameInv g0 g) :
    Shaped g.field_ g.field_width_ g.field_height_ := by
  rw [inv.width, inv.height]; exact inv.shaped

theorem GameInv.init {g0 : Minesweeper} (h0 : FreshBoard g0) : GameInv g0 g0 :=
  { width := rfl, height := rfl, non_mines := rfl, shaped := h0.shaped
    static := fun _ => ⟨rfl, rfl, rfl⟩
    fresh := fun _ => ⟨h0.opened_qty, h0.unopened⟩
    progress := fun h => by rw [h0.status] at h; cases h
    safe := fun _ p _ => h0.unopened p
    victory := fun h => by rw [h0.status] at h; cases h
    defeat := fun h => by rw [h0.status] at h; cases h }

theorem floodSet_not_mine {g0 g : Minesweeper} (h0 : FreshBoard g0) (inv : GameInv g0 g)
    {s p : CellPtr} (hs : InGrid g.field_width_ g.field_height_ s)
    (hsm : (cellAt g.field_ s).is_mine = false) (hp : FloodSet g s p) :
    (cellAt g.field_ p).is_mine = false := by
  induction hp with
  | start => exact hsm
  | @step c n hc hq hn hadj _ _ _ =>
    have hcin := hc.inGrid hs
    rw [inv.width, inv.height] at hcin hn
    rw [(inv.static n).2.1]
    exact h0.counts_sound c n hcin hn hadj (by rw [← (inv.static c).2.2]; exact hq)

theorem cellAt_revealed {f : Field} {w h : Nat} (hs : Shaped f w h) (p : CellPtr)
    (hp : InGrid w h p) :
    cellAt (f.map fun row => row.map setOpened) p = setOpened (cellAt f p) := by
  have h1 : p.1 < f.length := by rw [hs.1]; exact hp.1
  have hrow : f[p.1]? = some f[p.1] := List.getElem?_eq_getElem h1
  have h2 : p.2 < (f[p.1]).length := by
    rw [hs.2 _ (List.getElem_mem h1)]; exact hp.2
  have hc : (f[p.1])[p.2]? = some (f[p.1])[p.2] := List.getElem?_eq_getElem h2
  simp only [cellAt, List.getD_eq_getElem?_getD, List.getElem?_map, hrow, Option.map_some',
    Option.getD_some, hc]

theorem shaped_revealed {f : Field} {w h : Nat} (hs : Shaped f w h) :
    Shaped (f.map fun row => row.map setOpened) w h := by
  refine ⟨by simp [hs.1], fun row hrow => ?_⟩
  rw [List.mem_map] at hrow
  obtain ⟨r, hr, rfl⟩ := hrow
  rw [List.length_map]
  exact hs.2 r hr

/-- The flood-fill branch of `OpenCell`, on any board whose cells store their own
coordinates. -/
theorem OpenCell_flood_spec {g : Minesweeper}
    (hs : Shaped g.field_ g.field_width_ g.field_height_)
    (hc : Coherent g.field_ g.field_width_ g.field_height_)
    (hst : g.game_status_ = GameStatus.NOT_STARTED ∨ g.game_status_ = GameStatus.IN_PROGRESS)
    {cell : Cell} (hin : InGrid g.field_width_ g.field_height_ (cell.y, cell.x))
    (hnm : (cellAt g.field_ (cell.y, cell.x)).is_mine = false)
    (hno : (cellAt g.field_ (cell.y, cell.x)).is_opened = false)
    (hnf : (cellAt g.field_ (cell.y, cell.x)).flag = false) (t0 t1 : Int) :
    ∃ D : List CellPtr, D.Nodup ∧ (∀ p, p ∈ D ↔ FloodSet g (cell.y, cell.x) p) ∧
      (OpenCell g t0 t1 cell).field_width_ = g.field_width_ ∧
      (OpenCell g t0 t1 cell).field_height_ = g.field_height_ ∧
      (OpenCell g t0 t1 cell).non_mines_qty_ = g.non_mines_qty_ ∧
      (OpenCell g t0 t1 cell).opened_cells_qty_ = g.opened_cells_qty_ + D.length ∧
      Shaped (OpenCell g t0 t1 cell).field_ g.field_width_ g.field_height_ ∧
      (∀ p, cellAt (OpenCell g t0 t1 cell).field_ p =
        if p ∈ D then setOpened (cellAt g.field_ p) else cellAt g.field_ p) ∧
      (OpenCell g t0 t1 cell).game_status_ =
        if g.opened_cells_qty_ + D.length = g.non_mines_qty_ then GameStatus.VICTORY
        else GameStatus.IN_PROGRESS := by
  have hf := ensureStarted_field g t0
  have hw := ensureStarted_width g t0
  have hh := ensureStarted_height g t0
  have ho := ensureStarted_opened g t0
  have hn := ensureStarted_non_mines g t0
  have hstat := ensureStarted_status t0 hst
  obtain ⟨D, hnd, hD, hfr, hqty, hshape, hcells⟩ :=
    Bfs_spec (g := ensureStarted g t0) (s := (cell.y, cell.x))
      (by rw [hf, hw, hh]; exact hs) (by rw [hf, hw, hh]; exact hc)
      (by rw [hw, hh]; exact hin) (by rw [hf]; exact hno)
  rw [hf] at hcells hqty hshape hfr
  rw [hw, hh] at hshape
  rw [ho] at hqty
  have hD2 : ∀ p, p ∈ D ↔ FloodSet g (cell.y, cell.x) p := fun p =>
    ⟨fun h => ((hD p).1 h).congr hf.symm hw.symm hh.symm,
      fun h => (hD p).2 (h.congr hf hw hh)⟩
  have hnon : (Bfs (ensureStarted g t0) (cellAt g.field_ (cell.y, cell.x))).non_mines_qty_ =
      g.non_mines_qty_ := hfr.2.2.2.2.2.trans hn
  refine ⟨D, hnd, hD2, ?_⟩
  rw [OpenCell_unfold, if_pos hstat, hnm, hno, hnf, hqty, hnon]
  simp only [Bool.false_eq_true, if_false, Bool.not_false, Bool.and_self, if_true]
  by_cases hv : g.opened_cells_qty_ + D.length = g.non_mines_qty_
  · simp only [hv, if_true]
    exact ⟨hfr.1.trans hw, hfr.2.1.trans hh, hnon, by rw [hqty, hv], hshape, hcells, trivial⟩
  · simp only [hv, if_false]
    exact ⟨hfr.1.trans hw, hfr.2.1.trans hh, hnon, hqty, hshape, hcells,
      hfr.2.2.1.trans hstat⟩

theorem OnlyFlags_modifyAt (f : Field) (p q : CellPtr) :
    cellAt (modifyAt f p toggleFlag) q = cellAt f q ∨
      cellAt (modifyAt f p toggleFlag) q = toggleFlag (cellAt f q) := by
  rw [cellAt_modifyAt]
  split_ifs with h
  · right; rw [h.1]
  · left; rfl

theorem GameInv.open_cell {g0 g : Minesweeper} (h0 : FreshBoard g0) (inv : GameInv g0 g)
    (t0 t1 : Int) (cell : Cell) (hx : cell.x < g.field_width_) (hy : cell.y < g.field_height_) :
    GameInv g0 (OpenCell g t0 t1 cell) := by
  have hin : InGrid g.field_width_ g.field_height_ (cell.y, cell.x) := ⟨hy, hx⟩
  by_cases hst : g.game_status_ = GameStatus.NOT_STARTED ∨
      g.game_status_ = GameStatus.IN_PROGRESS
  · have hstat := ensureStarted_status t0 hst
    have hf := ensureStarted_field g t0
    have hnd : g.game_status_ ≠ GameStatus.DEFEAT := by
      rcases hst with h | h <;> rw [h] <;> decide
    by_cases hm : (cellAt g.field_ (cell.y, cell.x)).is_mine = true
    · -- a mine: defeat, everything revealed
      rw [OpenCell_unfold, if_pos hstat, if_pos hm]
      have hcell : ∀ p, InGrid g0.field_width_ g0.field_height_ p →
          cellAt (g.field_.map fun row => row.map setOpened) p = setOpened (cellAt g.field_ p) :=
        fun p hp => cellAt_revealed inv.shaped p hp
      have hcell2 : ∀ p, ¬ InGrid g0.field_width_ g0.field_height_ p →
          cellAt (g.field_.map fun row => row.map setOpened) p = cellAt g.field_ p := by
        intro p hp
        rw [cellAt_default_of_not_inGrid (shaped_revealed inv.shaped) hp,
          cellAt_default_of_not_inGrid inv.shaped hp]
      refine
        { width := ?_, height := ?_, non_mines := ?_, shaped := ?_, static := ?_, fresh := ?_,
          progress := ?_, safe := ?_, victory := ?_, defeat := ?_ }
      · simp only [revealAll]; rw [ensureStarted_width]; exact inv.width
      · simp only [revealAll]; rw [ensureStarted_height]; exact inv.height
      · simp only [revealAll]; rw [ensureStarted_non_mines]; exact inv.non_mines
      · simp only [revealAll]; rw [hf]; exact shaped_revealed inv.shaped
      · intro p
        simp only [revealAll]
        rw [hf]
        by_cases hp : InGrid g0.field_width_ g0.field_height_ p
        · rw [hcell p hp]; exact inv.static p
        · rw [hcell2 p hp]; exact inv.static p
      · intro h; simp [revealAll] at h
      · intro h; simp [revealAll] at h
      · intro h; simp [revealAll] at h
      · intro h; simp [revealAll] at h
      · intro _
        have hin0 : InGrid g0.field_width_ g0.field_height_ (cell.y, cell.x) := by
          rw [← inv.width, ← inv.height]; exact hin
        refine ⟨(cell.y, cell.x), hin0, ?_, ?_⟩
        · simp only [revealAll]; rw [hf, hcell _ hin0]; exact hm
        · simp only [revealAll]; rw [hf, hcell _ hin0]; rfl
    · have hm2 : (cellAt g.field_ (cell.y, cell.x)).is_mine = false := by simpa using hm
      by_cases hof : (cellAt g.field_ (cell.y, cell.x)).is_opened = false ∧
          (cellAt g.field_ (cell.y, cell.x)).flag = false
      · -- the flood fill
        obtain ⟨D, _, hD, hw, hh, hn, hq, hshape, hcells, hstatus⟩ :=
          OpenCell_flood_spec inv.shaped2 (inv.coherent h0) hst hin hm2 hof.1 hof.2 t0 t1
        have hDm : ∀ p ∈ D, (cellAt g.field_ p).is_mine = false := fun p hp =>
          floodSet_not_mine h0 inv hin hm2 ((hD p).1 hp)
        have hstatic : ∀ p, (cellAt (OpenCell g t0 t1 cell).field_ p).toCell =
              (cellAt g.field_ p).toCell ∧
            (cellAt (OpenCell g t0 t1 cell).field_ p).is_mine = (cellAt g.field_ p).is_mine ∧
            (cellAt (OpenCell g t0 t1 cell).field_ p).mines_qty_nearby =
              (cellAt g.field_ p).mines_qty_nearby := by
          intro p
          rw [hcells p]
          split_ifs
          · exact ⟨rfl, rfl, rfl⟩
          · exact ⟨rfl, rfl, rfl⟩
        refine
          { width := hw.trans inv.width, height := hh.trans inv.height
            non_mines := hn.trans inv.non_mines
            shaped := by rw [← inv.width, ← inv.height]; exact hshape
            static := fun p => ⟨(hstatic p).1.trans (inv.static p).1,
              (hstatic p).2.1.trans (inv.static p).2.1,
              (hstatic p).2.2.trans (inv.static p).2.2⟩
            fresh := ?_, progress := ?_, safe := ?_, victory := ?_, defeat := ?_ }
        · intro h
          rw [hstatus] at h
          split_ifs at h
        · intro h
          rw [hstatus] at h
          split_ifs at h with hv
          right
          rw [hq, hn]
          exact hv
        · intro _ p hpm
          rw [(hstatic p).2.1] at hpm
          rw [hcells p]
          have hpD : p ∉ D := fun hpD => by
            rw [hDm p hpD] at hpm
            exact Bool.false_ne_true hpm
          rw [if_neg hpD]
          exact inv.safe hnd p hpm
        · intro h
          rw [hstatus] at h
          split_ifs at h with hv
          have hpos : 0 < D.length :=
            List.length_pos_of_mem ((hD (cell.y, cell.x)).2 FloodSet.start)
          rw [hq, hn]
          exact ⟨hv, by omega⟩
        · intro h
          rw [hstatus] at h
          split_ifs at h
      · -- opened or flagged: nothing but the start of the game
        have hcond : (!(cellAt g.field_ (cell.y, cell.x)).is_opened &&
            !(cellAt g.field_ (cell.y, cell.x)).flag) = false := by
          rcases ho : (cellAt g.field_ (cell.y, cell.x)).is_opened with _ | _
          · rcases hfl : (cellAt g.field_ (cell.y, cell.x)).flag with _ | _
            · exact absurd ⟨ho, hfl⟩ hof
            · rfl
          · rfl
        rw [OpenCell_unfold, if_pos hstat, hm2, hcond]
        simp only [Bool.false_eq_true, if_false]
        refine
          { width := (ensureStarted_width g t0).trans inv.width
            height := (ensureStarted_height g t0).trans inv.height
            non_mines := (ensureStarted_non_mines g t0).trans inv.non_mines
            shaped := by rw [hf]; exact inv.shaped
            static := by rw [hf]; exact inv.static
            fresh := fun h => by rw [hstat] at h; cases h
            progress := ?_
            safe := fun _ => by rw [hf]; exact inv.safe hnd
            victory := fun h => by rw [hstat] at h; cases h
            defeat := fun h => by rw [hstat] at h; cases h }
        intro _
        rw [ensureStarted_opened, ensureStarted_non_mines]
        rcases hst with h | h
        · exact Or.inl (inv.fresh h).1
        · exact inv.progress h
  · have hterm : g.game_status_ = GameStatus.VICTORY ∨ g.game_status_ = GameStatus.DEFEAT := by
      rcases hg : g.game_status_ with _ | _ | _ | _
      · exact absurd (Or.inl hg) hst
      · exact absurd (Or.inr hg) hst
      · exact Or.inl rfl
      · exact Or.inr rfl
    have hne : ¬ g.game_status_ = GameStatus.IN_PROGRESS := fun h => hst (Or.inr h)
    rw [OpenCell_unfold, ensureStarted_terminal t0 hterm, if_neg hne]
    exact inv

theorem GameInv.mark_cell {g0 g : Minesweeper} (inv : GameInv g0 g)
    (t0 : Int) (cell : Cell) : GameInv g0 (MarkCell g t0 cell) := by
  by_cases hst : g.game_status_ = GameStatus.NOT_STARTED ∨
      g.game_status_ = GameStatus.IN_PROGRESS
  · have hstat := ensureStarted_status t0 hst
    have hnd : g.game_status_ ≠ GameStatus.DEFEAT := by
      rcases hst with h | h <;> rw [h] <;> decide
    rw [MarkCell_unfold, if_pos hstat]
    have hcell : ∀ p, (cellAt (modifyAt g.field_ (cell.y, cell.x) toggleFlag) p).toCell =
          (cellAt g.field_ p).toCell ∧
        (cellAt (modifyAt g.field_ (cell.y, cell.x) toggleFlag) p).is_mine =
          (cellAt g.field_ p).is_mine ∧
        (cellAt (modifyAt g.field_ (cell.y, cell.x) toggleFlag) p).mines_qty_nearby =
          (cellAt g.field_ p).mines_qty_nearby ∧
        (cellAt (modifyAt g.field_ (cell.y, cell.x) toggleFlag) p).is_opened =
          (cellAt g.field_ p).is_opened := by
      intro p
      rcases OnlyFlags_modifyAt g.field_ (cell.y, cell.x) p with e | e <;> rw [e]
      · exact ⟨rfl, rfl, rfl, rfl⟩
      · exact ⟨rfl, rfl, rfl, rfl⟩
    refine
      { width := (ensureStarted_width g t0).trans inv.width
        height := (ensureStarted_height g t0).trans inv.height
        non_mines := (ensureStarted_non_mines g t0).trans inv.non_mines
        shaped := shaped_modifyAt inv.shaped _ _
        static := fun p => ⟨(hcell p).1.trans (inv.static p).1,
          (hcell p).2.1.trans (inv.static p).2.1, (hcell p).2.2.1.trans (inv.static p).2.2⟩
        fresh := fun h => by rw [hstat] at h; cases h
        progress := ?_
        safe := ?_
        victory := fun h => by rw [hstat] at h; cases h
        defeat := fun h => by rw [hstat] at h; cases h }
    · intro _
      simp only []
      rw [ensureStarted_opened, ensureStarted_non_mines]
      rcases hst with h | h
      · exact Or.inl (inv.fresh h).1
      · exact inv.progress h
    · intro _ p hpm
      simp only [] at hpm ⊢
      rw [(hcell p).2.1] at hpm
      rw [(hcell p).2.2.2]
      exact inv.safe hnd p hpm
  · have hterm : g.game_status_ = GameStatus.VICTORY ∨ g.game_status_ = GameStatus.DEFEAT := by
      rcases hg : g.game_status_ with _ | _ | _ | _
      · exact absurd (Or.inl hg) hst
      · exact absurd (Or.inr hg) hst
      · exact Or.inl rfl
      · exact Or.inr rfl
    have hne : ¬ g.game_status_ = GameStatus.IN_PROGRESS := fun h => hst (Or.inr h)
    rw [MarkCell_unfold, ensureStarted_terminal t0 hterm, if_neg hne]
    exact inv

theorem GameInv.of_reachable {g0 g : Minesweeper} (h0 : FreshBoard g0)
    (hr : Reachable g0 g) : GameInv g0 g := by
  induction hr with
  | init => exact GameInv.init h0
  | open_cell t0 t1 cell _ hx hy ih => exact ih.open_cell h0 t0 t1 cell hx hy
  | mark_cell t0 cell _ _ _ ih => exact ih.mark_cell t0 cell

/-! ## Games built by the list constructor -/

theorem ctorList_fresh (width height : Nat) (mines : List Cell)
    (hin : ∀ m ∈ mines, m.x < width ∧ m.y < height) :
    FreshBoard (Minesweeper.ctorList width height mines) := by
  obtain ⟨f, hf, hs, hcell⟩ := ctorList_spec width height mines hin
  rw [hf]
  refine
    { shaped := hs
      coherent := fun p hp => by
        simp only []
        rw [hcell p hp]
        exact ⟨rfl, rfl⟩
      counts_sound := ?_
      status := rfl
      opened_qty := rfl
      unopened := ?_ }
  · intro c n hc hn hadj hq
    simp only [] at hc hn hq ⊢
    rw [hcell c hc] at hq
    rw [hcell n hn]
    simp only [List.countP_eq_zero, decide_eq_true_eq] at hq
    simp only [decide_eq_false_iff_not]
    intro hmem
    exact hq _ hmem hadj.symm
  · intro p
    simp only []
    by_cases hp : InGrid width height p
    · rw [hcell p hp]
    · rw [cellAt_default_of_not_inGrid hs hp]
      rfl

theorem ctorList_dims (width height : Nat) (mines : List Cell)
    (hin : ∀ m ∈ mines, m.x < width ∧ m.y < height) :
    (Minesweeper.ctorList width height mines).field_width_ = width ∧
      (Minesweeper.ctorList width height mines).field_height_ = height ∧
      (Minesweeper.ctorList width height mines).non_mines_qty_ =
        size_sub (size_mul height width) mines.length := by
  obtain ⟨f, hf, _, _⟩ := ctorList_spec width height mines hin
  rw [hf]
  exact ⟨rfl, rfl, rfl⟩

theorem ncard_floodSet {g : Minesweeper} {s : CellPtr} {D : List CellPtr} (hnd : D.Nodup)
    (hD : ∀ p, p ∈ D ↔ FloodSet g s p) : Set.ncard {p | FloodSet g s p} = D.length := by
  have e : {p | FloodSet g s p} = (↑D.toFinset : Set CellPtr) := by
    ext p
    simp only [Set.mem_setOf_eq, Finset.mem_coe, List.mem_toFinset]
    exact (hD p).symm
  rw [e, Set.ncard_coe_Finset, List.toFinset_card_of_nodup hnd]

/-- C3. In a game created by the list constructor from in-bounds mines and then played,
with status NotStarted or InProgress, `OpenCell` on an unopened, unflagged, non-mine cell
opens exactly the flood set `R = FloodSet g (y, x)`: afterwards a cell is opened iff it was
opened before or lies in `R`; `opened_cells_qty_` has grown by the number of cells of `R`;
every cell of `R` was unopened and unflagged before the call (so no flagged cell is newly
opened), and nothing but `is_opened` of the cells of `R` is written in the field. -/
theorem OpenCell_opens_flood_set (width height : Nat) (cells_with_mines : List Cell)
    (hin : ∀ m ∈ cells_with_mines, m.x < width ∧ m.y < height) (g : Minesweeper)
    (hr : Reachable (Minesweeper.ctorList width height cells_with_mines) g)
    (hst : g.game_status_ = GameStatus.NOT_STARTED ∨ g.game_status_ = GameStatus.IN_PROGRESS)
    (cell : Cell) (hx : cell.x < width) (hy : cell.y < height)
    (hnm : (g.cell cell.x cell.y).is_mine = false)
    (hno : (g.cell cell.x cell.y).is_opened = false)
    (hnf : (g.cell cell.x cell.y).flag = false) (clock_start clock_end : Int) :
    (∀ p, ((cellAt (OpenCell g clock_start clock_end cell).field_ p).is_opened = true ↔
        ((cellAt g.field_ p).is_opened = true ∨ FloodSet g (cell.y, cell.x) p))) ∧
      (OpenCell g clock_start clock_end cell).opened_cells_qty_ =
        g.opened_cells_qty_ + Set.ncard {p | FloodSet g (cell.y, cell.x) p} ∧
      (∀ p, FloodSet g (cell.y, cell.x) p → InGrid width height p ∧
        (cellAt g.field_ p).is_opened = false ∧ (cellAt g.field_ p).flag = false) ∧
      (∀ p, (cellAt g.field_ p).flag = true → (cellAt g.field_ p).is_opened = false →
        (cellAt (OpenCell g clock_start clock_end cell).field_ p).is_opened = false) ∧
      (∀ p, (cellAt (OpenCell g clock_start clock_end cell).field_ p).toCell =
          (cellAt g.field_ p).toCell ∧
        (cellAt (OpenCell g clock_start clock_end cell).field_ p).flag =
          (cellAt g.field_ p).flag ∧
        (cellAt (OpenCell g clock_start clock_end cell).field_ p).is_mine =
          (cellAt g.field_ p).is_mine ∧
        (cellAt (OpenCell g clock_start clock_end cell).field_ p).mines_qty_nearby =
          (cellAt g.field_ p).mines_qty_nearby) := by
  have h0 := ctorList_fresh width height cells_with_mines hin
  have inv := GameInv.of_reachable h0 hr
  obtain ⟨hw0, hh0, _⟩ := ctorList_dims width height cells_with_mines hin
  have hw : g.field_width_ = width := inv.width.trans hw0
  have hh : g.field_height_ = height := inv.height.trans hh0
  have hcin : InGrid g.field_width_ g.field_height_ (cell.y, cell.x) := by
    rw [hw, hh]; exact ⟨hy, hx⟩
  obtain ⟨D, hnd, hD, _, _, _, hq, _, hcells, _⟩ :=
    OpenCell_flood_spec inv.shaped2 (inv.coherent h0) hst hcin hnm hno hnf
      clock_start clock_end
  have hR : ∀ p, FloodSet g (cell.y, cell.x) p → InGrid width height p ∧
      (cellAt g.field_ p).is_opened = false ∧ (cellAt g.field_ p).flag = false := by
    intro p hp
    have := hp.inGrid hcin
    rw [hw, hh] at this
    exact ⟨this, hp.unopened hno, hp.unflagged hnf⟩
  refine ⟨?_, ?_, hR, ?_, ?_⟩
  · intro p
    rw [hcells p, ← hD p]
    by_cases hp : p ∈ D
    · simp [hp, setOpened]
    · simp [hp]
  · rw [hq, ncard_floodSet hnd hD]
  · intro p hfl hop
    rw [hcells p]
    have hp : p ∉ D := fun hp => by
      have := (hR p ((hD p).1 hp)).2.2
      rw [hfl] at this
      exact Bool.false_ne_true this.symm
    rw [if_neg hp]
    exact hop
  · intro p
    rw [hcells p]
    split_ifs
    · exact ⟨rfl, rfl, rfl, rfl⟩
    · exact ⟨rfl, rfl, rfl, rfl⟩

/-- Witness for C3: the 3 x 3 board with one mine at `(2, 0)`; `OpenCell (0, 0)` opens the
eight safe cells and the board renders as `.1-`, `.11`, `...`. -/
theorem OpenCell_opens_flood_set_witness :
    ((∀ p, ((cellAt (OpenCell (Minesweeper.ctorList 3 3 [⟨2, 0⟩]) 0 0 ⟨0, 0⟩).field_ p).is_opened
          = true ↔
        ((cellAt (Minesweeper.ctorList 3 3 [⟨2, 0⟩]).field_ p).is_opened = true ∨
          FloodSet (Minesweeper.ctorList 3 3 [⟨2, 0⟩]) (0, 0) p))) ∧
      (OpenCell (Minesweeper.ctorList 3 3 [⟨2, 0⟩]) 0 0 ⟨0, 0⟩).opened_cells_qty_ =
        (Minesweeper.ctorList 3 3 [⟨2, 0⟩]).opened_cells_qty_ +
          Set.ncard {p | FloodSet (Minesweeper.ctorList 3 3 [⟨2, 0⟩]) (0, 0) p}) ∧
    (OpenCell (Minesweeper.ctorList 3 3 [⟨2, 0⟩]) 0 0 ⟨0, 0⟩).opened_cells_qty_ = 8 ∧
    RenderField (OpenCell (Minesweeper.ctorList 3 3 [⟨2, 0⟩]) 0 0 ⟨0, 0⟩) =
      [".1-", ".11", "..."] :=
  ⟨⟨(OpenCell_opens_flood_set 3 3 [⟨2, 0⟩] (by decide) _ Reachable.init (Or.inl rfl) ⟨0, 0⟩
      (by decide) (by decide) (by decide) (by decide) (by decide) 0 0).1,
    (OpenCell_opens_flood_set 3 3 [⟨2, 0⟩] (by decide) _ Reachable.init (Or.inl rfl) ⟨0, 0⟩
      (by decide) (by decide) (by decide) (by decide) (by decide) 0 0).2.1⟩,
    by decide, by decide⟩

/-- C8. Once the status is Victory or Defeat, `OpenCell` and `MarkCell` on any coordinate
return the engine unchanged: status, field, counters and both timestamps. -/
theorem terminal_calls_change_nothing (g : Minesweeper)
    (hterm : g.game_status_ = GameStatus.VICTORY ∨ g.game_status_ = GameStatus.DEFEAT)
    (cell : Cell) (clock_start clock_end : Int) :
    OpenCell g clock_start clock_end cell = g ∧ MarkCell g clock_start cell = g := by
  have hne : ¬ g.game_status_ = GameStatus.IN_PROGRESS := by
    rcases hterm with h | h <;> rw [h] <;> decide
  constructor
  · rw [OpenCell_unfold, ensureStarted_terminal _ hterm, if_neg hne]
  · rw [MarkCell_unfold, ensureStarted_terminal _ hterm, if_neg hne]

/-- Witness for C8: the lost game after `OpenCell` on the mine `(2, 0)` of the 3 x 3 board,
called again at later clock values. -/
theorem terminal_calls_change_nothing_witness :
    (OpenCell (Minesweeper.ctorList 3 3 [⟨2, 0⟩]) 1 2 ⟨2, 0⟩).game_status_ =
        GameStatus.DEFEAT ∧
      OpenCell (OpenCell (Minesweeper.ctorList 3 3 [⟨2, 0⟩]) 1 2 ⟨2, 0⟩) 8 9 ⟨1, 1⟩ =
        OpenCell (Minesweeper.ctorList 3 3 [⟨2, 0⟩]) 1 2 ⟨2, 0⟩ ∧
      MarkCell (OpenCell (Minesweeper.ctorList 3 3 [⟨2, 0⟩]) 1 2 ⟨2, 0⟩) 8 ⟨1, 1⟩ =
        OpenCell (Minesweeper.ctorList 3 3 [⟨2, 0⟩]) 1 2 ⟨2, 0⟩ :=
  ⟨by decide,
    terminal_calls_change_nothing (OpenCell (Minesweeper.ctorList 3 3 [⟨2, 0⟩]) 1 2 ⟨2, 0⟩)
      (Or.inr (by decide)) ⟨1, 1⟩ 8 9⟩

/-! ## Where the code departs from the specification -/

/-- C2. After `NewGame(3, 3, {(2, 2)})` the mine is at `(2, 2)`, but its neighbour `(2, 1)`
has `mines_qty_nearby = 0` and the cell `(1, 0)`, which has no mine around, has 1: the
cells made by `ResetField` all store the coordinates `(0, 0)`, so every mine increments
the neighbours of the corner.  The constructor gives 1 and 0 there. -/
theorem NewGameList_counts_around_corner :
    ((NewGameList (Minesweeper.ctorList 3 3 []) 3 3 [⟨2, 2⟩]).cell 2 2).is_mine = true ∧
      ((NewGameList (Minesweeper.ctorList 3 3 []) 3 3 [⟨2, 2⟩]).cell 2 1).mines_qty_nearby = 0 ∧
      (mineNeighbours (NewGameList (Minesweeper.ctorList 3 3 []) 3 3 [⟨2, 2⟩]) (1, 2)).card
        = 1 ∧
      ((NewGameList (Minesweeper.ctorList 3 3 []) 3 3 [⟨2, 2⟩]).cell 1 0).mines_qty_nearby = 1 ∧
      (mineNeighbours (NewGameList (Minesweeper.ctorList 3 3 []) 3 3 [⟨2, 2⟩]) (0, 1)).card
        = 0 ∧
      ((Minesweeper.ctorList 3 3 [⟨2, 2⟩]).cell 2 1).mines_qty_nearby = 1 ∧
      ((Minesweeper.ctorList 3 3 [⟨2, 2⟩]).cell 1 0).mines_qty_nearby = 0 := by
  decide

/-- C4. On the 3 x 3 board with a mine at `(2, 0)`, after `OpenCell (2, 1)` has opened one
cell, `OpenCell (2, 0)` gives Defeat with every cell opened and
`opened_cells_qty_ = 10 = 1 + 3 * 3`: the reveal loop counts the opened cell again. -/
theorem OpenCell_mine_counts_opened_cells_again :
    (OpenCell (Minesweeper.ctorList 3 3 [⟨2, 0⟩]) 0 0 ⟨2, 1⟩).game_status_ =
        GameStatus.IN_PROGRESS ∧
      (OpenCell (Minesweeper.ctorList 3 3 [⟨2, 0⟩]) 0 0 ⟨2, 1⟩).opened_cells_qty_ = 1 ∧
      (OpenCell (OpenCell (Minesweeper.ctorList 3 3 [⟨2, 0⟩]) 0 0 ⟨2, 1⟩) 0 7 ⟨2, 0⟩).game_status_
        = GameStatus.DEFEAT ∧
      (OpenCell (OpenCell (Minesweeper.ctorList 3 3 [⟨2, 0⟩]) 0 0 ⟨2, 1⟩) 0 7 ⟨2, 0⟩).game_end_time_
        = 7 ∧
      RenderField (OpenCell (OpenCell (Minesweeper.ctorList 3 3 [⟨2, 0⟩]) 0 0 ⟨2, 1⟩) 0 7 ⟨2, 0⟩)
        = [".1*", ".11", "..."] ∧
      (OpenCell (OpenCell (Minesweeper.ctorList 3 3 [⟨2, 0⟩]) 0 0 ⟨2, 1⟩) 0 7
        ⟨2, 0⟩).opened_cells_qty_ = 10 := by
  decide

/-- What the mine branch of `OpenCell` does in general: Defeat, the end time is the clock
value, every cell of the field is opened, and `opened_cells_qty_` grows by the number of
cells of the field, whatever it was before. -/
theorem OpenCell_mine_spec (g : Minesweeper)
    (hst : g.game_status_ = GameStatus.NOT_STARTED ∨ g.game_status_ = GameStatus.IN_PROGRESS)
    (cell : Cell) (hm : (g.cell cell.x cell.y).is_mine = true) (clock_start clock_end : Int) :
    (OpenCell g clock_start clock_end cell).game_status_ = GameStatus.DEFEAT ∧
      (OpenCell g clock_start clock_end cell).game_end_time_ = clock_end ∧
      (OpenCell g clock_start clock_end cell).field_ =
        g.field_.map (fun row => row.map setOpened) ∧
      (OpenCell g clock_start clock_end cell).opened_cells_qty_ =
        g.opened_cells_qty_ + (g.field_.map List.length).sum := by
  unfold Minesweeper.cell at hm
  rw [OpenCell_unfold, if_pos (ensureStarted_status clock_start hst), if_pos hm]
  refine ⟨rfl, rfl, ?_, ?_⟩
  · simp only [revealAll]
    rw [ensureStarted_field]
  · simp only [revealAll]
    rw [ensureStarted_field, ensureStarted_opened]

/-- C6. On the 3 x 3 board with a mine at `(2, 0)`: after `MarkCell (2, 0)` the game is
InProgress and the mine is flagged and unopened; `OpenCell (2, 0)` then opens it and the
game is lost: the flag test sits only in the non-mine branch. -/
theorem OpenCell_opens_flagged_mine :
    (MarkCell (Minesweeper.ctorList 3 3 [⟨2, 0⟩]) 0 ⟨2, 0⟩).game_status_ =
        GameStatus.IN_PROGRESS ∧
      ((MarkCell (Minesweeper.ctorList 3 3 [⟨2, 0⟩]) 0 ⟨2, 0⟩).cell 2 0).flag = true ∧
      ((MarkCell (Minesweeper.ctorList 3 3 [⟨2, 0⟩]) 0 ⟨2, 0⟩).cell 2 0).is_opened = false ∧
      (OpenCell (MarkCell (Minesweeper.ctorList 3 3 [⟨2, 0⟩]) 0 ⟨2, 0⟩) 0 5 ⟨2, 0⟩).game_status_
        = GameStatus.DEFEAT ∧
      ((OpenCell (MarkCell (Minesweeper.ctorList 3 3 [⟨2, 0⟩]) 0 ⟨2, 0⟩) 0 5 ⟨2, 0⟩).cell
        2 0).is_opened = true ∧
      (OpenCell (MarkCell (Minesweeper.ctorList 3 3 [⟨2, 0⟩]) 0 ⟨2, 0⟩) 0 5 ⟨2, 0⟩).game_end_time_
        = 5 := by
  decide

/-- The part of C6 the code keeps: while InProgress, `OpenCell` on a cell that is not a
mine and is opened or flagged returns the engine unchanged. -/
theorem OpenCell_skips_opened_or_flagged_safe_cell (g : Minesweeper)
    (hst : g.game_status_ = GameStatus.IN_PROGRESS) (cell : Cell)
    (hnm : (g.cell cell.x cell.y).is_mine = false)
    (hof : (g.cell cell.x cell.y).is_opened = true ∨ (g.cell cell.x cell.y).flag = true)
    (clock_start clock_end : Int) : OpenCell g clock_start clock_end cell = g := by
  have hes : ensureStarted g clock_start = g := by
    unfold ensureStarted
    rw [if_neg (by rw [hst]; decide)]
  unfold Minesweeper.cell at hnm hof
  rw [OpenCell_unfold, hes, if_pos hst, hnm]
  rcases hof with h | h
  · simp [h]
  · simp [h]

/-- C7. After `NewGame(3, 3, {(2, 2)})`, `OpenCell (2, 1)` on the unopened, unflagged,
non-mine cell `(2, 1)` leaves that cell unopened and opens the corner `(0, 0)` instead:
`Bfs` starts at the coordinates stored in the cell, which `ResetField` left at `(0, 0)`. -/
theorem OpenCell_after_NewGame_starts_at_corner :
    (NewGameList (Minesweeper.ctorList 3 3 []) 3 3 [⟨2, 2⟩]).game_status_ =
        GameStatus.NOT_STARTED ∧
      ((NewGameList (Minesweeper.ctorList 3 3 []) 3 3 [⟨2, 2⟩]).cell 2 1).is_mine = false ∧
      ((NewGameList (Minesweeper.ctorList 3 3 []) 3 3 [⟨2, 2⟩]).cell 2 1).is_opened = false ∧
      ((NewGameList (Minesweeper.ctorList 3 3 []) 3 3 [⟨2, 2⟩]).cell 2 1).flag = false ∧
      ((OpenCell (NewGameList (Minesweeper.ctorList 3 3 []) 3 3 [⟨2, 2⟩]) 0 0 ⟨2, 1⟩).cell
        2 1).is_opened = false ∧
      ((OpenCell (NewGameList (Minesweeper.ctorList 3 3 []) 3 3 [⟨2, 2⟩]) 0 0 ⟨2, 1⟩).cell
        0 0).is_opened = true ∧
      RenderField (OpenCell (NewGameList (Minesweeper.ctorList 3 3 []) 3 3 [⟨2, 2⟩]) 0 0 ⟨2, 1⟩)
        = [".1-", "11-", "---"] := by
  decide

/-! ## Random placement -/

theorem is_mine_incAll (ps : List CellPtr) (f : Field) (q : CellPtr) :
    (cellAt (ps.foldl (fun f n => modifyAt f n incNearby) f) q).is_mine =
      (cellAt f q).is_mine := by
  induction ps generalizing f with
  | nil => rfl
  | cons p ps ih =>
    simp only [List.foldl_cons]
    rw [ih, cellAt_modifyAt]
    split_ifs with h
    · rw [h.1]; rfl
    · rfl

theorem placeMine_spec {w h : Nat} {g : Minesweeper} (hs : Shaped g.field_ w h) (p : CellPtr)
    (hp : InGrid w h p) :
    ∃ f, UpdateMinesQtyNearbyForNeighbours
        { g with field_ := modifyAt g.field_ p setMine }
        (cellAt (modifyAt g.field_ p setMine) p) = { g with field_ := f } ∧
      Shaped f w h ∧
      ∀ q, ((cellAt f q).is_mine = true ↔ ((cellAt g.field_ q).is_mine = true ∨ q = p)) := by
  rw [UpdateMinesQty_frame]
  refine ⟨_, rfl, shaped_incAll _ (shaped_modifyAt hs _ _), fun q => ?_⟩
  rw [is_mine_incAll, cellAt_modifyAt_shaped hs hp]
  by_cases hq : q = p
  · subst hq
    simp [setMine]
  · simp [hq]

theorem SetMinesRandomly_spec {w h : Nat} (width height n : Nat) (ids : List Nat)
    (g : Minesweeper) (hs : Shaped g.field_ w h)
    (hin : ∀ i, i < n → InGrid w h (ids.getD i 0 / width, ids.getD i 0 % width)) :
    ∃ f, SetMinesRandomly g width height n ids = { g with field_ := f } ∧ Shaped f w h ∧
      ∀ q, ((cellAt f q).is_mine = true ↔ ((cellAt g.field_ q).is_mine = true ∨
        ∃ i, i < n ∧ q = (ids.getD i 0 / width, ids.getD i 0 % width))) := by
  induction n with
  | zero =>
    refine ⟨g.field_, rfl, hs, fun q => ?_⟩
    simp
  | succ n ih =>
    obtain ⟨f, hf, hsf, hq⟩ := ih (fun i hi => hin i (by omega))
    obtain ⟨f2, hf2, hsf2, hq2⟩ := placeMine_spec (g := { g with field_ := f }) hsf
      (ids.getD n 0 / width, ids.getD n 0 % width) (hin n (by omega))
    refine ⟨f2, ?_, hsf2, fun q => ?_⟩
    · unfold SetMinesRandomly at hf ⊢
      rw [List.range_succ, List.foldl_append, hf]
      simp only [List.foldl_cons, List.foldl_nil]
      exact hf2
    · rw [hq2 q]
      simp only []
      rw [hq q]
      constructor
      · rintro ((h | ⟨i, hi, h⟩) | h)
        · exact Or.inl h
        · exact Or.inr ⟨i, by omega, h⟩
        · exact Or.inr ⟨n, by omega, h⟩
      · rintro (h | ⟨i, hi, h⟩)
        · exact Or.inl (Or.inl h)
        · by_cases hi2 : i = n
          · subst hi2; exact Or.inr h
          · exact Or.inl (Or.inr ⟨i, by omega, h⟩)

theorem cellAt_replicate (width height : Nat) (p : CellPtr) :
    cellAt (List.replicate height (List.replicate width (default : CellInfo))) p = default := by
  unfold cellAt
  rcases getD_mem_or (List.replicate height (List.replicate width (default : CellInfo))) p.1 []
    with hm | ⟨_, he⟩
  · rw [List.eq_of_mem_replicate hm]
    rcases getD_mem_or (List.replicate width (default : CellInfo)) p.2 default with hm2 | ⟨_, he2⟩
    · exact List.eq_of_mem_replicate hm2
    · exact he2
  · rw [he]
    rfl

theorem shaped_replicate (width height : Nat) :
    Shaped (List.replicate height (List.replicate width (default : CellInfo))) width height := by
  refine ⟨List.length_replicate _ _, fun row hrow => ?_⟩
  rw [List.eq_of_mem_replicate hrow, List.length_replicate]

theorem ids_inGrid {width height n : Nat} (hw : 0 < width) (hm : n ≤ width * height)
    {ids : List Nat} (hperm : ids.Perm (List.range (width * height))) (i : Nat) (hi : i < n) :
    ids.getD i 0 < width * height ∧
      InGrid width height (ids.getD i 0 / width, ids.getD i 0 % width) := by
  have hlen : ids.length = width * height := by rw [hperm.length_eq, List.length_range]
  have hi2 : i < ids.length := by omega
  have hmem : ids.getD i 0 ∈ List.range (width * height) := by
    rw [List.getD_eq_getElem ids 0 hi2]
    exact hperm.subset (List.getElem_mem hi2)
  rw [List.mem_range] at hmem
  refine ⟨hmem, ?_, Nat.mod_lt _ hw⟩
  exact (Nat.div_lt_iff_lt_mul hw).2 (by rw [Nat.mul_comm]; exact hmem)

theorem card_mines_of_ids {width height n : Nat} (hw : 0 < width) (hm : n ≤ width * height)
    {ids : List Nat} (hperm : ids.Perm (List.range (width * height))) (G : Minesweeper)
    (hGw : G.field_width_ = width) (hGh : G.field_height_ = height)
    (hchar : ∀ q, ((cellAt G.field_ q).is_mine = true ↔
      ∃ i, i < n ∧ q = (ids.getD i 0 / width, ids.getD i 0 % width))) :
    (mineCells G).card = n ∧ (safeCells G).card = width * height - n := by
  have hlen : ids.length = width * height := by rw [hperm.length_eq, List.length_range]
  have hnd : ids.Nodup := hperm.nodup_iff.2 (List.nodup_range _)
  have himg : mineCells G = (Finset.range n).image
      fun i => ((ids.getD i 0 / width, ids.getD i 0 % width) : CellPtr) := by
    ext q
    simp only [mineCells, Finset.mem_filter, Finset.mem_product, Finset.mem_range,
      Finset.mem_image, hGw, hGh]
    rw [hchar q]
    constructor
    · rintro ⟨_, i, hi, rfl⟩
      exact ⟨i, hi, rfl⟩
    · rintro ⟨i, hi, rfl⟩
      exact ⟨(ids_inGrid hw hm hperm i hi).2, i, hi, rfl⟩
  have hinj : Set.InjOn (fun i => ((ids.getD i 0 / width, ids.getD i 0 % width) : CellPtr))
      (↑(Finset.range n) : Set Nat) := by
    intro i hi j hj he
    simp only [Finset.coe_range, Set.mem_Iio] at hi hj
    simp only [Prod.mk.injEq] at he
    have hi2 : i < ids.length := by omega
    have hj2 : j < ids.length := by omega
    have hid : ids.getD i 0 = ids.getD j 0 := by
      rw [← Nat.div_add_mod (ids.getD i 0) width, ← Nat.div_add_mod (ids.getD j 0) width,
        he.1, he.2]
    rw [List.getD_eq_getElem ids 0 hi2, List.getD_eq_getElem ids 0 hj2] at hid
    exact (hnd.getElem_inj_iff).1 hid
  have hcard : (mineCells G).card = n := by
    rw [himg, Finset.card_image_of_injOn hinj, Finset.card_range]
  have hsum := Finset.filter_card_add_filter_neg_card_eq_card
    (s := (Finset.range G.field_height_) ×ˢ (Finset.range G.field_width_))
    (fun q => (cellAt G.field_ q).is_mine = true)
  rw [Finset.card_product, Finset.card_range, Finset.card_range] at hsum
  have hsum2 : (mineCells G).card + (safeCells G).card = G.field_height_ * G.field_width_ :=
    hsum
  rw [hGw, hGh] at hsum2
  refine ⟨hcard, ?_⟩
  rw [Nat.mul_comm width height]
  omega

theorem size_sub_mul_eq {width height n : Nat} (hm : n ≤ width * height)
    (hsize : width * height < SIZE_MOD) :
    size_sub (size_mul height width) n = width * height - n := by
  have h1 : height * width % SIZE_MOD = width * height := by
    rw [Nat.mul_comm height width]; exact Nat.mod_eq_of_lt hsize
  have h2 : n % SIZE_MOD = n := Nat.mod_eq_of_lt (by omega)
  have h3 : width * height + SIZE_MOD - n = SIZE_MOD + (width * height - n) := by omega
  unfold size_sub size_mul
  rw [Nat.mod_mod, h1, h2, h3, Nat.add_mod_left]
  exact Nat.mod_eq_of_lt (by omega)

theorem random_setup_spec {width height n : Nat} (hw : 0 < width) (hm : n ≤ width * height)
    (hsize : width * height < SIZE_MOD) {ids : List Nat}
    (hperm : ids.Perm (List.range (width * height))) (b : Minesweeper)
    (hbw : b.field_width_ = width) (hbh : b.field_height_ = height)
    (hbs : Shaped b.field_ width height) (hbm : ∀ q, (cellAt b.field_ q).is_mine = false)
    (hbn : b.non_mines_qty_ = size_sub (size_mul height width) n) :
    (SetMinesRandomly b width height n ids).field_width_ = width ∧
      (SetMinesRandomly b width height n ids).field_height_ = height ∧
      (∀ x y, (((SetMinesRandomly b width height n ids).cell x y).is_mine = true ↔
        ∃ i, i < n ∧ ids.getD i 0 % width = x ∧ ids.getD i 0 / width = y)) ∧
      (mineCells (SetMinesRandomly b width height n ids)).card = n ∧
      (SetMinesRandomly b width height n ids).non_mines_qty_ =
        (safeCells (SetMinesRandomly b width height n ids)).card := by
  obtain ⟨f, hf, _, hq⟩ := SetMinesRandomly_spec width height n ids b hbs
    (fun i hi => (ids_inGrid hw hm hperm i hi).2)
  have hchar : ∀ q, ((cellAt (SetMinesRandomly b width height n ids).field_ q).is_mine = true ↔
      ∃ i, i < n ∧ q = (ids.getD i 0 / width, ids.getD i 0 % width)) := by
    intro q
    rw [hf]
    simp only []
    rw [hq q, hbm q]
    simp
  have hGw : (SetMinesRandomly b width height n ids).field_width_ = width := by
    rw [hf]; exact hbw
  have hGh : (SetMinesRandomly b width height n ids).field_height_ = height := by
    rw [hf]; exact hbh
  obtain ⟨hc1, hc2⟩ := card_mines_of_ids hw hm hperm _ hGw hGh hchar
  refine ⟨hGw, hGh, fun x y => ?_, hc1, ?_⟩
  · rw [Minesweeper.cell, hchar (y, x)]
    constructor
    · rintro ⟨i, hi, he⟩
      simp only [Prod.mk.injEq] at he
      exact ⟨i, hi, he.2.symm, he.1.symm⟩
    · rintro ⟨i, hi, h1, h2⟩
      exact ⟨i, hi, by rw [h1, h2]⟩
  · rw [hc2, ← size_sub_mul_eq hm hsize, ← hbn, hf]

/-- C9. For `width > 0`, `height > 0`, `mines_count <= width * height` (a product within
`size_t`) and every permutation `cell_id_list` of the indices the shuffle may return, the
random setup, by the constructor and by `NewGame` on any engine `g`, maps each of the first
`mines_count` indices into the grid (`x = id mod width`, `y = id div width`), makes exactly
those cells mines, `mines_count` distinct cells in all, and `non_mines_qty_` is the number
of cells that are not mines. -/
theorem random_setup_places_mines (width height mines_count : Nat) (hw : 0 < width)
    (hh : 0 < height) (hm : mines_count ≤ width * height) (hsize : width * height < SIZE_MOD)
    (cell_id_list : List Nat) (hperm : cell_id_list.Perm (List.range (width * height)))
    (g : Minesweeper) :
    (∀ i, i < mines_count →
      cell_id_list.getD i 0 % width < width ∧ cell_id_list.getD i 0 / width < height) ∧
    ∀ G, (G = Minesweeper.ctorCount width height mines_count cell_id_list ∨
        G = NewGameCount g width height mines_count cell_id_list) →
      G.field_width_ = width ∧ G.field_height_ = height ∧
      (∀ x y, ((G.cell x y).is_mine = true ↔
        ∃ i, i < mines_count ∧ cell_id_list.getD i 0 % width = x ∧
          cell_id_list.getD i 0 / width = y)) ∧
      (mineCells G).card = mines_count ∧
      G.non_mines_qty_ = (safeCells G).card := by
  have _ := hh
  refine ⟨fun i hi => ⟨(ids_inGrid hw hm hperm i hi).2.2, (ids_inGrid hw hm hperm i hi).2.1⟩,
    ?_⟩
  rintro G (rfl | rfl)
  · exact random_setup_spec hw hm hsize hperm
      { Minesweeper.ctor width height 0 with
        non_mines_qty_ := size_sub (size_mul height width) mines_count }
      rfl rfl (shaped_ctor _ _ _)
      (fun q => by
        simp only []
        rw [cellAt_ctor]
        split_ifs <;> rfl)
      rfl
  · exact random_setup_spec hw hm hsize hperm
      { ResetField g width height with
        non_mines_qty_ := size_sub (size_mul height width) mines_count }
      rfl rfl (shaped_replicate _ _)
      (fun q => by
        simp only [ResetField]
        rw [cellAt_replicate]
        rfl)
      rfl

/-- Witness for C9: the 2 x 2 board, two mines, shuffle result `[3, 0, 2, 1]`: the mines are
the cells `(1, 1)` and `(0, 0)`. -/
theorem random_setup_places_mines_witness :
    ((∀ i, i < 2 → [3, 0, 2, 1].getD i 0 % 2 < 2 ∧ [3, 0, 2, 1].getD i 0 / 2 < 2) ∧
    ∀ G, (G = Minesweeper.ctorCount 2 2 2 [3, 0, 2, 1] ∨
        G = NewGameCount (Minesweeper.ctorList 3 3 [⟨2, 0⟩]) 2 2 2 [3, 0, 2, 1]) →
      G.field_width_ = 2 ∧ G.field_height_ = 2 ∧
      (∀ x y, ((G.cell x y).is_mine = true ↔
        ∃ i, i < 2 ∧ [3, 0, 2, 1].getD i 0 % 2 = x ∧ [3, 0, 2, 1].getD i 0 / 2 = y)) ∧
      (mineCells G).card = 2 ∧
      G.non_mines_qty_ = (safeCells G).card) ∧
    (Minesweeper.ctorCount 2 2 2 [3, 0, 2, 1]).non_mines_qty_ = 2 ∧
    (List.range 2).map (fun y => (List.range 2).map fun x =>
        ((Minesweeper.ctorCount 2 2 2 [3, 0, 2, 1]).cell x y).is_mine) =
      [[true, false], [false, true]] :=
  ⟨random_setup_places_mines 2 2 2 (by decide) (by decide) (by decide)
      (by unfold SIZE_MOD; omega) [3, 0, 2, 1] (by decide)
      (Minesweeper.ctorList 3 3 [⟨2, 0⟩]),
    by decide, by decide⟩

set_option maxRecDepth 100000 in
/-- C10. After `NewGame(4, 4, mines)` with ten pairwise-distinct in-bounds mines and
`OpenCell (0, 0)`, `RenderField` returns rows of length 5 and 6 on a board of width 4, with
the digit `0` in them: every mine has incremented the three neighbours of the corner, whose
`mines_qty_nearby` is 10 and renders as two characters. -/
theorem RenderField_after_NewGame_row_too_long :
    RenderField (OpenCell (NewGameList (Minesweeper.ctorList 1 1 []) 4 4
        [⟨2, 0⟩, ⟨3, 0⟩, ⟨0, 2⟩, ⟨1, 2⟩, ⟨2, 2⟩, ⟨3, 2⟩, ⟨0, 3⟩, ⟨1, 3⟩, ⟨2, 3⟩, ⟨3, 3⟩])
        0 0 ⟨0, 0⟩) =
      [".10--", "1010--", "----", "----"] ∧
    (OpenCell (NewGameList (Minesweeper.ctorList 1 1 []) 4 4
        [⟨2, 0⟩, ⟨3, 0⟩, ⟨0, 2⟩, ⟨1, 2⟩, ⟨2, 2⟩, ⟨3, 2⟩, ⟨0, 3⟩, ⟨1, 3⟩, ⟨2, 3⟩, ⟨3, 3⟩])
        0 0 ⟨0, 0⟩).field_width_ = 4 ∧
    (".10--" : String).length = 5 ∧ '0' ∈ (".10--" : String).toList := by
  decide

set_option maxRecDepth 100000 in
/-- The same failure of C10 through a mine list with repeated coordinates: the constructor
on a 2 x 1 board with `(0, 0)` listed ten times, then `OpenCell (1, 0)`, renders the single
row `-10`, three characters for two cells. -/
theorem RenderField_repeated_mines_row_too_long :
    RenderField (OpenCell (Minesweeper.ctorList 2 1
        [⟨0, 0⟩, ⟨0, 0⟩, ⟨0, 0⟩, ⟨0, 0⟩, ⟨0, 0⟩, ⟨0, 0⟩, ⟨0, 0⟩, ⟨0, 0⟩, ⟨0, 0⟩, ⟨0, 0⟩])
        0 0 ⟨1, 0⟩) = ["-10"] := by
  decide

/-! ## Rendering -/

theorem to_string_digit (n : Nat) (h1 : 0 < n) (h9 : n ≤ 9) :
    to_string n = String.singleton (Nat.digitChar n) := by
  interval_cases n <;> rfl

theorem renderCell_single (cell : CellInfo) (h : cell.mines_qty_nearby ≤ 9) :
    renderCell cell = String.singleton (specChar cell) := by
  obtain ⟨⟨x, y⟩, fl, mi, op, n⟩ := cell
  simp only at h
  cases op <;> cases mi <;> cases fl <;>
    first
    | rfl
    | (by_cases hn : 0 < n
       · simp [renderCell, specChar, hn, to_string_digit n hn h]
       · have h0 : n = 0 := by omega
         subst h0
         rfl)

theorem render_row_chars (row : List CellInfo) (acc : String)
    (h : ∀ cell ∈ row, cell.mines_qty_nearby ≤ 9) :
    (row.foldl (fun r cell => r ++ renderCell cell) acc).toList =
      acc.toList ++ row.map specChar := by
  induction row generalizing acc with
  | nil => simp
  | cons c row ih =>
    simp only [List.foldl_cons, List.map_cons]
    rw [ih _ (fun cell hc => h cell (List.mem_cons_of_mem _ hc)),
      renderCell_single c (h c (List.mem_cons_self _ _))]
    simp [String.toList]

/-- On a field whose counts are all single digits, `RenderField` returns, for every row of
the field, the string whose characters are, cell by cell, `*` if the cell is opened and a
mine; the decimal digit of `mines_qty_nearby` if opened, not a mine and the count is
positive; `.` if opened, not a mine and the count is 0; `?` if unopened and flagged; `-` if
unopened and unflagged (`specChar`).  There the character in row `r`, column `c` depends on
the cell `(x = c, y = r)` alone, and toggling the flag of an opened cell does not change its
text.  A count of 10 or more takes two characters and moves the rest of the row. -/
theorem RenderField_char_of_cell (g : Minesweeper)
    (hdigit : ∀ row ∈ g.field_, ∀ cell ∈ row, cell.mines_qty_nearby ≤ 9) :
    (RenderField g).map String.toList = g.field_.map (fun row => row.map specChar) ∧
      (∀ r c, r < g.field_.length → c < (g.field_.getD r []).length →
        ((RenderField g).getD r "").toList.getD c '-' = specChar (cellAt g.field_ (r, c))) ∧
      (∀ cell : CellInfo, cell.is_opened = true →
        renderCell (toggleFlag cell) = renderCell cell) := by
  have hrows : (RenderField g).map String.toList = g.field_.map (fun row => row.map specChar) := by
    unfold RenderField
    rw [List.map_map]
    apply List.map_congr_left
    intro row hrow
    simp only [Function.comp]
    rw [render_row_chars row "" (hdigit row hrow)]
    rfl
  refine ⟨hrows, ?_, ?_⟩
  · intro r c hr hc
    have hlen : (RenderField g).length = g.field_.length := by simp [RenderField]
    have hr2 : r < ((RenderField g).map String.toList).length := by simpa [hlen] using hr
    have h1 : ((RenderField g).getD r "").toList = ((RenderField g).map String.toList)[r] := by
      rw [List.getElem_map, List.getD_eq_getElem _ _ (by rw [hlen]; exact hr)]
    have hrow : g.field_.getD r [] = g.field_[r] := List.getD_eq_getElem _ _ hr
    rw [h1]
    simp only [hrows, List.getElem_map]
    rw [hrow] at hc
    simp only [cellAt, hrow]
    rw [List.getD_eq_getElem _ _ (by simpa using hc), List.getD_eq_getElem _ _ hc,
      List.getElem_map]
  · intro cell hop
    obtain ⟨⟨x, y⟩, fl, mi, op, n⟩ := cell
    simp only at hop
    subst hop
    rfl

/-- The single-digit rendering on the 3 x 3 board with one mine at `(2, 0)` after
`OpenCell (2, 0)`: the game is lost, every cell is opened and the render is `.1*`, `.11`,
`...`. -/
theorem RenderField_char_of_cell_witness :
    ((RenderField (OpenCell (Minesweeper.ctorList 3 3 [⟨2, 0⟩]) 0 0 ⟨2, 0⟩)).map String.toList =
        (OpenCell (Minesweeper.ctorList 3 3 [⟨2, 0⟩]) 0 0 ⟨2, 0⟩).field_.map
          (fun row => row.map specChar) ∧
      (∀ r c, r < (OpenCell (Minesweeper.ctorList 3 3 [⟨2, 0⟩]) 0 0 ⟨2, 0⟩).field_.length →
        c < ((OpenCell (Minesweeper.ctorList 3 3 [⟨2, 0⟩]) 0 0 ⟨2, 0⟩).field_.getD r []).length →
        ((RenderField (OpenCell (Minesweeper.ctorList 3 3 [⟨2, 0⟩]) 0 0 ⟨2, 0⟩)).getD r
            "").toList.getD c '-' =
          specChar (cellAt (OpenCell (Minesweeper.ctorList 3 3 [⟨2, 0⟩]) 0 0 ⟨2, 0⟩).field_
            (r, c))) ∧
      (∀ cell : CellInfo, cell.is_opened = true →
        renderCell (toggleFlag cell) = renderCell cell)) ∧
    RenderField (OpenCell (Minesweeper.ctorList 3 3 [⟨2, 0⟩]) 0 0 ⟨2, 0⟩) =
      [".1*", ".11", "..."] :=
  ⟨RenderField_char_of_cell (OpenCell (Minesweeper.ctorList 3 3 [⟨2, 0⟩]) 0 0 ⟨2, 0⟩)
      (by decide),
    by decide⟩

set_option maxRecDepth 100000 in
/-- C11. After `NewGame(4, 4, mines)` with ten pairwise-distinct in-bounds mines and
`OpenCell (0, 0)`, row 0 of `RenderField` is `.10--`.  The cell `(x = 1, y = 0)` is opened,
not a mine, and has `mines_qty_nearby = 10`, which no single decimal digit renders: it takes
columns 1 and 2 of the row.  So the character in row 0, column 2 is `0`, while the cell
`(x = 2, y = 0)` is unopened and unflagged, for which the claim gives `-`: the character in
row `r`, column `c` is not determined by the cell `(x = c, y = r)` alone. -/
theorem RenderField_column_shifted_after_NewGame :
    (RenderField (OpenCell (NewGameList (Minesweeper.ctorList 1 1 []) 4 4
        [⟨2, 0⟩, ⟨3, 0⟩, ⟨0, 2⟩, ⟨1, 2⟩, ⟨2, 2⟩, ⟨3, 2⟩, ⟨0, 3⟩, ⟨1, 3⟩, ⟨2, 3⟩, ⟨3, 3⟩])
        0 0 ⟨0, 0⟩)).getD 0 "" = ".10--" ∧
    ((RenderField (OpenCell (NewGameList (Minesweeper.ctorList 1 1 []) 4 4
        [⟨2, 0⟩, ⟨3, 0⟩, ⟨0, 2⟩, ⟨1, 2⟩, ⟨2, 2⟩, ⟨3, 2⟩, ⟨0, 3⟩, ⟨1, 3⟩, ⟨2, 3⟩, ⟨3, 3⟩])
        0 0 ⟨0, 0⟩)).getD 0 "").toList.getD 2 '-' = '0' ∧
    (cellAt (OpenCell (NewGameList (Minesweeper.ctorList 1 1 []) 4 4
        [⟨2, 0⟩, ⟨3, 0⟩, ⟨0, 2⟩, ⟨1, 2⟩, ⟨2, 2⟩, ⟨3, 2⟩, ⟨0, 3⟩, ⟨1, 3⟩, ⟨2, 3⟩, ⟨3, 3⟩])
        0 0 ⟨0, 0⟩).field_ (0, 2)).is_opened = false ∧
    (cellAt (OpenCell (NewGameList (Minesweeper.ctorList 1 1 []) 4 4
        [⟨2, 0⟩, ⟨3, 0⟩, ⟨0, 2⟩, ⟨1, 2⟩, ⟨2, 2⟩, ⟨3, 2⟩, ⟨0, 3⟩, ⟨1, 3⟩, ⟨2, 3⟩, ⟨3, 3⟩])
        0 0 ⟨0, 0⟩).field_ (0, 2)).flag = false ∧
    specChar (cellAt (OpenCell (NewGameList (Minesweeper.ctorList 1 1 []) 4 4
        [⟨2, 0⟩, ⟨3, 0⟩, ⟨0, 2⟩, ⟨1, 2⟩, ⟨2, 2⟩, ⟨3, 2⟩, ⟨0, 3⟩, ⟨1, 3⟩, ⟨2, 3⟩, ⟨3, 3⟩])
        0 0 ⟨0, 0⟩).field_ (0, 2)) = '-' ∧
    (cellAt (OpenCell (NewGameList (Minesweeper.ctorList 1 1 []) 4 4
        [⟨2, 0⟩, ⟨3, 0⟩, ⟨0, 2⟩, ⟨1, 2⟩, ⟨2, 2⟩, ⟨3, 2⟩, ⟨0, 3⟩, ⟨1, 3⟩, ⟨2, 3⟩, ⟨3, 3⟩])
        0 0 ⟨0, 0⟩).field_ (0, 1)).is_opened = true ∧
    (cellAt (OpenCell (NewGameList (Minesweeper.ctorList 1 1 []) 4 4
        [⟨2, 0⟩, ⟨3, 0⟩, ⟨0, 2⟩, ⟨1, 2⟩, ⟨2, 2⟩, ⟨3, 2⟩, ⟨0, 3⟩, ⟨1, 3⟩, ⟨2, 3⟩, ⟨3, 3⟩])
        0 0 ⟨0, 0⟩).field_ (0, 1)).is_mine = false ∧
    (cellAt (OpenCell (NewGameList (Minesweeper.ctorList 1 1 []) 4 4
        [⟨2, 0⟩, ⟨3, 0⟩, ⟨0, 2⟩, ⟨1, 2⟩, ⟨2, 2⟩, ⟨3, 2⟩, ⟨0, 3⟩, ⟨1, 3⟩, ⟨2, 3⟩, ⟨3, 3⟩])
        0 0 ⟨0, 0⟩).field_ (0, 1)).mines_qty_nearby = 10 ∧
    ¬ (∀ r c, r < (OpenCell (NewGameList (Minesweeper.ctorList 1 1 []) 4 4
        [⟨2, 0⟩, ⟨3, 0⟩, ⟨0, 2⟩, ⟨1, 2⟩, ⟨2, 2⟩, ⟨3, 2⟩, ⟨0, 3⟩, ⟨1, 3⟩, ⟨2, 3⟩, ⟨3, 3⟩])
        0 0 ⟨0, 0⟩).field_.length →
        c < ((OpenCell (NewGameList (Minesweeper.ctorList 1 1 []) 4 4
        [⟨2, 0⟩, ⟨3, 0⟩, ⟨0, 2⟩, ⟨1, 2⟩, ⟨2, 2⟩, ⟨3, 2⟩, ⟨0, 3⟩, ⟨1, 3⟩, ⟨2, 3⟩, ⟨3, 3⟩])
        0 0 ⟨0, 0⟩).field_.getD r []).length →
        ((RenderField (OpenCell (NewGameList (Minesweeper.ctorList 1 1 []) 4 4
        [⟨2, 0⟩, ⟨3, 0⟩, ⟨0, 2⟩, ⟨1, 2⟩, ⟨2, 2⟩, ⟨3, 2⟩, ⟨0, 3⟩, ⟨1, 3⟩, ⟨2, 3⟩, ⟨3, 3⟩])
        0 0 ⟨0, 0⟩)).getD r "").toList.getD c '-' =
          specChar (cellAt (OpenCell (NewGameList (Minesweeper.ctorList 1 1 []) 4 4
        [⟨2, 0⟩, ⟨3, 0⟩, ⟨0, 2⟩, ⟨1, 2⟩, ⟨2, 2⟩, ⟨3, 2⟩, ⟨0, 3⟩, ⟨1, 3⟩, ⟨2, 3⟩, ⟨3, 3⟩])
        0 0 ⟨0, 0⟩).field_ (r, c))) := by
  refine ⟨by decide, by decide, by decide, by decide, by decide, by decide, by decide,
    by decide, ?_⟩
  intro h
  exact absurd (h 0 2 (by decide) (by decide)) (by decide)

theorem mem_field_cellAt {f : Field} {row : List CellInfo} (hrow : row ∈ f) {cell : CellInfo}
    (hc : cell ∈ row) :
    ∃ p : CellPtr, p.1 < f.length ∧ p.2 < (f.getD p.1 []).length ∧ cellAt f p = cell := by
  obtain ⟨i, hi, rfl⟩ := List.mem_iff_getElem.1 hrow
  obtain ⟨j, hj, rfl⟩ := List.mem_iff_getElem.1 hc
  have e : f.getD i [] = f[i] := List.getD_eq_getElem _ _ hi
  refine ⟨(i, j), hi, by rw [e]; exact hj, ?_⟩
  simp only [cellAt, e]
  exact List.getD_eq_getElem _ _ hj

/-- In every state reached from a board the list constructor builds from in-bounds,
pairwise-distinct mines, every cell of the field has `mines_qty_nearby <= 8`, so the
single-digit rendering applies to it. -/
theorem reachable_counts_single_digit (width height : Nat) (mines : List Cell)
    (hin : ∀ m ∈ mines, m.x < width ∧ m.y < height) (hnd : mines.Nodup) (g : Minesweeper)
    (hr : Reachable (Minesweeper.ctorList width height mines) g) :
    ∀ row ∈ g.field_, ∀ cell ∈ row, cell.mines_qty_nearby ≤ 8 := by
  intro row hrow cell hc
  have h0 := ctorList_fresh width height mines hin
  have inv := GameInv.of_reachable h0 hr
  obtain ⟨hw0, hh0, _⟩ := ctorList_dims width height mines hin
  obtain ⟨p, hp1, hp2, rfl⟩ := mem_field_cellAt hrow hc
  have hpin : InGrid width height p := by
    have hsh := inv.shaped
    rw [hw0, hh0] at hsh
    refine ⟨by rw [← hsh.1]; exact hp1, ?_⟩
    rw [hsh.row_length (by rw [← hsh.1]; exact hp1)] at hp2
    exact hp2
  rw [(inv.static p).2.2]
  obtain ⟨f, hf, _, hcell⟩ := ctorList_spec width height mines hin
  have hmine : ∀ q, InGrid width height q →
      ((cellAt f q).is_mine = true ↔ Cell.mk q.2 q.1 ∈ mines) := by
    intro q hq
    rw [hcell q hq]
    simp
  have hcount := card_mineNeighbours (Minesweeper.ctorList width height mines)
    mines (by rw [hf]; exact hin) hnd (by rw [hf]; exact hmine) p
  have hle := card_mineNeighbours_le (Minesweeper.ctorList width height mines)
    p (by rw [hf]; exact hpin)
  have hq : (cellAt (Minesweeper.ctorList width height mines).field_ p).mines_qty_nearby =
      mines.countP fun m => decide (Adjacent p (m.y, m.x)) := by
    rw [hf]
    simp only []
    rw [hcell p hpin]
  rw [hq, ← hcount]
  exact hle

/-! ## Flags, clock and status -/

theorem toggleFlag_toggleFlag (c : CellInfo) : toggleFlag (toggleFlag c) = c := by
  obtain ⟨⟨x, y⟩, fl, mi, op, n⟩ := c
  simp [toggleFlag]

theorem set_getD_self {α : Type} (l : List α) (i : Nat) (d : α) : l.set i (l.getD i d) = l := by
  induction l generalizing i with
  | nil => rfl
  | cons a l ih =>
    cases i with
    | zero => rfl
    | succ i =>
      simp only [List.set_cons_succ, List.getD_cons_succ]
      rw [ih]

theorem modifyAt_toggle_twice (f : Field) (p : CellPtr) :
    modifyAt (modifyAt f p toggleFlag) p toggleFlag = f := by
  by_cases h1 : p.1 < f.length
  · have hrow : (modifyAt f p toggleFlag).getD p.1 [] =
        (f.getD p.1 []).set p.2 (toggleFlag (cellAt f p)) := by
      unfold modifyAt
      rw [getD_set_eq, if_pos ⟨rfl, h1⟩]
    have hcell : cellAt (modifyAt f p toggleFlag) p =
        if p.2 < (f.getD p.1 []).length then toggleFlag (cellAt f p) else cellAt f p := by
      rw [cellAt_modifyAt]
      by_cases h2 : p.2 < (f.getD p.1 []).length
      · rw [if_pos ⟨rfl, h1, h2⟩, if_pos h2]
      · rw [if_neg (fun h => h2 h.2.2), if_neg h2]
    have e1 : modifyAt (modifyAt f p toggleFlag) p toggleFlag =
        (modifyAt f p toggleFlag).set p.1 (((modifyAt f p toggleFlag).getD p.1 []).set p.2
          (toggleFlag (cellAt (modifyAt f p toggleFlag) p))) := rfl
    have e2 : ∀ X : List CellInfo, (modifyAt f p toggleFlag).set p.1 X = f.set p.1 X := by
      intro X
      unfold modifyAt
      rw [List.set_set]
    rw [e1, e2, hrow, List.set_set, hcell]
    by_cases h2 : p.2 < (f.getD p.1 []).length
    · rw [if_pos h2, toggleFlag_toggleFlag]
      unfold cellAt
      rw [set_getD_self, set_getD_self]
    · rw [if_neg h2, List.set_eq_of_length_le (l := f.getD p.1 []) (by omega), set_getD_self]
  · have e : ∀ f2 : Field, f2.length = f.length → modifyAt f2 p toggleFlag = f2 := by
      intro f2 hl
      unfold modifyAt
      exact List.set_eq_of_length_le (by omega)
    rw [e f rfl, e f rfl]

/-- C12. While the status is NotStarted or InProgress, `MarkCell` on an in-bounds coordinate
negates the flag of the target cell, opened or not, and leaves every other cell and every
other attribute of the target as they were; `opened_cells_qty_`, `non_mines_qty_` and the
dimensions are unchanged and the status afterwards is InProgress.  While InProgress, two
consecutive calls on the same cell give back the engine they started from. -/
theorem MarkCell_toggles_only_target (g : Minesweeper)
    (hs : Shaped g.field_ g.field_width_ g.field_height_)
    (hst : g.game_status_ = GameStatus.NOT_STARTED ∨ g.game_status_ = GameStatus.IN_PROGRESS)
    (cell : Cell) (hx : cell.x < g.field_width_) (hy : cell.y < g.field_height_)
    (clock_start clock_again : Int) :
    (MarkCell g clock_start cell).game_status_ = GameStatus.IN_PROGRESS ∧
      (MarkCell g clock_start cell).cell cell.x cell.y = toggleFlag (g.cell cell.x cell.y) ∧
      ((MarkCell g clock_start cell).cell cell.x cell.y).flag = !(g.cell cell.x cell.y).flag ∧
      (∀ p, p ≠ (cell.y, cell.x) →
        cellAt (MarkCell g clock_start cell).field_ p = cellAt g.field_ p) ∧
      (∀ p, (cellAt (MarkCell g clock_start cell).field_ p).is_opened =
          (cellAt g.field_ p).is_opened ∧
        (cellAt (MarkCell g clock_start cell).field_ p).is_mine = (cellAt g.field_ p).is_mine ∧
        (cellAt (MarkCell g clock_start cell).field_ p).mines_qty_nearby =
          (cellAt g.field_ p).mines_qty_nearby) ∧
      (MarkCell g clock_start cell).opened_cells_qty_ = g.opened_cells_qty_ ∧
      (MarkCell g clock_start cell).non_mines_qty_ = g.non_mines_qty_ ∧
      (MarkCell g clock_start cell).field_width_ = g.field_width_ ∧
      (MarkCell g clock_start cell).field_height_ = g.field_height_ ∧
      (g.game_status_ = GameStatus.IN_PROGRESS →
        MarkCell (MarkCell g clock_start cell) clock_again cell = g) := by
  have hstat := ensureStarted_status clock_start hst
  have hin : InGrid g.field_width_ g.field_height_ (cell.y, cell.x) := ⟨hy, hx⟩
  have hfield : (MarkCell g clock_start cell).field_ =
      modifyAt g.field_ (cell.y, cell.x) toggleFlag := by
    rw [MarkCell_unfold, if_pos hstat]
  have hcellAt : ∀ p, cellAt (MarkCell g clock_start cell).field_ p =
      if p = (cell.y, cell.x) then toggleFlag (cellAt g.field_ (cell.y, cell.x))
      else cellAt g.field_ p := by
    intro p
    rw [hfield, cellAt_modifyAt_shaped hs hin]
  refine ⟨?_, ?_, ?_, ?_, ?_, ?_, ?_, ?_, ?_, ?_⟩
  · rw [MarkCell_unfold, if_pos hstat]
    exact hstat
  · unfold Minesweeper.cell
    rw [hcellAt, if_pos rfl]
  · unfold Minesweeper.cell
    rw [hcellAt, if_pos rfl]
    rfl
  · intro p hp
    rw [hcellAt, if_neg hp]
  · intro p
    rw [hcellAt]
    split_ifs with h
    · rw [h]
      exact ⟨rfl, rfl, rfl⟩
    · exact ⟨rfl, rfl, rfl⟩
  · rw [MarkCell_unfold, if_pos hstat]
    exact ensureStarted_opened g clock_start
  · rw [MarkCell_unfold, if_pos hstat]
    exact ensureStarted_non_mines g clock_start
  · rw [MarkCell_unfold, if_pos hstat]
    exact ensureStarted_width g clock_start
  · rw [MarkCell_unfold, if_pos hstat]
    exact ensureStarted_height g clock_start
  · intro hip
    have hes : ∀ (g2 : Minesweeper) (t : Int), g2.game_status_ = GameStatus.IN_PROGRESS →
        ensureStarted g2 t = g2 := by
      intro g2 t h2
      unfold ensureStarted
      rw [if_neg (by rw [h2]; decide)]
    have h1 : MarkCell g clock_start cell =
        { g with field_ := modifyAt g.field_ (cell.y, cell.x) toggleFlag } := by
      rw [MarkCell_unfold, hes g clock_start hip, if_pos hip]
    have hip1 : ({ g with field_ := modifyAt g.field_ (cell.y, cell.x) toggleFlag } :
        Minesweeper).game_status_ = GameStatus.IN_PROGRESS := hip
    rw [h1, MarkCell_unfold, hes _ clock_again hip1, if_pos hip1]
    simp only []
    rw [modifyAt_toggle_twice]

/-- Witness for C12: `MarkCell (1, 1)` on the fresh 3 x 3 board with one mine at `(2, 0)`,
and the same call repeated twice more while the game is InProgress. -/
theorem MarkCell_toggles_only_target_witness :
    (MarkCell (Minesweeper.ctorList 3 3 [⟨2, 0⟩]) 4 ⟨1, 1⟩).game_status_ =
        GameStatus.IN_PROGRESS ∧
      ((MarkCell (Minesweeper.ctorList 3 3 [⟨2, 0⟩]) 4 ⟨1, 1⟩).cell 1 1).flag = true ∧
      RenderField (MarkCell (Minesweeper.ctorList 3 3 [⟨2, 0⟩]) 4 ⟨1, 1⟩) =
        ["---", "-?-", "---"] ∧
      MarkCell (MarkCell (MarkCell (Minesweeper.ctorList 3 3 [⟨2, 0⟩]) 4 ⟨1, 1⟩) 5 ⟨1, 1⟩) 6
          ⟨1, 1⟩ =
        MarkCell (Minesweeper.ctorList 3 3 [⟨2, 0⟩]) 4 ⟨1, 1⟩ :=
  ⟨(MarkCell_toggles_only_target (Minesweeper.ctorList 3 3 [⟨2, 0⟩])
      (ctorList_fresh 3 3 [⟨2, 0⟩] (by decide)).shaped (Or.inl (by decide)) ⟨1, 1⟩
      (by decide) (by decide) 4 5).1,
    by decide, by decide,
    (MarkCell_toggles_only_target (MarkCell (Minesweeper.ctorList 3 3 [⟨2, 0⟩]) 4 ⟨1, 1⟩)
      (by decide) (Or.inr (by decide)) ⟨1, 1⟩ (by decide) (by decide) 5 6).2.2.2.2.2.2.2.2.2
      (by decide)⟩

theorem sameFrame_trans {g1 g2 g3 : Minesweeper} (h12 : SameFrame g1 g2)
    (h23 : SameFrame g2 g3) : SameFrame g1 g3 :=
  ⟨h23.1.trans h12.1, h23.2.1.trans h12.2.1, h23.2.2.1.trans h12.2.2.1,
    h23.2.2.2.1.trans h12.2.2.2.1, h23.2.2.2.2.1.trans h12.2.2.2.2.1,
    h23.2.2.2.2.2.trans h12.2.2.2.2.2⟩

theorem BfsStep_frame (g : Minesweeper) (current : CellPtr) (rest : List CellPtr) :
    SameFrame g (BfsStep g current rest).1 := by
  rcases BfsStep_cases g current rest with h | ⟨_, h, _⟩
  · rw [h]; exact ⟨rfl, rfl, rfl, rfl, rfl, rfl⟩
  · rw [h]; exact ⟨rfl, rfl, rfl, rfl, rfl, rfl⟩

theorem BfsLoop_frame (fuel : Nat) (g : Minesweeper) (queue : List CellPtr) :
    SameFrame g (BfsLoop fuel g queue).1 := by
  induction fuel generalizing g queue with
  | zero =>
    cases queue <;> exact ⟨rfl, rfl, rfl, rfl, rfl, rfl⟩
  | succ fuel ih =>
    cases queue with
    | nil => exact ⟨rfl, rfl, rfl, rfl, rfl, rfl⟩
    | cons c r =>
      simp only [BfsLoop]
      exact sameFrame_trans (BfsStep_frame g c r) (ih _ _)

theorem Bfs_frame (g : Minesweeper) (cell : CellInfo) : SameFrame g (Bfs g cell) :=
  BfsLoop_frame _ _ _

theorem ensureStarted_start_time (g : Minesweeper) (t : Int) :
    (ensureStarted g t).game_start_time_ =
      if g.game_status_ = GameStatus.NOT_STARTED then t else g.game_start_time_ := by
  unfold ensureStarted StartGame
  split_ifs <;> rfl

theorem OpenCell_terminal {g : Minesweeper}
    (hterm : g.game_status_ = GameStatus.VICTORY ∨ g.game_status_ = GameStatus.DEFEAT)
    (t0 t1 : Int) (cell : Cell) : OpenCell g t0 t1 cell = g := by
  have hne : ¬ g.game_status_ = GameStatus.IN_PROGRESS := by
    rcases hterm with h | h <;> rw [h] <;> decide
  rw [OpenCell_unfold, ensureStarted_terminal _ hterm, if_neg hne]

theorem MarkCell_terminal {g : Minesweeper}
    (hterm : g.game_status_ = GameStatus.VICTORY ∨ g.game_status_ = GameStatus.DEFEAT)
    (t0 : Int) (cell : Cell) : MarkCell g t0 cell = g := by
  have hne : ¬ g.game_status_ = GameStatus.IN_PROGRESS := by
    rcases hterm with h | h <;> rw [h] <;> decide
  rw [MarkCell_unfold, ensureStarted_terminal _ hterm, if_neg hne]

/-- What `OpenCell` does to status and start time from a NotStarted or InProgress engine,
for any coordinate: the status afterwards is InProgress, Victory or Defeat and the start
time is the one `StartGame` has set or the one the engine already had. -/
theorem OpenCell_status_started {g : Minesweeper}
    (hst : g.game_status_ = GameStatus.NOT_STARTED ∨ g.game_status_ = GameStatus.IN_PROGRESS)
    (t0 t1 : Int) (cell : Cell) :
    ((OpenCell g t0 t1 cell).game_status_ = GameStatus.IN_PROGRESS ∨
      (OpenCell g t0 t1 cell).game_status_ = GameStatus.VICTORY ∨
      (OpenCell g t0 t1 cell).game_status_ = GameStatus.DEFEAT) ∧
    (OpenCell g t0 t1 cell).game_start_time_ = (ensureStarted g t0).game_start_time_ := by
  have hstat := ensureStarted_status t0 hst
  rw [OpenCell_unfold, if_pos hstat]
  split_ifs with h1 h2 h3
  · exact ⟨Or.inr (Or.inr rfl), rfl⟩
  · exact ⟨Or.inr (Or.inl rfl), (Bfs_frame _ _).2.2.2.1⟩
  · exact ⟨Or.inl ((Bfs_frame _ _).2.2.1.trans hstat), (Bfs_frame _ _).2.2.2.1⟩
  · exact ⟨Or.inl hstat, rfl⟩

theorem MarkCell_status_started {g : Minesweeper}
    (hst : g.game_status_ = GameStatus.NOT_STARTED ∨ g.game_status_ = GameStatus.IN_PROGRESS)
    (t0 : Int) (cell : Cell) :
    (MarkCell g t0 cell).game_status_ = GameStatus.IN_PROGRESS ∧
    (MarkCell g t0 cell).game_start_time_ = (ensureStarted g t0).game_start_time_ := by
  have hstat := ensureStarted_status t0 hst
  rw [MarkCell_unfold, if_pos hstat]
  exact ⟨hstat, rfl⟩

theorem status_cases (s : GameStatus) :
    (s = GameStatus.NOT_STARTED ∨ s = GameStatus.IN_PROGRESS) ∨
      (s = GameStatus.VICTORY ∨ s = GameStatus.DEFEAT) := by
  cases s
  · exact Or.inl (Or.inl rfl)
  · exact Or.inl (Or.inr rfl)
  · exact Or.inr (Or.inl rfl)
  · exact Or.inr (Or.inr rfl)

theorem stage_le_OpenCell (g : Minesweeper) (t0 t1 : Int) (cell : Cell) :
    g.game_status_.stage ≤ (OpenCell g t0 t1 cell).game_status_.stage := by
  rcases status_cases g.game_status_ with hst | hterm
  · rcases (OpenCell_status_started hst t0 t1 cell).1 with h | h | h <;>
      rcases hst with h2 | h2 <;> first | (rw [h, h2]; decide) | rw [h, h2]
  · rw [OpenCell_terminal hterm]

theorem stage_le_MarkCell (g : Minesweeper) (t0 : Int) (cell : Cell) :
    g.game_status_.stage ≤ (MarkCell g t0 cell).game_status_.stage := by
  rcases status_cases g.game_status_ with hst | hterm
  · rw [(MarkCell_status_started hst t0 cell).1]
    rcases hst with h2 | h2 <;> first | (rw [h2]; decide) | rw [h2]
  · rw [MarkCell_terminal hterm]

theorem stage_le_of_reachable {g g2 : Minesweeper} (hr : Reachable g g2) :
    g.game_status_.stage ≤ g2.game_status_.stage := by
  induction hr with
  | init => exact Nat.le_refl _
  | open_cell t0 t1 cell _ _ _ ih => exact Nat.le_trans ih (stage_le_OpenCell _ t0 t1 cell)
  | mark_cell t0 cell _ _ _ ih => exact Nat.le_trans ih (stage_le_MarkCell _ t0 cell)

/-- C16. In the order NotStarted < InProgress < {Victory, Defeat} no `OpenCell` or
`MarkCell` call, and no sequence of them, moves the status to an earlier stage; a status
Victory or Defeat is kept as it is (so Victory never becomes Defeat nor Defeat Victory);
and after a call on a NotStarted engine the status is no longer NotStarted and
`game_start_time_` is the clock value read by that call. -/
theorem status_moves_forward (g : Minesweeper) (cell : Cell) (clock_start clock_end : Int) :
    g.game_status_.stage ≤ (OpenCell g clock_start clock_end cell).game_status_.stage ∧
    g.game_status_.stage ≤ (MarkCell g clock_start cell).game_status_.stage ∧
    (∀ g2, Reachable g g2 → g.game_status_.stage ≤ g2.game_status_.stage) ∧
    (g.game_status_ = GameStatus.VICTORY ∨ g.game_status_ = GameStatus.DEFEAT →
      (OpenCell g clock_start clock_end cell).game_status_ = g.game_status_ ∧
      (MarkCell g clock_start cell).game_status_ = g.game_status_) ∧
    (g.game_status_ = GameStatus.NOT_STARTED →
      (OpenCell g clock_start clock_end cell).game_status_ ≠ GameStatus.NOT_STARTED ∧
      (OpenCell g clock_start clock_end cell).game_start_time_ = clock_start ∧
      (MarkCell g clock_start cell).game_status_ = GameStatus.IN_PROGRESS ∧
      (MarkCell g clock_start cell).game_start_time_ = clock_start) := by
  refine ⟨stage_le_OpenCell g _ _ cell, stage_le_MarkCell g _ cell,
    fun g2 hr => stage_le_of_reachable hr, ?_, ?_⟩
  · intro hterm
    rw [OpenCell_terminal hterm, MarkCell_terminal hterm]
    exact ⟨rfl, rfl⟩
  · intro hns
    have ho := OpenCell_status_started (Or.inl hns) clock_start clock_end cell
    have hm := MarkCell_status_started (Or.inl hns) clock_start cell
    rw [ensureStarted_start_time, if_pos hns] at ho hm
    refine ⟨?_, ho.2, hm.1, hm.2⟩
    rcases ho.1 with h | h | h <;> rw [h] <;> decide

/-- Witness for C16: the fresh 3 x 3 board with one mine at `(2, 0)`: a first `OpenCell` at
clock 10 on the safe cell `(2, 1)` makes the status InProgress with start time 10, and
the lost game stays lost. -/
theorem status_moves_forward_witness :
    ((OpenCell (Minesweeper.ctorList 3 3 [⟨2, 0⟩]) 10 11 ⟨2, 1⟩).game_status_ ≠
        GameStatus.NOT_STARTED ∧
      (OpenCell (Minesweeper.ctorList 3 3 [⟨2, 0⟩]) 10 11 ⟨2, 1⟩).game_start_time_ = 10 ∧
      (MarkCell (Minesweeper.ctorList 3 3 [⟨2, 0⟩]) 10 ⟨2, 1⟩).game_status_ =
        GameStatus.IN_PROGRESS ∧
      (MarkCell (Minesweeper.ctorList 3 3 [⟨2, 0⟩]) 10 ⟨2, 1⟩).game_start_time_ = 10) ∧
    (OpenCell (Minesweeper.ctorList 3 3 [⟨2, 0⟩]) 10 11 ⟨2, 1⟩).game_status_ =
      GameStatus.IN_PROGRESS ∧
    (OpenCell (OpenCell (Minesweeper.ctorList 3 3 [⟨2, 0⟩]) 10 11 ⟨2, 0⟩) 20 21
      ⟨0, 0⟩).game_status_ = GameStatus.DEFEAT :=
  ⟨(status_moves_forward (Minesweeper.ctorList 3 3 [⟨2, 0⟩]) ⟨2, 1⟩ 10 11).2.2.2.2
      (by decide),
    by decide, by decide⟩

/-! ## Coordinates outside the grid -/

theorem not_indexable_of_out_of_grid {f : Field} {w h : Nat} (hs : Shaped f w h) {cell : Cell}
    (hout : ¬ (cell.x < w ∧ cell.y < h)) :
    ¬ (cell.y < f.length ∧ cell.x < (f.getD cell.y []).length) := by
  rintro ⟨hy, hx⟩
  rw [hs.1] at hy
  rw [hs.row_length hy] at hx
  exact hout ⟨hx, hy⟩

/-- C14 (amended). `OpenCell` and `MarkCell` make no bounds check and never fail with
`IndexOutOfRange`.  Called with a coordinate outside the grid, they return and leave the
whole engine unchanged when the status is Victory or Defeat; when the status is NotStarted
or InProgress they index `field_` outside the vector (after `StartGame`, if the game was
NotStarted), which is undefined: no resulting state is specified. -/
theorem out_of_grid_call_results (g : Minesweeper)
    (hs : Shaped g.field_ g.field_width_ g.field_height_) (cell : Cell)
    (hout : ¬ (cell.x < g.field_width_ ∧ cell.y < g.field_height_))
    (clock_start clock_end : Int) :
    (g.game_status_ = GameStatus.VICTORY ∨ g.game_status_ = GameStatus.DEFEAT →
      OpenCellResult g clock_start clock_end cell = CallResult.returns g ∧
      MarkCellResult g clock_start cell = CallResult.returns g) ∧
    (g.game_status_ = GameStatus.NOT_STARTED ∨ g.game_status_ = GameStatus.IN_PROGRESS →
      OpenCellResult g clock_start clock_end cell = CallResult.undefined ∧
      MarkCellResult g clock_start cell = CallResult.undefined) ∧
    OpenCellResult g clock_start clock_end cell ≠ CallResult.index_out_of_range ∧
    MarkCellResult g clock_start cell ≠ CallResult.index_out_of_range := by
  have hidx := not_indexable_of_out_of_grid hs hout
  have hO : OpenCellResult g clock_start clock_end cell =
      if (ensureStarted g clock_start).game_status_ = GameStatus.IN_PROGRESS then
        if cell.y < g.field_.length ∧ cell.x < (g.field_.getD cell.y []).length then
          CallResult.returns (OpenCell g clock_start clock_end cell)
        else CallResult.undefined
      else CallResult.returns (ensureStarted g clock_start) := by
    simp only [OpenCellResult, ← ensureStarted_field g clock_start]
    rfl
  have hM : MarkCellResult g clock_start cell =
      if (ensureStarted g clock_start).game_status_ = GameStatus.IN_PROGRESS then
        if cell.y < g.field_.length ∧ cell.x < (g.field_.getD cell.y []).length then
          CallResult.returns (MarkCell g clock_start cell)
        else CallResult.undefined
      else CallResult.returns (ensureStarted g clock_start) := by
    simp only [MarkCellResult, ← ensureStarted_field g clock_start]
    rfl
  have hterm : g.game_status_ = GameStatus.VICTORY ∨ g.game_status_ = GameStatus.DEFEAT →
      OpenCellResult g clock_start clock_end cell = CallResult.returns g ∧
      MarkCellResult g clock_start cell = CallResult.returns g := by
    intro h
    have hne : ¬ g.game_status_ = GameStatus.IN_PROGRESS := by
      rcases h with h | h <;> rw [h] <;> decide
    rw [hO, hM, ensureStarted_terminal _ h]
    exact ⟨if_neg hne, if_neg hne⟩
  have hlive : g.game_status_ = GameStatus.NOT_STARTED ∨
      g.game_status_ = GameStatus.IN_PROGRESS →
      OpenCellResult g clock_start clock_end cell = CallResult.undefined ∧
      MarkCellResult g clock_start cell = CallResult.undefined := by
    intro h
    have hip := ensureStarted_status clock_start h
    rw [hO, hM]
    exact ⟨(if_pos hip).trans (if_neg hidx), (if_pos hip).trans (if_neg hidx)⟩
  refine ⟨hterm, hlive, ?_, ?_⟩
  · rcases status_cases g.game_status_ with h | h
    · rw [(hlive h).1]; exact fun e => CallResult.noConfusion e
    · rw [(hterm h).1]; exact fun e => CallResult.noConfusion e
  · rcases status_cases g.game_status_ with h | h
    · rw [(hlive h).2]; exact fun e => CallResult.noConfusion e
    · rw [(hterm h).2]; exact fun e => CallResult.noConfusion e

/-- Witness for C14 (amended): the coordinate `(5, 5)` on the 3 x 3 board with one mine at
`(2, 0)`: on the lost game both calls return it unchanged, on the fresh board both are
undefined. -/
theorem out_of_grid_call_results_witness :
    (OpenCellResult (OpenCell (Minesweeper.ctorList 3 3 [⟨2, 0⟩]) 1 2 ⟨2, 0⟩) 7 9 ⟨5, 5⟩ =
        CallResult.returns (OpenCell (Minesweeper.ctorList 3 3 [⟨2, 0⟩]) 1 2 ⟨2, 0⟩) ∧
      MarkCellResult (OpenCell (Minesweeper.ctorList 3 3 [⟨2, 0⟩]) 1 2 ⟨2, 0⟩) 7 ⟨5, 5⟩ =
        CallResult.returns (OpenCell (Minesweeper.ctorList 3 3 [⟨2, 0⟩]) 1 2 ⟨2, 0⟩)) ∧
    (OpenCellResult (Minesweeper.ctorList 3 3 [⟨2, 0⟩]) 7 9 ⟨5, 5⟩ = CallResult.undefined ∧
      MarkCellResult (Minesweeper.ctorList 3 3 [⟨2, 0⟩]) 7 ⟨5, 5⟩ = CallResult.undefined) :=
  ⟨(out_of_grid_call_results (OpenCell (Minesweeper.ctorList 3 3 [⟨2, 0⟩]) 1 2 ⟨2, 0⟩)
      (by decide) ⟨5, 5⟩ (by decide) 7 9).1 (Or.inr (by decide)),
    (out_of_grid_call_results (Minesweeper.ctorList 3 3 [⟨2, 0⟩])
      (by decide) ⟨5, 5⟩ (by decide) 7 9).2.1 (Or.inl (by decide))⟩

/-- C14 as stated fails: the coordinate `(5, 5)` is outside the 3 x 3 grid.  On the lost game
`OpenCell` and `MarkCell` return normally, without a failure; on the fresh board they run
`StartGame` and index `field_` out of bounds, which is undefined, so no unchanged state is
left.  In no case is the outcome `IndexOutOfRange`. -/
theorem out_of_grid_call_reports_no_failure :
    ¬ (5 < (Minesweeper.ctorList 3 3 [⟨2, 0⟩]).field_width_ ∧
        5 < (Minesweeper.ctorList 3 3 [⟨2, 0⟩]).field_height_) ∧
    (OpenCell (Minesweeper.ctorList 3 3 [⟨2, 0⟩]) 1 2 ⟨2, 0⟩).game_status_ =
      GameStatus.DEFEAT ∧
    OpenCellResult (OpenCell (Minesweeper.ctorList 3 3 [⟨2, 0⟩]) 1 2 ⟨2, 0⟩) 7 9 ⟨5, 5⟩ =
      CallResult.returns (OpenCell (Minesweeper.ctorList 3 3 [⟨2, 0⟩]) 1 2 ⟨2, 0⟩) ∧
    MarkCellResult (OpenCell (Minesweeper.ctorList 3 3 [⟨2, 0⟩]) 1 2 ⟨2, 0⟩) 7 ⟨5, 5⟩ =
      CallResult.returns (OpenCell (Minesweeper.ctorList 3 3 [⟨2, 0⟩]) 1 2 ⟨2, 0⟩) ∧
    ¬ (OpenCellResult (OpenCell (Minesweeper.ctorList 3 3 [⟨2, 0⟩]) 1 2 ⟨2, 0⟩) 7 9 ⟨5, 5⟩ =
        CallResult.index_out_of_range) ∧
    ¬ (MarkCellResult (OpenCell (Minesweeper.ctorList 3 3 [⟨2, 0⟩]) 1 2 ⟨2, 0⟩) 7 ⟨5, 5⟩ =
        CallResult.index_out_of_range) ∧
    (Minesweeper.ctorList 3 3 [⟨2, 0⟩]).game_status_ = GameStatus.NOT_STARTED ∧
    OpenCellResult (Minesweeper.ctorList 3 3 [⟨2, 0⟩]) 7 9 ⟨5, 5⟩ = CallResult.undefined ∧
    MarkCellResult (Minesweeper.ctorList 3 3 [⟨2, 0⟩]) 7 ⟨5, 5⟩ = CallResult.undefined ∧
    ¬ (OpenCellResult (Minesweeper.ctorList 3 3 [⟨2, 0⟩]) 7 9 ⟨5, 5⟩ =
        CallResult.index_out_of_range) ∧
    ¬ (MarkCellResult (Minesweeper.ctorList 3 3 [⟨2, 0⟩]) 7 ⟨5, 5⟩ =
        CallResult.index_out_of_range) := by
  decide

/-! ## Termination of the flood fill -/

theorem BfsLoop_fuel_mono (fuel : Nat) (g : Minesweeper) (queue : List CellPtr)
    (hdone : (BfsLoop fuel g queue).2 = []) (more : Nat) (hle : fuel ≤ more) :
    BfsLoop more g queue = BfsLoop fuel g queue := by
  induction fuel generalizing g queue more with
  | zero =>
    cases queue with
    | nil => cases more <;> rfl
    | cons c r => simp [BfsLoop] at hdone
  | succ fuel ih =>
    cases queue with
    | nil => cases more <;> rfl
    | cons c r =>
      cases more with
      | zero => omega
      | succ more =>
        simp only [BfsLoop] at hdone ⊢
        exact ih _ _ hdone more (by omega)

/-- C15. On every board of the declared shape whose cells store coordinates of the grid,
whatever cells are opened or flagged and whatever the counts are, and for every start
cell: an iteration of the loop of `Bfs` either opens a cell that was unopened (one unopened
cell less) or leaves the engine as it is and only drops the front of the queue; the loop
reaches the empty queue within the fuel `Bfs` grants, and more fuel gives the same
result. -/
theorem Bfs_terminates (g : Minesweeper) (hv : Valid g) (start : CellPtr)
    (hin : InGrid g.field_width_ g.field_height_ start) :
    (BfsLoop (bfsFuel g) g [start]).2 = [] ∧
    (∀ more, bfsFuel g ≤ more → BfsLoop more g [start] = BfsLoop (bfsFuel g) g [start]) ∧
    (∀ (g1 : Minesweeper) (current : CellPtr) (rest : List CellPtr), Valid g1 →
      InGrid g1.field_width_ g1.field_height_ current →
      ((cellAt g1.field_ current).is_opened = false ∧
        (cellAt (BfsStep g1 current rest).1.field_ current).is_opened = true ∧
        unopenedQty (BfsStep g1 current rest).1.field_ + 1 = unopenedQty g1.field_ ∧
        (BfsStep g1 current rest).1.opened_cells_qty_ = g1.opened_cells_qty_ + 1) ∨
      ((BfsStep g1 current rest).1 = g1 ∧ (BfsStep g1 current rest).2 = rest ∧
        (BfsStep g1 current rest).2.length < (current :: rest).length)) := by
  have hdone : (BfsLoop (bfsFuel g) g [start]).2 = [] := by
    apply BfsLoop_finishes _ _ _ hv
    · intro p hp
      rw [List.mem_singleton] at hp
      exact hp ▸ hin
    · simp only [bfsFuel, List.length_singleton]
      omega
  refine ⟨hdone, fun more hle => BfsLoop_fuel_mono _ _ _ hdone more hle, ?_⟩
  intro g1 current rest hv1 hc
  rcases BfsStep_cases g1 current rest with h | ⟨hno, h1, _⟩
  · right
    rw [h]
    exact ⟨rfl, rfl, by simp⟩
  · left
    rw [h1]
    refine ⟨hno, ?_, unopenedQty_modifyAt hv1.1 hc hno, rfl⟩
    simp only [openedAt]
    rw [cellAt_modifyAt_shaped hv1.1 hc, if_pos rfl]
    rfl

/-! ## Mine lists with repeated coordinates -/

/-- On the board the list constructor builds from in-bounds mines, the mine cells are the
listed coordinates; for pairwise-distinct coordinates and a board size within `size_t`
there are as many as the list is long and `non_mines_qty_` is the number of safe cells. -/
theorem ctorList_non_mines_distinct (width height : Nat) (mines : List Cell)
    (hin : ∀ m ∈ mines, m.x < width ∧ m.y < height) (hnd : mines.Nodup)
    (hsize : width * height < SIZE_MOD) :
    (mineCells (Minesweeper.ctorList width height mines)).card = mines.length ∧
      (Minesweeper.ctorList width height mines).non_mines_qty_ =
        (safeCells (Minesweeper.ctorList width height mines)).card := by
  obtain ⟨f, hf, _, hcell⟩ := ctorList_spec width height mines hin
  have hinj : Function.Injective (fun m : Cell => ((m.y, m.x) : CellPtr)) := by
    intro m1 m2 he
    cases m1; cases m2
    simp only [Prod.mk.injEq] at he
    rw [Cell.mk.injEq]
    exact ⟨he.2, he.1⟩
  have himg : mineCells (Minesweeper.ctorList width height mines) =
      (mines.map fun m : Cell => ((m.y, m.x) : CellPtr)).toFinset := by
    ext p
    rw [hf]
    simp only [mineCells, Finset.mem_filter, Finset.mem_product, Finset.mem_range,
      List.mem_toFinset, List.mem_map]
    constructor
    · rintro ⟨hp, hm⟩
      rw [hcell p hp] at hm
      exact ⟨Cell.mk p.2 p.1, by simpa using hm, rfl⟩
    · rintro ⟨m, hm, rfl⟩
      have hp : InGrid width height (m.y, m.x) := ⟨(hin m hm).2, (hin m hm).1⟩
      refine ⟨hp, ?_⟩
      rw [hcell _ hp]
      simpa using hm
  have hcard : (mineCells (Minesweeper.ctorList width height mines)).card = mines.length := by
    rw [himg, List.toFinset_card_of_nodup (hnd.map hinj), List.length_map]
  have hsum := Finset.filter_card_add_filter_neg_card_eq_card
    (s := (Finset.range (Minesweeper.ctorList width height mines).field_height_) ×ˢ
      (Finset.range (Minesweeper.ctorList width height mines).field_width_))
    (fun q => (cellAt (Minesweeper.ctorList width height mines).field_ q).is_mine = true)
  rw [Finset.card_product, Finset.card_range, Finset.card_range] at hsum
  have hsum2 : (mineCells (Minesweeper.ctorList width height mines)).card +
      (safeCells (Minesweeper.ctorList width height mines)).card =
      (Minesweeper.ctorList width height mines).field_height_ *
        (Minesweeper.ctorList width height mines).field_width_ := hsum
  obtain ⟨hw0, hh0, hn0⟩ := ctorList_dims width height mines hin
  rw [hw0, hh0, hcard] at hsum2
  have hle : mines.length ≤ width * height := by
    rw [Nat.mul_comm]; omega
  refine ⟨hcard, ?_⟩
  rw [hn0, size_sub_mul_eq hle hsize, Nat.mul_comm width height]
  omega

/-- C17. The constructor on the 3 x 1 board with the mine list `{(0,0), (0,0)}`: one cell is
a mine and two are safe, but `non_mines_qty_ = 3 * 1 - 2 = 1`; `OpenCell (1, 0)` then opens
one cell and the game is won with the safe cell `(2, 0)` unopened.  With the same list on
the 1 x 1 board the subtraction wraps to `2 ^ 64 - 1`. -/
theorem non_mines_qty_counts_repeated_mines :
    (mineCells (Minesweeper.ctorList 3 1 [⟨0, 0⟩, ⟨0, 0⟩])).card = 1 ∧
    (safeCells (Minesweeper.ctorList 3 1 [⟨0, 0⟩, ⟨0, 0⟩])).card = 2 ∧
    (Minesweeper.ctorList 3 1 [⟨0, 0⟩, ⟨0, 0⟩]).non_mines_qty_ = 1 ∧
    (OpenCell (Minesweeper.ctorList 3 1 [⟨0, 0⟩, ⟨0, 0⟩]) 0 0 ⟨1, 0⟩).game_status_ =
      GameStatus.VICTORY ∧
    ((OpenCell (Minesweeper.ctorList 3 1 [⟨0, 0⟩, ⟨0, 0⟩]) 0 0 ⟨1, 0⟩).cell 2 0).is_opened
      = false ∧
    ((OpenCell (Minesweeper.ctorList 3 1 [⟨0, 0⟩, ⟨0, 0⟩]) 0 0 ⟨1, 0⟩).cell 2 0).is_mine
      = false ∧
    (Minesweeper.ctorList 1 1 [⟨0, 0⟩, ⟨0, 0⟩]).non_mines_qty_ = 2 ^ 64 - 1 := by
  decide

/-- C18. For every in-bounds mine list given to the constructor, repeated coordinates
included: a cell is a mine iff its coordinate is listed, which is the layout the
de-duplicated list gives, and `mines_qty_nearby` of every cell is the number of list
entries, counted with multiplicity, that are neighbours of the cell: the sum over the
distinct neighbouring coordinates of the number of times each is listed. -/
theorem ctorList_counts_with_multiplicity (width height : Nat) (cells_with_mines : List Cell)
    (hin : ∀ m ∈ cells_with_mines, m.x < width ∧ m.y < height) (x y : Nat) (hx : x < width)
    (hy : y < height) :
    (((Minesweeper.ctorList width height cells_with_mines).cell x y).is_mine = true ↔
        Cell.mk x y ∈ cells_with_mines) ∧
      ((Minesweeper.ctorList width height cells_with_mines).cell x y).is_mine =
        ((Minesweeper.ctorList width height cells_with_mines.dedup).cell x y).is_mine ∧
      ((Minesweeper.ctorList width height cells_with_mines).cell x y).mines_qty_nearby =
        cells_with_mines.countP (fun m => decide (Adjacent (y, x) (m.y, m.x))) ∧
      ((Minesweeper.ctorList width height cells_with_mines).cell x y).mines_qty_nearby =
        ((cells_with_mines.dedup.filter fun m => decide (Adjacent (y, x) (m.y, m.x))).map
          fun m => cells_with_mines.count m).sum := by
  obtain ⟨f, hf, _, hcell⟩ := ctorList_spec width height cells_with_mines hin
  obtain ⟨f2, hf2, _, hcell2⟩ := ctorList_spec width height cells_with_mines.dedup
    (fun m hm => hin m (List.mem_dedup.1 hm))
  have hq : ((Minesweeper.ctorList width height cells_with_mines).cell x y).mines_qty_nearby =
      cells_with_mines.countP (fun m => decide (Adjacent (y, x) (m.y, m.x))) := by
    rw [Minesweeper.cell, hf]
    simp only []
    rw [hcell (y, x) ⟨hy, hx⟩]
  refine ⟨?_, ?_, hq, ?_⟩
  · rw [Minesweeper.cell, hf]
    simp only []
    rw [hcell (y, x) ⟨hy, hx⟩]
    simp
  · rw [Minesweeper.cell, Minesweeper.cell, hf, hf2]
    simp only []
    rw [hcell (y, x) ⟨hy, hx⟩, hcell2 (y, x) ⟨hy, hx⟩]
    simp only [List.mem_dedup]
  · rw [hq, List.sum_map_count_dedup_filter_eq_countP]

/-- Witness for C18: the 2 x 1 board with `(0, 0)` listed three times: one mine, and its
neighbour `(1, 0)` has `mines_qty_nearby = 3`. -/
theorem ctorList_counts_with_multiplicity_witness :
    ((((Minesweeper.ctorList 2 1 [⟨0, 0⟩, ⟨0, 0⟩, ⟨0, 0⟩]).cell 1 0).is_mine = true ↔
        Cell.mk 1 0 ∈ [(⟨0, 0⟩ : Cell), ⟨0, 0⟩, ⟨0, 0⟩]) ∧
      ((Minesweeper.ctorList 2 1 [⟨0, 0⟩, ⟨0, 0⟩, ⟨0, 0⟩]).cell 1 0).is_mine =
        ((Minesweeper.ctorList 2 1 [(⟨0, 0⟩ : Cell), ⟨0, 0⟩, ⟨0, 0⟩].dedup).cell 1 0).is_mine ∧
      ((Minesweeper.ctorList 2 1 [⟨0, 0⟩, ⟨0, 0⟩, ⟨0, 0⟩]).cell 1 0).mines_qty_nearby =
        [(⟨0, 0⟩ : Cell), ⟨0, 0⟩, ⟨0, 0⟩].countP (fun m => decide (Adjacent (0, 1) (m.y, m.x))) ∧
      ((Minesweeper.ctorList 2 1 [⟨0, 0⟩, ⟨0, 0⟩, ⟨0, 0⟩]).cell 1 0).mines_qty_nearby =
        (([(⟨0, 0⟩ : Cell), ⟨0, 0⟩, ⟨0, 0⟩].dedup.filter
          fun m => decide (Adjacent (0, 1) (m.y, m.x))).map
          fun m => [(⟨0, 0⟩ : Cell), ⟨0, 0⟩, ⟨0, 0⟩].count m).sum) ∧
    ((Minesweeper.ctorList 2 1 [⟨0, 0⟩, ⟨0, 0⟩, ⟨0, 0⟩]).cell 1 0).mines_qty_nearby = 3 ∧
    ((Minesweeper.ctorList 2 1 [⟨0, 0⟩, ⟨0, 0⟩, ⟨0, 0⟩]).cell 0 0).is_mine = true ∧
    ((Minesweeper.ctorList 2 1 [⟨0, 0⟩]).cell 1 0).mines_qty_nearby = 1 :=
  ⟨ctorList_counts_with_multiplicity 2 1 [⟨0, 0⟩, ⟨0, 0⟩, ⟨0, 0⟩] (by decide) 1 0
      (by decide) (by decide),
    by decide, by decide, by decide⟩

/-! ## The counter of opened cells -/

theorem OpenCell_skip {g : Minesweeper}
    (hst : g.game_status_ = GameStatus.NOT_STARTED ∨ g.game_status_ = GameStatus.IN_PROGRESS)
    {cell : Cell} (hnm : (cellAt g.field_ (cell.y, cell.x)).is_mine = false)
    (hof : ¬ ((cellAt g.field_ (cell.y, cell.x)).is_opened = false ∧
      (cellAt g.field_ (cell.y, cell.x)).flag = false)) (t0 t1 : Int) :
    OpenCell g t0 t1 cell = ensureStarted g t0 := by
  have hcond : (!(cellAt g.field_ (cell.y, cell.x)).is_opened &&
      !(cellAt g.field_ (cell.y, cell.x)).flag) = false := by
    rcases ho : (cellAt g.field_ (cell.y, cell.x)).is_opened with _ | _
    · rcases hfl : (cellAt g.field_ (cell.y, cell.x)).flag with _ | _
      · exact absurd ⟨ho, hfl⟩ hof
      · rfl
    · rfl
  rw [OpenCell_unfold, if_pos (ensureStarted_status t0 hst), hnm, hcond]
  simp only [Bool.false_eq_true, if_false]

theorem openedCells_congr {g g2 : Minesweeper} (hw : g2.field_width_ = g.field_width_)
    (hh : g2.field_height_ = g.field_height_)
    (ho : ∀ p, (cellAt g2.field_ p).is_opened = (cellAt g.field_ p).is_opened) :
    openedCells g2 = openedCells g := by
  unfold openedCells
  rw [hw, hh]
  exact Finset.filter_congr (fun p _ => by rw [ho p])

theorem openedCells_flood {g g2 : Minesweeper} {s : CellPtr} {D : List CellPtr}
    (hs : InGrid g.field_width_ g.field_height_ s)
    (hso : (cellAt g.field_ s).is_opened = false)
    (hnd : D.Nodup) (hD : ∀ p, p ∈ D ↔ FloodSet g s p)
    (hw : g2.field_width_ = g.field_width_) (hh : g2.field_height_ = g.field_height_)
    (hcells : ∀ p, cellAt g2.field_ p =
      if p ∈ D then setOpened (cellAt g.field_ p) else cellAt g.field_ p) :
    (openedCells g2).card = (openedCells g).card + D.length := by
  have hunion : openedCells g2 = openedCells g ∪ D.toFinset := by
    ext p
    simp only [openedCells, Finset.mem_filter, Finset.mem_product, Finset.mem_range,
      Finset.mem_union, List.mem_toFinset, hw, hh]
    rw [hcells p]
    by_cases hp : p ∈ D
    · have hpin := ((hD p).1 hp).inGrid hs
      simp only [hp, if_true, setOpened, or_true, and_true]
      exact iff_of_true hpin trivial
    · simp only [hp, if_false, or_false]
  have hdisj : Disjoint (openedCells g) D.toFinset := by
    rw [Finset.disjoint_left]
    intro p hp hpD
    simp only [openedCells, Finset.mem_filter] at hp
    rw [List.mem_toFinset] at hpD
    have := ((hD p).1 hpD).unopened hso
    rw [hp.2] at this
    exact Bool.noConfusion this
  rw [hunion, Finset.card_union_of_disjoint hdisj, List.toFinset_card_of_nodup hnd]

theorem opened_qty_of_reachable {g0 g : Minesweeper} (h0 : FreshBoard g0)
    (hr : Reachable g0 g) (hnd : g.game_status_ ≠ GameStatus.DEFEAT) :
    g.opened_cells_qty_ = (openedCells g).card := by
  induction hr with
  | init =>
    rw [h0.opened_qty]
    have : openedCells g0 = ∅ := by
      unfold openedCells
      apply Finset.filter_false_of_mem
      intro p _
      rw [h0.unopened p]
      exact Bool.false_ne_true
    rw [this, Finset.card_empty]
  | @open_cell g t0 t1 cell hrg hx hy ih =>
    have inv := GameInv.of_reachable h0 hrg
    rcases status_cases g.game_status_ with hst | hterm
    · have hgnd : g.game_status_ ≠ GameStatus.DEFEAT := by
        rcases hst with h | h <;> rw [h] <;> decide
      have hin : InGrid g.field_width_ g.field_height_ (cell.y, cell.x) := ⟨hy, hx⟩
      by_cases hm : (cellAt g.field_ (cell.y, cell.x)).is_mine = true
      · exact absurd (OpenCell_mine_spec g hst cell hm t0 t1).1 hnd
      · have hm2 : (cellAt g.field_ (cell.y, cell.x)).is_mine = false := by simpa using hm
        by_cases hof : (cellAt g.field_ (cell.y, cell.x)).is_opened = false ∧
            (cellAt g.field_ (cell.y, cell.x)).flag = false
        · obtain ⟨D, hDnd, hD, hw, hh, _, hq, _, hcells, _⟩ :=
            OpenCell_flood_spec inv.shaped2 (inv.coherent h0) hst hin hm2 hof.1 hof.2 t0 t1
          rw [hq, openedCells_flood hin hof.1 hDnd hD hw hh hcells, ih hgnd]
        · rw [OpenCell_skip hst hm2 hof, ensureStarted_opened, ih hgnd]
          exact congrArg Finset.card (openedCells_congr (ensureStarted_width g t0)
            (ensureStarted_height g t0) (fun p => by rw [ensureStarted_field])).symm
    · rw [OpenCell_terminal hterm] at hnd ⊢
      exact ih hnd
  | @mark_cell g t0 cell hrg hx hy ih =>
    rcases status_cases g.game_status_ with hst | hterm
    · have hgnd : g.game_status_ ≠ GameStatus.DEFEAT := by
        rcases hst with h | h <;> rw [h] <;> decide
      have hstat := ensureStarted_status t0 hst
      have hop : ∀ p, (cellAt (MarkCell g t0 cell).field_ p).is_opened =
          (cellAt g.field_ p).is_opened := by
        intro p
        rw [MarkCell_unfold, if_pos hstat]
        rcases OnlyFlags_modifyAt g.field_ (cell.y, cell.x) p with e | e
        · rw [e]
        · rw [e]; rfl
      have hw : (MarkCell g t0 cell).field_width_ = g.field_width_ := by
        rw [MarkCell_unfold, if_pos hstat]; exact ensureStarted_width g t0
      have hh : (MarkCell g t0 cell).field_height_ = g.field_height_ := by
        rw [MarkCell_unfold, if_pos hstat]; exact ensureStarted_height g t0
      have hq : (MarkCell g t0 cell).opened_cells_qty_ = g.opened_cells_qty_ := by
        rw [MarkCell_unfold, if_pos hstat]; exact ensureStarted_opened g t0
      rw [hq, openedCells_congr hw hh hop, ih hgnd]
    · rw [MarkCell_terminal hterm] at hnd ⊢
      exact ih hnd

/-- C19. In every state reached from a board the list constructor builds from in-bounds
mines (distinct or not) whose status is NotStarted, InProgress or Victory,
`opened_cells_qty_` is the number of cells of the grid with `is_opened == true`, hence at
most `width * height`. -/
theorem opened_qty_counts_opened_cells (width height : Nat) (cells_with_mines : List Cell)
    (hin : ∀ m ∈ cells_with_mines, m.x < width ∧ m.y < height) (g : Minesweeper)
    (hr : Reachable (Minesweeper.ctorList width height cells_with_mines) g)
    (hst : g.game_status_ = GameStatus.NOT_STARTED ∨
      g.game_status_ = GameStatus.IN_PROGRESS ∨ g.game_status_ = GameStatus.VICTORY) :
    g.opened_cells_qty_ = (openedCells g).card ∧ g.opened_cells_qty_ ≤ width * height := by
  have h0 := ctorList_fresh width height cells_with_mines hin
  have inv := GameInv.of_reachable h0 hr
  obtain ⟨hw0, hh0, _⟩ := ctorList_dims width height cells_with_mines hin
  have hnd : g.game_status_ ≠ GameStatus.DEFEAT := by
    rcases hst with h | h | h <;> rw [h] <;> decide
  have hq := opened_qty_of_reachable h0 hr hnd
  refine ⟨hq, ?_⟩
  rw [hq]
  calc (openedCells g).card
      ≤ ((Finset.range g.field_height_) ×ˢ (Finset.range g.field_width_)).card :=
        Finset.card_filter_le _ _
    _ = width * height := by
        rw [Finset.card_product, Finset.card_range, Finset.card_range, inv.width, inv.height,
          hw0, hh0, Nat.mul_comm]

/-- Witness for C19: the 3 x 3 board with one mine at `(2, 0)` after `OpenCell (0, 0)`: the
flood fill pushes several cells more than once, and the counter is 8, the number of opened
cells. -/
theorem opened_qty_counts_opened_cells_witness :
    ((OpenCell (Minesweeper.ctorList 3 3 [⟨2, 0⟩]) 0 0 ⟨0, 0⟩).opened_cells_qty_ =
        (openedCells (OpenCell (Minesweeper.ctorList 3 3 [⟨2, 0⟩]) 0 0 ⟨0, 0⟩)).card ∧
      (OpenCell (Minesweeper.ctorList 3 3 [⟨2, 0⟩]) 0 0 ⟨0, 0⟩).opened_cells_qty_ ≤ 3 * 3) ∧
    (OpenCell (Minesweeper.ctorList 3 3 [⟨2, 0⟩]) 0 0 ⟨0, 0⟩).opened_cells_qty_ = 8 :=
  ⟨opened_qty_counts_opened_cells 3 3 [⟨2, 0⟩] (by decide) _
      (Reachable.open_cell 0 0 ⟨0, 0⟩ Reachable.init (by decide) (by decide))
      (Or.inr (Or.inr (by decide))),
    by decide⟩

theorem safeCells_congr {g g2 : Minesweeper} (hw : g2.field_width_ = g.field_width_)
    (hh : g2.field_height_ = g.field_height_)
    (hm : ∀ p, (cellAt g2.field_ p).is_mine = (cellAt g.field_ p).is_mine) :
    safeCells g2 = safeCells g := by
  unfold safeCells
  rw [hw, hh]
  exact Finset.filter_congr (fun p _ => by rw [hm p])

/-- C20. In every state reached from a board the list constructor builds from in-bounds,
pairwise-distinct mines (board size within `size_t`), a mine cell is opened only if the
status is Defeat; and when the status is Victory the opened cells are exactly the cells
that are not mines. -/
theorem mine_opened_only_in_defeat (width height : Nat) (cells_with_mines : List Cell)
    (hin : ∀ m ∈ cells_with_mines, m.x < width ∧ m.y < height)
    (hnd : cells_with_mines.Nodup) (hsize : width * height < SIZE_MOD) (g : Minesweeper)
    (hr : Reachable (Minesweeper.ctorList width height cells_with_mines) g) :
    (∀ p, InGrid width height p → (cellAt g.field_ p).is_mine = true →
      (cellAt g.field_ p).is_opened = true → g.game_status_ = GameStatus.DEFEAT) ∧
    (g.game_status_ = GameStatus.VICTORY →
      openedCells g = safeCells g ∧
      ∀ p, InGrid width height p →
        ((cellAt g.field_ p).is_opened = true ↔ (cellAt g.field_ p).is_mine = false)) := by
  have h0 := ctorList_fresh width height cells_with_mines hin
  have inv := GameInv.of_reachable h0 hr
  obtain ⟨hw0, hh0, _⟩ := ctorList_dims width height cells_with_mines hin
  have hw : g.field_width_ = width := inv.width.trans hw0
  have hh : g.field_height_ = height := inv.height.trans hh0
  constructor
  · intro p _ hm ho
    by_contra hne
    have := inv.safe hne p hm
    rw [ho] at this
    exact Bool.noConfusion this
  · intro hv
    have hne : g.game_status_ ≠ GameStatus.DEFEAT := by rw [hv]; decide
    have hq := opened_qty_of_reachable h0 hr hne
    have hsafe0 := (ctorList_non_mines_distinct width height cells_with_mines hin hnd hsize).2
    have hsafe : safeCells g = safeCells (Minesweeper.ctorList width height cells_with_mines) :=
      safeCells_congr inv.width inv.height (fun p => (inv.static p).2.1)
    have hsub : openedCells g ⊆ safeCells g := by
      intro p hp
      simp only [openedCells, safeCells, Finset.mem_filter] at hp ⊢
      refine ⟨hp.1, fun hm => ?_⟩
      have := inv.safe hne p hm
      rw [hp.2] at this
      exact Bool.noConfusion this
    have hcard : (safeCells g).card ≤ (openedCells g).card := by
      rw [hsafe, ← hsafe0, ← inv.non_mines, ← (inv.victory hv).1, hq]
    have heq := Finset.eq_of_subset_of_card_le hsub hcard
    refine ⟨heq, fun p hp => ?_⟩
    have hmem : p ∈ openedCells g ↔ p ∈ safeCells g := by rw [heq]
    have hgrid : p ∈ (Finset.range g.field_height_) ×ˢ (Finset.range g.field_width_) := by
      rw [hw, hh, Finset.mem_product, Finset.mem_range, Finset.mem_range]
      exact hp
    simp only [openedCells, safeCells, Finset.mem_filter, hgrid, true_and] at hmem
    rw [hmem]
    simp

/-- Witness for C20: the 3 x 3 board with one mine at `(2, 0)` after `OpenCell (0, 0)`: the
game is won, the eight safe cells are opened and the mine is not. -/
theorem mine_opened_only_in_defeat_witness :
    ((OpenCell (Minesweeper.ctorList 3 3 [⟨2, 0⟩]) 0 0 ⟨0, 0⟩).game_status_ =
        GameStatus.VICTORY →
      openedCells (OpenCell (Minesweeper.ctorList 3 3 [⟨2, 0⟩]) 0 0 ⟨0, 0⟩) =
          safeCells (OpenCell (Minesweeper.ctorList 3 3 [⟨2, 0⟩]) 0 0 ⟨0, 0⟩) ∧
        ∀ p, InGrid 3 3 p →
          ((cellAt (OpenCell (Minesweeper.ctorList 3 3 [⟨2, 0⟩]) 0 0 ⟨0, 0⟩).field_ p).is_opened
              = true ↔
            (cellAt (OpenCell (Minesweeper.ctorList 3 3 [⟨2, 0⟩]) 0 0 ⟨0, 0⟩).field_ p).is_mine
              = false)) ∧
    (OpenCell (Minesweeper.ctorList 3 3 [⟨2, 0⟩]) 0 0 ⟨0, 0⟩).game_status_ =
      GameStatus.VICTORY ∧
    ((OpenCell (Minesweeper.ctorList 3 3 [⟨2, 0⟩]) 0 0 ⟨0, 0⟩).cell 2 0).is_opened = false ∧
    (openedCells (OpenCell (Minesweeper.ctorList 3 3 [⟨2, 0⟩]) 0 0 ⟨0, 0⟩)).card = 8 :=
  ⟨(mine_opened_only_in_defeat 3 3 [⟨2, 0⟩] (by decide) (by decide)
      (by unfold SIZE_MOD; omega) _
      (Reachable.open_cell 0 0 ⟨0, 0⟩ Reachable.init (by decide) (by decide))).2,
    by decide, by decide, by decide⟩

/-! ## Every state of the engine is well formed -/

theorem toCell_modifyAt (f : Field) (p q : CellPtr) {u : CellInfo → CellInfo}
    (hu : ∀ c, (u c).toCell = c.toCell) :
    (cellAt (modifyAt f p u) q).toCell = (cellAt f q).toCell := by
  rw [cellAt_modifyAt]
  split_ifs with h
  · rw [h.1]; exact hu _
  · rfl

theorem valid_modifyAt {g : Minesweeper} (hv : Valid g) (p : CellPtr)
    (u : CellInfo → CellInfo) (hu : ∀ c, (u c).toCell = c.toCell) :
    Valid { g with field_ := modifyAt g.field_ p u } := by
  refine ⟨shaped_modifyAt hv.1 _ _, fun q hq => ?_⟩
  have e := toCell_modifyAt g.field_ p q hu
  have ex := congrArg Cell.x e
  have ey := congrArg Cell.y e
  simp only [] at hq ⊢
  rw [ex, ey]
  exact hv.2 q hq

theorem valid_incAll (ps : List CellPtr) {g : Minesweeper} (hv : Valid g) :
    Valid { g with field_ := (ps.foldl (fun f n => modifyAt f n incNearby) g.field_) } := by
  induction ps generalizing g with
  | nil => exact hv
  | cons p ps ih => exact ih (valid_modifyAt hv p incNearby (fun _ => rfl))

theorem valid_placeMine {g : Minesweeper} (hv : Valid g) (p : CellPtr) :
    Valid (UpdateMinesQtyNearbyForNeighbours
      { g with field_ := modifyAt g.field_ p setMine }
      (cellAt (modifyAt g.field_ p setMine) p)) := by
  rw [UpdateMinesQty_frame]
  exact valid_incAll _ (valid_modifyAt hv p setMine (fun _ => rfl))

theorem valid_SetMinesByList (mines : List Cell) (a b : Nat) {g : Minesweeper} (hv : Valid g) :
    Valid (SetMinesByList g a b mines) := by
  unfold SetMinesByList
  induction mines generalizing g with
  | nil => exact hv
  | cons m mines ih =>
    simp only [List.foldl_cons]
    exact ih (valid_placeMine hv _)

theorem valid_SetMinesRandomly (n width b : Nat) (ids : List Nat) {g : Minesweeper}
    (hv : Valid g) : Valid (SetMinesRandomly g width b n ids) := by
  unfold SetMinesRandomly
  generalize List.range n = l
  induction l generalizing g with
  | nil => exact hv
  | cons i l ih =>
    simp only [List.foldl_cons]
    exact ih (valid_placeMine hv _)

theorem valid_ctor (width height junk : Nat) : Valid (Minesweeper.ctor width height junk) :=
  valid_of_coherent (shaped_ctor width height junk) (coherent_ctor width height junk)

theorem valid_ResetField (g : Minesweeper) (width height : Nat) :
    Valid (ResetField g width height) := by
  refine ⟨shaped_replicate width height, fun p hp => ?_⟩
  simp only [ResetField] at hp ⊢
  rw [cellAt_replicate]
  exact ⟨Nat.lt_of_le_of_lt (Nat.zero_le _) hp.1, Nat.lt_of_le_of_lt (Nat.zero_le _) hp.2⟩

theorem valid_setup {g0 : Minesweeper} (h : IsSetup g0) : Valid g0 := by
  cases h with
  | ctor width height junk => exact valid_ctor width height junk
  | ctorCount width height n ids =>
    exact valid_SetMinesRandomly n width height ids
      (g := { Minesweeper.ctor width height 0 with
        non_mines_qty_ := size_sub (size_mul height width) n }) (valid_ctor width height 0)
  | ctorList width height mines =>
    exact valid_SetMinesByList mines width height
      (g := { Minesweeper.ctor width height 0 with
        non_mines_qty_ := size_sub (size_mul height width) mines.length })
      (valid_ctor width height 0)
  | newGameCount g width height n ids =>
    exact valid_SetMinesRandomly n width height ids
      (g := { ResetField g width height with
        non_mines_qty_ := size_sub (size_mul height width) n }) (valid_ResetField g width height)
  | newGameList g width height mines =>
    exact valid_SetMinesByList mines width height
      (g := { ResetField g width height with
        non_mines_qty_ := size_sub (size_mul height width) mines.length })
      (valid_ResetField g width height)

theorem BfsLoop_valid (fuel : Nat) (g : Minesweeper) (queue : List CellPtr) (hv : Valid g)
    (hq : ∀ p ∈ queue, InGrid g.field_width_ g.field_height_ p) :
    Valid (BfsLoop fuel g queue).1 := by
  induction fuel generalizing g queue with
  | zero => cases queue <;> exact hv
  | succ fuel ih =>
    cases queue with
    | nil => exact hv
    | cons c r =>
      obtain ⟨hv2, hw, hh, hq2, _⟩ := BfsStep_valid hv r (hq c (List.mem_cons_self _ _))
        (fun p hp => hq p (List.mem_cons_of_mem _ hp))
      simp only [BfsLoop]
      exact ih _ _ hv2 (by rw [hw, hh]; exact hq2)

theorem valid_ensureStarted {g : Minesweeper} (hv : Valid g) (t : Int) :
    Valid (ensureStarted g t) := by
  unfold Valid
  rw [ensureStarted_field, ensureStarted_width, ensureStarted_height]
  exact hv

theorem valid_revealAll {g : Minesweeper} (hv : Valid g) : Valid (revealAll g) := by
  refine ⟨shaped_revealed hv.1, fun p hp => ?_⟩
  simp only [revealAll] at hp ⊢
  rw [cellAt_revealed hv.1 p hp]
  exact hv.2 p hp

theorem valid_OpenCell {g : Minesweeper} (hv : Valid g) (t0 t1 : Int) (cell : Cell)
    (hx : cell.x < g.field_width_) (hy : cell.y < g.field_height_) :
    Valid (OpenCell g t0 t1 cell) := by
  have hve := valid_ensureStarted hv t0
  have hstart : InGrid (ensureStarted g t0).field_width_ (ensureStarted g t0).field_height_
      ((cellAt g.field_ (cell.y, cell.x)).y, (cellAt g.field_ (cell.y, cell.x)).x) := by
    rw [ensureStarted_width, ensureStarted_height]
    exact hv.2 _ ⟨hy, hx⟩
  have hb : Valid (Bfs (ensureStarted g t0) (cellAt g.field_ (cell.y, cell.x))) := by
    apply BfsLoop_valid _ _ _ hve
    intro p hp
    rw [List.mem_singleton] at hp
    exact hp ▸ hstart
  rw [OpenCell_unfold]
  split_ifs
  · exact valid_revealAll (g := { ensureStarted g t0 with
      game_end_time_ := t1, game_status_ := GameStatus.DEFEAT }) hve
  · exact hb
  · exact hb
  · exact hve
  · exact hve

theorem valid_MarkCell {g : Minesweeper} (hv : Valid g) (t0 : Int) (cell : Cell) :
    Valid (MarkCell g t0 cell) := by
  have hve := valid_ensureStarted hv t0
  rw [MarkCell_unfold]
  split_ifs
  · have := valid_modifyAt hve (cell.y, cell.x) toggleFlag (fun _ => rfl)
    rw [ensureStarted_field] at this
    exact this
  · exact hve

/-- Every state the public interface produces is well formed: the field has the declared
shape and every cell stores coordinates of the grid.  This is the hypothesis under which
the flood fill is shown to terminate and `MarkCell` to toggle exactly one flag. -/
theorem valid_of_reachable {g0 g : Minesweeper} (h0 : IsSetup g0) (hr : Reachable g0 g) :
    Valid g := by
  induction hr with
  | init => exact valid_setup h0
  | open_cell t0 t1 cell _ hx hy ih => exact valid_OpenCell ih t0 t1 cell hx hy
  | mark_cell t0 cell _ _ _ ih => exact valid_MarkCell ih t0 cell

/-- Witness for C15: the fresh 3 x 3 board with one mine at `(2, 0)`, flood fill started at
the corner `(0, 0)`; and the board `NewGame(3, 3, {(2, 2)})` leaves, whose cells all store
the coordinates `(0, 0)`. -/
theorem Bfs_terminates_witness :
    (BfsLoop (bfsFuel (Minesweeper.ctorList 3 3 [⟨2, 0⟩])) (Minesweeper.ctorList 3 3 [⟨2, 0⟩])
        [(0, 0)]).2 = [] ∧
    (BfsLoop (bfsFuel (NewGameList (Minesweeper.ctorList 1 1 []) 3 3 [⟨2, 2⟩]))
        (NewGameList (Minesweeper.ctorList 1 1 []) 3 3 [⟨2, 2⟩]) [(1, 2)]).2 = [] ∧
    bfsFuel (Minesweeper.ctorList 3 3 [⟨2, 0⟩]) = 73 ∧
    (BfsLoop 73 (Minesweeper.ctorList 3 3 [⟨2, 0⟩]) [(0, 0)]).1.opened_cells_qty_ = 8 :=
  ⟨(Bfs_terminates (Minesweeper.ctorList 3 3 [⟨2, 0⟩])
      (valid_setup (IsSetup.ctorList 3 3 [⟨2, 0⟩])) (0, 0) (by decide)).1,
    (Bfs_terminates (NewGameList (Minesweeper.ctorList 1 1 []) 3 3 [⟨2, 2⟩])
      (valid_setup (IsSetup.newGameList _ 3 3 [⟨2, 2⟩])) (1, 2) (by decide)).1,
    by decide, by decide⟩

end Mines
